import Mathlib

/-!
# chunkwm tiling plugin: the command protocol of `config.cpp`

A shallow embedding of `src/plugins/tiling/config.cpp`: the lexer
(`GetToken`, `TokenEquals`), the argument builder (`BuildArguments`), the two
flag grammars (`ParseWindowCommand`, `ParseSpaceCommand`) and the message
callback (`DaemonCallback`).

Conventions of the embedding.

* A C string is the list of its characters before the terminator; a pointer
  into a string is the suffix it points at.
* Arrays are lists indexed by slot number. A slot that the code never
  initialises holds `none`. The size of an allocation is kept as a constant
  next to the array (`ArgsCapacity`). `BuildArguments` records every store at
  its slot index, whether or not that index lies inside the allocation, so that
  bounds are a property one can state about the indices; a function that goes
  on to use an array with a store outside its allocation has no defined
  behaviour and yields `none`.
* A pointer that may be null is an `Option`. A pointer into memory that has
  been freed is not read: the function that would read it yields `none`.
* Loops whose termination is not structural carry a step budget; running out
  of budget, reading a slot that was never written and indexing a table out of
  range all yield `none`.
* Floating-point values are an abstract type `F`; the comparison `!=` of the
  machine's floats is a parameter, which need not be the negation of equality
  (a NaN differs from itself).
* The effects of the external collaborators (window handlers, configuration
  store) are parameters, collected in `environment`.
-/

namespace Chunkwm

/-! ## Lexer -/

/-- A token is a view into the message: where it starts and how long it is. -/
structure token where
  Text : List Char
  Length : Nat
deriving DecidableEq, Repr

/-- The body of `TokenEquals`: `n` is `Token.Length - Index`, `Text` the text
from `Index` on, `At` the unread part of `Match`. Reading `Text` at its
terminator yields a character different from every character of `Match`. -/
def TokenEqualsFrom : Nat → List Char → List Char → Bool
  | 0, _, At => At.isEmpty
  | _ + 1, _, [] => false
  | _ + 1, [], _ :: _ => false
  | n + 1, t :: Text, a :: At => if t ≠ a then false else TokenEqualsFrom n Text At

/-- `TokenEquals(Token, Match)`. -/
def TokenEquals (Token : token) (Match : List Char) : Bool :=
  TokenEqualsFrom Token.Length Token.Text Match

/-- The `while(**Data && **Data != ' ')` loop of `GetToken`: the cursor after
it has run. -/
def GetTokenAdvance : List Char → List Char
  | [] => []
  | c :: cs => if c ≠ ' ' then GetTokenAdvance cs else c :: cs

/-- `GetToken(&Data)`: the token and the new value of the cursor. The length is
the pointer difference between the cursor after the loop and the token's
start. -/
def GetToken (Data : List Char) : token × List Char :=
  let At := GetTokenAdvance Data
  let Token : token := { Text := Data, Length := Data.length - At.length }
  match At with
  | [] => (Token, At)
  | c :: rest => if c = ' ' then (Token, rest) else (Token, At)

/-- `TokenToString(Token)`: a copy of the token's characters. -/
def TokenToString (Token : token) : List Char :=
  Token.Text.take Token.Length

/-! ## Argument builder -/

/-- The argument array together with the counter `*Count`. -/
structure arguments where
  Count : Nat
  Args : List (Option (List Char))
deriving DecidableEq, Repr

/-- Number of slots of the array allocated by `BuildArguments`. -/
def ArgsCapacity : Nat := 16

/-- The `while(*Message)` loop of `BuildArguments`. The store
`Args[(*Count)++] = Arg` goes to the slot after the last one written; the code
does not compare the slot index with the size of the array, and the store is
recorded here at its index whatever that size. -/
def BuildArgumentsLoop : Nat → List Char → arguments → Option arguments
  | _, [], A => some A
  | 0, _ :: _, _ => none
  | fuel + 1, c :: cs, A =>
    let r := GetToken (c :: cs)
    BuildArgumentsLoop fuel r.2
      { Count := A.Count + 1, Args := A.Args ++ [some (TokenToString r.1)] }

/-- `BuildArguments(Message, &Count)`: slot 0 is left uninitialised and
`*Count` starts at 1. The result lists the stores of the loop by slot index.
The array has `ArgsCapacity` slots: when `Count` ends above `ArgsCapacity`, the
stores at the indices from `ArgsCapacity` on went past its end, and the callers
`ParseWindowCommand` and `ParseSpaceCommand` have no defined result. -/
def BuildArguments (Message : List Char) : Option arguments :=
  BuildArgumentsLoop Message.length Message { Count := 1, Args := [none] }

/-! ## C library functions used by the parsers

These are not code of the repository. They are modelled after the C standard
and the `getopt(3)` manual: the parts the callers observe. Where libraries
differ, the model follows the GNU C library and says so. -/

/-- The C locale's `isspace`. -/
def isspace (c : Char) : Bool :=
  c = ' ' || c = '\t' || c = '\n' || c = Char.ofNat 11 || c = Char.ofNat 12 || c = '\r'

/-- Drops an optional sign. -/
def scan_sign : List Char → List Char
  | [] => []
  | c :: rest => if c = '+' ∨ c = '-' then rest else c :: rest

/-- The C locale's `isxdigit`. -/
def isxdigit (c : Char) : Bool :=
  c.isDigit || (decide ('a' ≤ c.toLower) && decide (c.toLower ≤ 'f'))

/-- Number of characters at the head of the text that agree, letter case
aside, with the head of `pat` (given in lower case). -/
def match_length : List Char → List Char → Nat
  | c :: s, p :: pat => if c.toLower = p then match_length s pat + 1 else 0
  | _, _ => 0

/-- Does `%f` convert a float from the head of the text? After an optional
sign the text must start with `nan`; with `inf`, which if an `i` follows must
go on to `infinity`; with `0x` and then a hexadecimal digit or a point; with a
decimal digit; or with a point and a decimal digit. Letter case is ignored.

Libraries differ on texts that only begin a constant. This follows the GNU C
library, which fails on `0x`, `0xg` and `infini` and converts the digits read
before an incomplete exponent (`1e`). The rule of C11 7.21.6.2 makes every
such text a matching failure; the BSD library converts the longest constant at
the head of the text. All three agree when the text is empty, when it starts
with a complete constant followed by a character that cannot continue one, and
when no constant starts it. -/
def float_matches (s : List Char) : Bool :=
  match scan_sign s with
  | [] => false
  | c :: rest =>
    if c.toLower = 'n' then match_length rest ['a', 'n'] = 2
    else if c.toLower = 'i' then
      match_length rest ['n', 'f'] = 2 &&
        (((rest.drop 2).head?.map Char.toLower) != some 'i' ||
          match_length (rest.drop 3) ['n', 'i', 't', 'y'] = 4)
    else if c = '0' ∧ (rest.head?.map Char.toLower) = some 'x' then
      match rest.drop 1 with
      | [] => false
      | d :: _ => isxdigit d || d = '.'
    else if c.isDigit then true
    else c = '.' && (rest.head?.map Char.isDigit).getD false

/-- Return value of `sscanf(s, "%f", &x)`: `EOF` (-1) when the input ends
before any conversion, 0 on a matching failure, 1 when a float was converted. -/
def sscanf_f (s : List Char) : Int :=
  let t := s.dropWhile isspace
  if t.isEmpty then -1 else if float_matches t then 1 else 0

/-- Value of a run of decimal digits, most significant first, continuing from
`acc`; returns the value and the text after the run. -/
def scan_digits : List Char → Nat → Nat × List Char
  | [], acc => (acc, [])
  | c :: rest, acc =>
    if c.isDigit then scan_digits rest (acc * 10 + (c.toNat - '0'.toNat)) else (acc, c :: rest)

/-- The `%d` conversion: skips white space, reads an optional sign and at
least one digit. Returns the mathematical value and the unread text. -/
def scan_int (s : List Char) : Option (Int × List Char) :=
  let t := s.dropWhile isspace
  let u := scan_sign t
  match u with
  | [] => none
  | c :: _ =>
    if c.isDigit then
      let r := scan_digits u 0
      some (if t.head? = some '-' then - (r.1 : Int) else (r.1 : Int), r.2)
    else none

/-- What `sscanf(s, "%d_%s", &First, Buffer) == 2` leaves in `First` and
`Buffer`, and `none` when the call returns anything else. `%s` skips white
space and reads the characters up to the next white space; it fails on an
empty run. `Buffer` is taken to hold the run whatever its length. -/
def sscanf_d_s (s : List Char) : Option (Int × List Char) :=
  match scan_int s with
  | none => none
  | some (First, rest) =>
    match rest with
    | [] => none
    | c :: rest =>
      if c = '_' then
        let Buffer := (rest.dropWhile isspace).takeWhile (fun x => !isspace x)
        if Buffer.isEmpty then none else some (First, Buffer)
      else none

/-- `strchr(s, c)` for a character other than the terminator: the suffix of
`s` starting at the first `c`. -/
def strchr : List Char → Char → Option (List Char)
  | [], _ => none
  | s :: rest, c => if s = c then some (s :: rest) else strchr rest c

/-- The variables `getopt` keeps between calls: `optind`, `optarg` and the
scan pointer into the option element being read (`nextchar` in the GNU
library, `place` in the BSD one). `none` is the null pointer; the scan pointer
is null in a fresh process and is set to null again whenever an option is
returned together with its argument. -/
structure getopt_globals where
  optind : Nat
  optarg : Option (List Char)
  nextchar : Option (List Char)
deriving DecidableEq, Repr

/-- An element that is not an option: it does not start with `-`, or it is
`-` alone. -/
def NONOPTION_P (arg : List Char) : Bool :=
  match arg with
  | c :: _ :: _ => c ≠ '-'
  | _ => true

/-- Skips the non-option elements at the head of `argv[optind..argc-1]`
(the default, permuting, mode of `getopt_long`). -/
def getopt_skip : List (Option (List Char)) → Nat → Option Nat
  | [], optind => some optind
  | none :: _, _ => none
  | some a :: rest, optind =>
    if NONOPTION_P a then getopt_skip rest (optind + 1) else some optind

/-- The short-option step of `getopt_long`: reads the next character of the
current option element and, for an option that takes an argument, its
argument. The result is the returned character and the updated globals. The
diagnostic printed on `stderr` when `?` is returned is not part of the model
(the GNU library builds it from `argv[0]`, the slot `BuildArguments` leaves
uninitialised; the BSD library does not read `argv[0]`). -/
def getopt_short (Count : Nat) (Args : List (Option (List Char))) (Short : List Char)
    (g : getopt_globals) : Option (Option Char × getopt_globals) :=
  match g.nextchar with
  | none => none
  | some [] => none
  | some (c :: next) =>
    let optind := if next.isEmpty then g.optind + 1 else g.optind
    match strchr Short c with
    | none => some (some '?', { optind := optind, optarg := none, nextchar := some next })
    | some temp =>
      if c = ':' ∨ c = ';' then
        some (some '?', { optind := optind, optarg := none, nextchar := some next })
      else if temp.tail.head? = some ':' then
        if temp.tail.tail.head? = some ':' then
          if next.isEmpty then
            some (some c, { optind := optind, optarg := none, nextchar := none })
          else
            some (some c, { optind := optind + 1, optarg := some next, nextchar := none })
        else if ¬ next.isEmpty then
          some (some c, { optind := optind + 1, optarg := some next, nextchar := none })
        else if optind = Count then
          some (some (if Short.head? = some ':' then ':' else '?'),
            { optind := optind, optarg := none, nextchar := none })
        else
          match Args[optind]? with
          | some (some a) =>
            some (some c, { optind := optind + 1, optarg := some a, nextchar := none })
          | _ => none
      else
        some (some c, { optind := optind, optarg := none, nextchar := some next })

/-- `getopt_long(Count, Args, Short, NULL, NULL)`. The inner `none` is the
return value -1. With no long options, an element `--x` is scanned as the
short options `-`, `x`; the element `--` ends the options. A scan pointer that
is null or at the end of its element makes the scan move on to the next
element; the return value -1 leaves the scan pointer as it is. The scan
pointer is taken to point into one of the strings of `Args`. The elements are
not reordered, and the value given to `optind` when -1 is returned is the
index after the elements skipped: both callers overwrite `optind` right after
the loop and free the array. -/
def getopt_long (Count : Nat) (Args : List (Option (List Char))) (Short : List Char)
    (g : getopt_globals) : Option (Option Char × getopt_globals) :=
  if Count < 1 then some (none, g)
  else if g.nextchar = none ∨ g.nextchar = some [] then
    match getopt_skip ((Args.take Count).drop g.optind) g.optind with
    | none => none
    | some optind =>
      if Count ≤ optind then
        some (none, { optind := optind, optarg := none, nextchar := g.nextchar })
      else
        match Args[optind]? with
        | some (some a) =>
          if a = ['-', '-'] then
            some (none, { optind := Count, optarg := none, nextchar := g.nextchar })
          else
            getopt_short Count Args Short
              { optind := optind, optarg := none, nextchar := some a.tail }
        | _ => none
  else getopt_short Count Args Short { g with optarg := none }

/-! ## Command chains and the two flag grammars -/

/-- A node of the command chain, without its link. The chain hanging off the
sentinel head is the list of its nodes. -/
structure command where
  Flag : Char
  Arg : List Char
deriving DecidableEq, Repr

/-- Modelled from the spec: `StringEquals` of `misc.h`, which is not part of the
sources at hand. The spec's "accepted arguments exactly" is equality of the two
strings. -/
def StringEquals (A B : List Char) : Bool := decide (A = B)

/-- The option string of the window grammar, `"f:s:i:t:w:r:"`. -/
def WindowShort : List Char :=
  ['f', ':', 's', ':', 'i', ':', 't', ':', 'w', ':', 'r', ':']

/-- The option string of the space grammar, `"r:"`. -/
def SpaceShort : List Char := ['r', ':']

/-- The `while((Option = getopt_long(...)) != -1)` loop of `ParseWindowCommand`.
Yields `Success`, the chain and the globals of `getopt` at label `End`. On a
failure the nodes are freed, so the chain handed back is empty. -/
def ParseWindowLoop (Count : Nat) (Args : List (Option (List Char))) :
    Nat → getopt_globals → List command → Option (Bool × List command × getopt_globals)
  | 0, _, _ => none
  | fuel + 1, g, Chain =>
    match getopt_long Count Args WindowShort g with
    | none => none
    | some (none, g1) => some (true, Chain, g1)
    | some (some Opt, g1) =>
      if Opt = 'f' ∨ Opt = 's' ∨ Opt = 'i' ∨ Opt = 'w' then
        match g1.optarg with
        | none => none
        | some optarg =>
          if StringEquals optarg ['w', 'e', 's', 't']
              || StringEquals optarg ['e', 'a', 's', 't']
              || StringEquals optarg ['n', 'o', 'r', 't', 'h']
              || StringEquals optarg ['s', 'o', 'u', 't', 'h'] then
            ParseWindowLoop Count Args fuel g1 (Chain ++ [{ Flag := Opt, Arg := optarg }])
          else some (false, [], g1)
      else if Opt = 'r' then
        match g1.optarg with
        | none => none
        | some optarg =>
          if sscanf_f optarg ≠ 0 then
            ParseWindowLoop Count Args fuel g1 (Chain ++ [{ Flag := Opt, Arg := optarg }])
          else some (false, [], g1)
      else if Opt = 't' then
        match g1.optarg with
        | none => none
        | some optarg =>
          if StringEquals optarg ['f', 'l', 'o', 'a', 't'] then
            ParseWindowLoop Count Args fuel g1 (Chain ++ [{ Flag := Opt, Arg := optarg }])
          else some (false, [], g1)
      else if Opt = '?' then some (false, [], g1)
      else ParseWindowLoop Count Args fuel g1 Chain

/-- `ParseWindowCommand(Message, &Chain)` started with the globals `g` of
`getopt`: `Success`, the chain, and the globals after `optind = 1`.

Two things make the call undefined, and the result `none`. `BuildArguments`
has stored past the `ArgsCapacity` slots it allocated. Or the scan pointer of
`getopt` is not null on entry: the strings it can point into are those of an
earlier call, which `FreeArguments` has freed, and `getopt_long` starts by
reading through it. At label `End` only `optind` is reset, so the scan pointer
is handed on as the loop left it.

Every call of `getopt_long` that does not end the loop consumes a character of
the message, which bounds the number of rounds. -/
def ParseWindowCommand (Message : List Char) (g : getopt_globals) :
    Option (Bool × List command × getopt_globals) :=
  match BuildArguments Message with
  | none => none
  | some A =>
    if ArgsCapacity < A.Count then none
    else if g.nextchar.isSome then none
    else
      match ParseWindowLoop A.Count A.Args (Message.length + 1) g [] with
      | none => none
      | some (Success, Chain, g1) => some (Success, Chain, { g1 with optind := 1 })

/-- The `while((Option = getopt_long(...)) != -1)` loop of `ParseSpaceCommand`. -/
def ParseSpaceLoop (Count : Nat) (Args : List (Option (List Char))) :
    Nat → getopt_globals → List command → Option (Bool × List command × getopt_globals)
  | 0, _, _ => none
  | fuel + 1, g, Chain =>
    match getopt_long Count Args SpaceShort g with
    | none => none
    | some (none, g1) => some (true, Chain, g1)
    | some (some Opt, g1) =>
      if Opt = 'r' then
        match g1.optarg with
        | none => none
        | some optarg =>
          if StringEquals optarg ['9', '0']
              || StringEquals optarg ['1', '8', '0']
              || StringEquals optarg ['2', '7', '0'] then
            ParseSpaceLoop Count Args fuel g1 (Chain ++ [{ Flag := Opt, Arg := optarg }])
          else some (false, [], g1)
      else if Opt = '?' then some (false, [], g1)
      else ParseSpaceLoop Count Args fuel g1 Chain

/-- `ParseSpaceCommand(Message, &Chain)` started with the globals `g`; it is
undefined in the same two cases as `ParseWindowCommand`. -/
def ParseSpaceCommand (Message : List Char) (g : getopt_globals) :
    Option (Bool × List command × getopt_globals) :=
  match BuildArguments Message with
  | none => none
  | some A =>
    if ArgsCapacity < A.Count then none
    else if g.nextchar.isSome then none
    else
      match ParseSpaceLoop A.Count A.Args (Message.length + 1) g [] with
      | none => none
      | some (Success, Chain, g1) => some (Success, Chain, { g1 with optind := 1 })

/-! ## Dispatch tables -/

/-- The external handlers a `command_func` can point at. -/
inductive command_func where
  | FocusWindow
  | SwapWindow
  | UseInsertionPoint
  | ToggleWindow
  | MoveWindow
  | TemporaryRatio
  | RotateWindowTree
deriving DecidableEq, Repr

/-- The table `WindowCommandDispatch[]`. -/
def WindowCommandDispatch : List command_func :=
  [.FocusWindow, .SwapWindow, .UseInsertionPoint, .ToggleWindow, .MoveWindow, .TemporaryRatio]

def WINDOW_FLAG_F : Nat := 0
def WINDOW_FLAG_S : Nat := 1
def WINDOW_FLAG_I : Nat := 2
def WINDOW_FLAG_T : Nat := 3
def WINDOW_FLAG_W : Nat := 4
def WINDOW_FLAG_R : Nat := 5

/-- `WindowFuncFromFlag(Flag)`. -/
def WindowFuncFromFlag (Flag : Char) : Nat :=
  if Flag = 'f' then WINDOW_FLAG_F
  else if Flag = 's' then WINDOW_FLAG_S
  else if Flag = 'i' then WINDOW_FLAG_I
  else if Flag = 't' then WINDOW_FLAG_T
  else if Flag = 'w' then WINDOW_FLAG_W
  else if Flag = 'r' then WINDOW_FLAG_R
  else 0

/-- The table `SpaceCommandDispatch[]`. -/
def SpaceCommandDispatch : List command_func := [.RotateWindowTree]

def SPACE_FLAG_R : Nat := 0

/-- `SpaceFuncFromFlag(Flag)`. -/
def SpaceFuncFromFlag (Flag : Char) : Nat :=
  if Flag = 'r' then SPACE_FLAG_R else 0

/-! ## The configuration store and the callback -/

/-- Layout modes of a virtual space (`vspace.h`). -/
inductive virtual_space_mode where
  | Virtual_Space_Bsp
  | Virtual_Space_Monocle
  | Virtual_Space_Float
deriving DecidableEq, Repr

/-- Split modes of a node (`node.h`). -/
inductive node_split where
  | Split_Optimal
  | Split_Vertical
  | Split_Horizontal
deriving DecidableEq, Repr

/-- The second argument of `UpdateCVar`, by the type the call site passes.
`F` stands for the machine's `float`. -/
inductive cvar_value (F : Type) where
  | mode (Value : virtual_space_mode)
  | split (Value : node_split)
  | int (Value : Int)
  | float (Value : F)
deriving DecidableEq, Repr

/-- A call that leaves `config.cpp`: a handler of one of the dispatch tables
applied to an argument string, or `UpdateCVar(Variable, Value)`. -/
inductive call (F : Type) where
  | Command (Func : command_func) (Arg : List Char)
  | UpdateCVar (Variable : List Char) (Value : cvar_value F)
deriving DecidableEq, Repr

/-- The names defined in `constants.h`, which is not part of the sources at
hand; their values are parameters. -/
structure constants where
  CVAR_SPACE_MODE : List Char
  CVAR_SPACE_OFFSET_TOP : List Char
  CVAR_SPACE_OFFSET_BOTTOM : List Char
  CVAR_SPACE_OFFSET_LEFT : List Char
  CVAR_SPACE_OFFSET_RIGHT : List Char
  CVAR_SPACE_OFFSET_GAP : List Char
  CVAR_BSP_SPAWN_LEFT : List Char
  CVAR_BSP_OPTIMAL_RATIO : List Char
  CVAR_BSP_SPLIT_RATIO : List Char
  CVAR_BSP_SPLIT_MODE : List Char
  CVAR_WINDOW_FLOAT_TOPMOST : List Char
  CVAR_WINDOW_FLOAT_NEXT : List Char
  CVAR_MOUSE_FOLLOWS_FOCUS : List Char
  _CVAR_SPACE_MODE : List Char
  _CVAR_SPACE_OFFSET_TOP : List Char
  _CVAR_SPACE_OFFSET_BOTTOM : List Char
  _CVAR_SPACE_OFFSET_LEFT : List Char
  _CVAR_SPACE_OFFSET_RIGHT : List Char
  _CVAR_SPACE_OFFSET_GAP : List Char

/-- What the callback needs from outside `config.cpp`: the names of
`constants.h`, the float that a successful `%f` conversion assigns, the float
zero, the comparison `!=` of two floats, the reader `CVarFloatingPointValue`
of the configuration store, and the effect of every outgoing call on the state
`σ` of the collaborators. -/
structure environment (σ F : Type) where
  names : constants
  float_zero : F
  float_value : List Char → F
  float_ne : F → F → Bool
  CVarFloatingPointValue : List Char → σ → F
  perform : call F → σ → σ

/-- State threaded through the callback: the globals of `getopt`, the state of
the collaborators, and the outgoing calls made so far, oldest first. -/
structure daemon (σ F : Type) where
  getopt : getopt_globals
  world : σ
  calls : List (call F)

/-- Makes an outgoing call. -/
def invoke {σ F : Type} (env : environment σ F) (c : call F) (s : daemon σ F) : daemon σ F :=
  { s with world := env.perform c s.world, calls := s.calls ++ [c] }

/-- `TokenToFloat(Token)`: `Result` keeps its initial 0 unless `sscanf` converts. -/
def TokenToFloat {σ F : Type} (env : environment σ F) (Token : token) : F :=
  if sscanf_f (TokenToString Token) = 1 then env.float_value (TokenToString Token)
  else env.float_zero

/-- Conversion of the `long` read by `%d` to `int` on an LP64 machine: the
value saturates at the range of `long` and is then cut to 32 bits. -/
def long_to_int (v : Int) : Int :=
  ((max (-(2 ^ 63)) (min v (2 ^ 63 - 1))) + 2 ^ 31) % 2 ^ 32 - 2 ^ 31

/-- `TokenToInt(Token)`: `Result` keeps its initial 0 unless `sscanf` converts. -/
def TokenToInt (Token : token) : Int :=
  match scan_int (TokenToString Token) with
  | some (v, _) => long_to_int v
  | none => 0

/-- The block that reads a layout mode and updates `Variable`
(lines 374-394 and 543-563). -/
def UpdateSpaceMode {σ F : Type} (env : environment σ F) (Variable Message : List Char)
    (s : daemon σ F) : daemon σ F :=
  let Value := (GetToken Message).1
  if Value.Length > 0 then
    if TokenEquals Value ['b', 's', 'p'] then
      invoke env (.UpdateCVar Variable (.mode .Virtual_Space_Bsp)) s
    else if TokenEquals Value ['m', 'o', 'n', 'o', 'c', 'l', 'e'] then
      invoke env (.UpdateCVar Variable (.mode .Virtual_Space_Monocle)) s
    else if TokenEquals Value ['f', 'l', 'o', 'a', 't'] then
      invoke env (.UpdateCVar Variable (.mode .Virtual_Space_Float)) s
    else s
  else s

/-- The block that reads a float and updates `Variable`
(lines 407-417, 446-456 and 529-539). -/
def UpdateFloat {σ F : Type} (env : environment σ F) (Variable Message : List Char)
    (s : daemon σ F) : daemon σ F :=
  let Value := (GetToken Message).1
  if Value.Length > 0 then
    invoke env (.UpdateCVar Variable (.float (TokenToFloat env Value))) s
  else s

/-- The block that reads an integer and updates `Variable`
(lines 426-436 and 496-506). -/
def UpdateInt {σ F : Type} (env : environment σ F) (Variable Message : List Char)
    (s : daemon σ F) : daemon σ F :=
  let Value := (GetToken Message).1
  if Value.Length > 0 then
    invoke env (.UpdateCVar Variable (.int (TokenToInt Value))) s
  else s

/-- The block that reads a split mode and updates `Variable` (lines 465-485). -/
def UpdateSplitMode {σ F : Type} (env : environment σ F) (Variable Message : List Char)
    (s : daemon σ F) : daemon σ F :=
  let Value := (GetToken Message).1
  if Value.Length > 0 then
    if TokenEquals Value ['o', 'p', 't', 'i', 'm', 'a', 'l'] then
      invoke env (.UpdateCVar Variable (.split .Split_Optimal)) s
    else if TokenEquals Value ['v', 'e', 'r', 't', 'i', 'c', 'a', 'l'] then
      invoke env (.UpdateCVar Variable (.split .Split_Vertical)) s
    else if TokenEquals Value ['h', 'o', 'r', 'i', 'z', 'o', 'n', 't', 'a', 'l'] then
      invoke env (.UpdateCVar Variable (.split .Split_Horizontal)) s
    else s
  else s

/-- The `config` branch of `DaemonCallback`; `Message` is the text after the
first token. -/
def ConfigCommand {σ F : Type} (env : environment σ F) (Message : List Char)
    (s : daemon σ F) : daemon σ F :=
  let Command := (GetToken Message).1
  let Message := (GetToken Message).2
  let Variable := TokenToString Command
  if TokenEquals Command env.names.CVAR_SPACE_MODE then
    UpdateSpaceMode env Variable Message s
  else if TokenEquals Command env.names.CVAR_SPACE_OFFSET_TOP
      || TokenEquals Command env.names.CVAR_SPACE_OFFSET_BOTTOM
      || TokenEquals Command env.names.CVAR_SPACE_OFFSET_LEFT
      || TokenEquals Command env.names.CVAR_SPACE_OFFSET_RIGHT
      || TokenEquals Command env.names.CVAR_SPACE_OFFSET_GAP then
    UpdateFloat env Variable Message s
  else if TokenEquals Command env.names.CVAR_BSP_SPAWN_LEFT then
    UpdateInt env Variable Message s
  else if TokenEquals Command env.names.CVAR_BSP_OPTIMAL_RATIO
      || TokenEquals Command env.names.CVAR_BSP_SPLIT_RATIO then
    UpdateFloat env Variable Message s
  else if TokenEquals Command env.names.CVAR_BSP_SPLIT_MODE then
    UpdateSplitMode env Variable Message s
  else if TokenEquals Command env.names.CVAR_WINDOW_FLOAT_TOPMOST
      || TokenEquals Command env.names.CVAR_WINDOW_FLOAT_NEXT
      || TokenEquals Command env.names.CVAR_MOUSE_FOLLOWS_FOCUS then
    UpdateInt env Variable Message s
  else
    match sscanf_d_s Variable with
    | some (_, Buffer) =>
      if StringEquals Buffer env.names._CVAR_SPACE_OFFSET_TOP
          || StringEquals Buffer env.names._CVAR_SPACE_OFFSET_BOTTOM
          || StringEquals Buffer env.names._CVAR_SPACE_OFFSET_LEFT
          || StringEquals Buffer env.names._CVAR_SPACE_OFFSET_RIGHT
          || StringEquals Buffer env.names._CVAR_SPACE_OFFSET_GAP then
        UpdateFloat env Variable Message s
      else if StringEquals Buffer env.names._CVAR_SPACE_MODE then
        UpdateSpaceMode env Variable Message s
      else s
    | none => s

/-- The `while((Command = Command->Next))` loop of the `window` and `space`
branches: each node's flag is mapped to an index by `FuncFromFlag` and the
entry of `Dispatch` at that index is called with the node's argument. -/
def DispatchChain {σ F : Type} (env : environment σ F) (FuncFromFlag : Char → Nat)
    (Dispatch : List command_func) : List command → daemon σ F → Option (daemon σ F)
  | [], s => some s
  | Command :: Next, s =>
    match Dispatch[FuncFromFlag Command.Flag]? with
    | none => none
    | some Func =>
      DispatchChain env FuncFromFlag Dispatch Next (invoke env (.Command Func Command.Arg) s)

/-- `DaemonCallback(Message, SockFD)`. -/
def DaemonCallback {σ F : Type} (env : environment σ F) (Message : List Char)
    (s : daemon σ F) : Option (daemon σ F) :=
  let Kind := (GetToken Message).1
  let Message := (GetToken Message).2
  if TokenEquals Kind ['c', 'o', 'n', 'f', 'i', 'g'] then
    some (ConfigCommand env Message s)
  else if TokenEquals Kind ['w', 'i', 'n', 'd', 'o', 'w'] then
    match ParseWindowCommand Message s.getopt with
    | none => none
    | some (Success, Chain, g) =>
      let s := { s with getopt := g }
      if Success then
        let Ratio := env.CVarFloatingPointValue env.names.CVAR_BSP_SPLIT_RATIO s.world
        match DispatchChain env WindowFuncFromFlag WindowCommandDispatch Chain s with
        | none => none
        | some s =>
          if env.float_ne Ratio
              (env.CVarFloatingPointValue env.names.CVAR_BSP_SPLIT_RATIO s.world) then
            some (invoke env (.UpdateCVar env.names.CVAR_BSP_SPLIT_RATIO (.float Ratio)) s)
          else some s
      else some s
  else if TokenEquals Kind ['s', 'p', 'a', 'c', 'e'] then
    match ParseSpaceCommand Message s.getopt with
    | none => none
    | some (Success, Chain, g) =>
      let s := { s with getopt := g }
      if Success then
        DispatchChain env SpaceFuncFromFlag SpaceCommandDispatch Chain s
      else some s
  else some s

/-! ## Predicates used in the statements -/

/-- The characters a token is made of. -/
def token_char (c : Char) : Bool := decide (c ≠ ' ')

/-- The fields of a message: it is cut at every space, and an empty last field
is dropped. `cur` is the part of the current field already read. -/
def message_fields : List Char → List Char → List (List Char)
  | [], cur => if cur.isEmpty then [] else [cur]
  | c :: cs, cur =>
    if c = ' ' then cur :: message_fields cs [] else message_fields cs (cur ++ [c])

/-- The accepted arguments of the window grammar, by flag (the table of the
spec): a direction for `f`, `s`, `i`, `w`; `float` for `t`; for `r` a string
from which `%f` converts a float. -/
def window_argument_accepted (Flag : Char) (a : List Char) : Bool :=
  if Flag = 'f' ∨ Flag = 's' ∨ Flag = 'i' ∨ Flag = 'w' then
    a = ['w', 'e', 's', 't'] ∨ a = ['e', 'a', 's', 't'] ∨ a = ['n', 'o', 'r', 't', 'h']
      ∨ a = ['s', 'o', 'u', 't', 'h']
  else if Flag = 't' then a = ['f', 'l', 'o', 'a', 't']
  else if Flag = 'r' then sscanf_f a = 1
  else false

/-- The handler the spec assigns to a window flag. -/
def window_handler (Flag : Char) : command_func :=
  if Flag = 'f' then .FocusWindow
  else if Flag = 's' then .SwapWindow
  else if Flag = 'i' then .UseInsertionPoint
  else if Flag = 'w' then .MoveWindow
  else if Flag = 't' then .ToggleWindow
  else .TemporaryRatio

/-- The words of a message made of `-<flag> <arg>` pairs. -/
def pair_words : List (Char × List Char) → List (List Char)
  | [] => []
  | p :: ps => ['-', p.1] :: p.2 :: pair_words ps

/-- The globals of `getopt` in a fresh process. -/
def getopt_reset : getopt_globals := { optind := 1, optarg := none, nextchar := none }

/-- A sample assignment of the names of `constants.h`, used where a statement
is instantiated at a concrete message: `mouse_follows_focus` and the suffix
`top` are those of the spec's examples. -/
def sample_names : constants where
  CVAR_SPACE_MODE := "global_desktop_mode".toList
  CVAR_SPACE_OFFSET_TOP := "global_desktop_offset_top".toList
  CVAR_SPACE_OFFSET_BOTTOM := "global_desktop_offset_bottom".toList
  CVAR_SPACE_OFFSET_LEFT := "global_desktop_offset_left".toList
  CVAR_SPACE_OFFSET_RIGHT := "global_desktop_offset_right".toList
  CVAR_SPACE_OFFSET_GAP := "global_desktop_offset_gap".toList
  CVAR_BSP_SPAWN_LEFT := "bsp_spawn_left".toList
  CVAR_BSP_OPTIMAL_RATIO := "bsp_optimal_ratio".toList
  CVAR_BSP_SPLIT_RATIO := "bsp_split_ratio".toList
  CVAR_BSP_SPLIT_MODE := "bsp_split_mode".toList
  CVAR_WINDOW_FLOAT_TOPMOST := "window_float_topmost".toList
  CVAR_WINDOW_FLOAT_NEXT := "window_float_next".toList
  CVAR_MOUSE_FOLLOWS_FOCUS := "mouse_follows_focus".toList
  _CVAR_SPACE_MODE := "mode".toList
  _CVAR_SPACE_OFFSET_TOP := "top".toList
  _CVAR_SPACE_OFFSET_BOTTOM := "bottom".toList
  _CVAR_SPACE_OFFSET_LEFT := "left".toList
  _CVAR_SPACE_OFFSET_RIGHT := "right".toList
  _CVAR_SPACE_OFFSET_GAP := "gap".toList

/-- A sample configuration store: the list of the updates made, newest first. -/
abbrev sample_store : Type := List (List Char × cvar_value Int)

/-- The float stored under `Variable` in the sample store, 0 when there is none. -/
def sample_read (Variable : List Char) : sample_store → Int
  | [] => 0
  | (k, v) :: rest =>
    if k = Variable then
      match v with
      | .float x => x
      | _ => 0
    else sample_read Variable rest

/-- A sample environment, with integers standing for floats that are numbers:
the store records its updates, `TemporaryRatio` adds its argument to the split
ratio, the other handlers leave the store alone. -/
def sample_environment : environment sample_store Int where
  names := sample_names
  float_zero := 0
  float_value := fun s =>
    match scan_int s with
    | some (v, _) => v
    | none => 0
  float_ne := fun a b => decide (a ≠ b)
  CVarFloatingPointValue := sample_read
  perform := fun c w =>
    match c with
    | .UpdateCVar k v => (k, v) :: w
    | .Command .TemporaryRatio a =>
      (sample_names.CVAR_BSP_SPLIT_RATIO,
        .float (sample_read sample_names.CVAR_BSP_SPLIT_RATIO w +
          match scan_int a with
          | some (v, _) => v
          | none => 0)) :: w
    | .Command _ _ => w

/-- The callback's state in a fresh process over the sample store. -/
def sample_daemon (w : sample_store) : daemon sample_store Int :=
  { getopt := getopt_reset, world := w, calls := [] }

/-- The state after a sequence of outgoing calls has been made, in order. -/
def run_calls {σ F : Type} (env : environment σ F) (cs : List (call F)) (s : daemon σ F) :
    daemon σ F :=
  cs.foldl (fun st c => invoke env c st) s

/-- The call the window branch makes for a node of the chain: the entry of
`WindowCommandDispatch` at the index `WindowFuncFromFlag` gives. -/
def window_call {F : Type} (Command : command) : call F :=
  .Command (WindowCommandDispatch.getD (WindowFuncFromFlag Command.Flag) .FocusWindow) Command.Arg

/-- The call the space branch makes for a node of the chain. -/
def space_call {F : Type} (Command : command) : call F :=
  .Command (SpaceCommandDispatch.getD (SpaceFuncFromFlag Command.Flag) .RotateWindowTree)
    Command.Arg

/-- The well-known global names the `config` branch compares the key with. -/
def global_names (n : constants) : List (List Char) :=
  [n.CVAR_SPACE_MODE, n.CVAR_SPACE_OFFSET_TOP, n.CVAR_SPACE_OFFSET_BOTTOM,
   n.CVAR_SPACE_OFFSET_LEFT, n.CVAR_SPACE_OFFSET_RIGHT, n.CVAR_SPACE_OFFSET_GAP,
   n.CVAR_BSP_SPAWN_LEFT, n.CVAR_BSP_OPTIMAL_RATIO, n.CVAR_BSP_SPLIT_RATIO,
   n.CVAR_BSP_SPLIT_MODE, n.CVAR_WINDOW_FLOAT_TOPMOST, n.CVAR_WINDOW_FLOAT_NEXT,
   n.CVAR_MOUSE_FOLLOWS_FOCUS]

/-- The known offset suffixes of a scoped key. -/
def offset_suffixes (n : constants) : List (List Char) :=
  [n._CVAR_SPACE_OFFSET_TOP, n._CVAR_SPACE_OFFSET_BOTTOM, n._CVAR_SPACE_OFFSET_LEFT,
   n._CVAR_SPACE_OFFSET_RIGHT, n._CVAR_SPACE_OFFSET_GAP]

/-- The text of an integer: an optional sign and at least one decimal digit. -/
def integer_text (t : List Char) : Bool :=
  match scan_sign t with
  | [] => false
  | c :: cs => (c :: cs).all Char.isDigit

/-- A key of the form `<integer>_<suffix>`. -/
def scoped_key (key suffix : List Char) : Prop :=
  ∃ t : List Char, integer_text t = true ∧ key = t ++ '_' :: suffix

/-- The words `ws` start with an element the window grammar rejects: an option
element whose first flag is none of `f`, `s`, `i`, `t`, `w`, `r`; one of these
flags as the last word, its argument missing; or one of these flags followed by
an argument that fails the check of the flag (for `r`: `sscanf` returns 0). -/
def window_rejected (ws : List (List Char)) : Prop :=
  (∃ (c : Char) (cs : List Char) (post : List (List Char)),
      ws = ('-' :: c :: cs) :: post ∧
      ¬ (c = 'f' ∨ c = 's' ∨ c = 'i' ∨ c = 'w' ∨ c = 't' ∨ c = 'r') ∧ ¬ (c = '-' ∧ cs = [])) ∨
  (∃ X : Char, (X = 'f' ∨ X = 's' ∨ X = 'i' ∨ X = 'w' ∨ X = 't' ∨ X = 'r') ∧
      ws = [['-', X]]) ∨
  (∃ (X : Char) (a : List Char) (post : List (List Char)),
      ws = ['-', X] :: a :: post ∧
      (((X = 'f' ∨ X = 's' ∨ X = 'i' ∨ X = 'w' ∨ X = 't') ∧
          window_argument_accepted X a = false) ∨ (X = 'r' ∧ sscanf_f a = 0)))

/-- Drops one empty final field. -/
def drop_empty_last (fields : List (List Char)) : List (List Char) :=
  if fields.getLast? = some [] then fields.dropLast else fields

/-- The fields of a message as the claim words them: the message split at
every single space character, one empty final field dropped. -/
def split_fields (Message : List Char) : List (List Char) :=
  drop_empty_last (List.splitOn ' ' Message)

/-- The layout mode a value string names, by the claim's table. -/
def layout_mode_of (v : List Char) : Option virtual_space_mode :=
  if v = ['b', 's', 'p'] then some .Virtual_Space_Bsp
  else if v = ['m', 'o', 'n', 'o', 'c', 'l', 'e'] then some .Virtual_Space_Monocle
  else if v = ['f', 'l', 'o', 'a', 't'] then some .Virtual_Space_Float
  else none

/-- The split mode a value string names, by the claim's table. -/
def split_mode_of (v : List Char) : Option node_split :=
  if v = ['o', 'p', 't', 'i', 'm', 'a', 'l'] then some .Split_Optimal
  else if v = ['v', 'e', 'r', 't', 'i', 'c', 'a', 'l'] then some .Split_Vertical
  else if v = ['h', 'o', 'r', 'i', 'z', 'o', 'n', 't', 'a', 'l'] then some .Split_Horizontal
  else none

/-- The state after the one update a mode value causes, or the unchanged state
when the value names no mode. -/
def after_mode_update {σ F : Type} (env : environment σ F) (Variable : List Char)
    (Value : Option (cvar_value F)) (s : daemon σ F) : daemon σ F :=
  match Value with
  | some x => invoke env (.UpdateCVar Variable x) s
  | none => s

/-- The number a run of decimal digits denotes, most significant digit first. -/
def decimal_value (ds : List Char) : Nat :=
  Nat.ofDigits 10 ((ds.map (fun c => c.toNat - '0'.toNat)).reverse)

/-- The integer a text of the form sign, digits denotes. -/
def integer_value (t : List Char) : Int :=
  if t.head? = some '-' then - (decimal_value (scan_sign t) : Int)
  else (decimal_value (scan_sign t) : Int)

/-- The keys whose value is an integer. -/
def integer_names (n : constants) : List (List Char) :=
  [n.CVAR_BSP_SPAWN_LEFT, n.CVAR_WINDOW_FLOAT_TOPMOST, n.CVAR_WINDOW_FLOAT_NEXT,
   n.CVAR_MOUSE_FOLLOWS_FOCUS]

/-- The global names whose value is a mode or a float; the `config` branch
tests some of them before it reaches an integer key. -/
def other_names (n : constants) : List (List Char) :=
  [n.CVAR_SPACE_MODE, n.CVAR_SPACE_OFFSET_TOP, n.CVAR_SPACE_OFFSET_BOTTOM,
   n.CVAR_SPACE_OFFSET_LEFT, n.CVAR_SPACE_OFFSET_RIGHT, n.CVAR_SPACE_OFFSET_GAP,
   n.CVAR_BSP_OPTIMAL_RATIO, n.CVAR_BSP_SPLIT_RATIO, n.CVAR_BSP_SPLIT_MODE]

/-- A sample configuration store over floats that include a NaN: the list of
the updates made, newest first. `none` stands for the NaN. -/
abbrev nan_store : Type := List (List Char × cvar_value (Option Int))

/-- The float stored under `Variable` in the store with a NaN, 0 when there is
none. -/
def nan_read (Variable : List Char) : nan_store → Option Int
  | [] => some 0
  | (k, v) :: rest =>
    if k = Variable then
      match v with
      | .float x => x
      | _ => some 0
    else nan_read Variable rest

/-- A sample environment whose floats are the integers and a NaN: `%f`
converts the text `nan` to the NaN, and `!=` holds as soon as one side is the
NaN. The store records its updates; the handlers leave it alone. -/
def nan_environment : environment nan_store (Option Int) where
  names := sample_names
  float_zero := some 0
  float_value := fun s =>
    if s.map Char.toLower = ['n', 'a', 'n'] then none
    else
      match scan_int s with
      | some (v, _) => some v
      | none => some 0
  float_ne := fun a b =>
    match a, b with
    | some x, some y => decide (x ≠ y)
    | _, _ => true
  CVarFloatingPointValue := nan_read
  perform := fun c w =>
    match c with
    | .UpdateCVar k v => (k, v) :: w
    | .Command _ _ => w

/-- The callback's state in a fresh process over the store with a NaN. -/
def nan_daemon : daemon nan_store (Option Int) :=
  { getopt := getopt_reset, world := [], calls := [] }

/-! # Theorems -/

/-! ## Lexer lemmas -/

theorem GetTokenAdvance_eq (s : List Char) :
    GetTokenAdvance s = s.dropWhile token_char := by
  induction s with
  | nil => rfl
  | cons c cs ih =>
    by_cases h : c = ' '
    · simp [GetTokenAdvance, h, token_char]
    · simp [GetTokenAdvance, h, ih, token_char, List.dropWhile]

theorem length_sub_dropWhile (p : Char → Bool) (s : List Char) :
    s.length - (s.dropWhile p).length = (s.takeWhile p).length := by
  have h := congrArg List.length (List.takeWhile_append_dropWhile p s)
  rw [List.length_append] at h
  omega

theorem take_length_takeWhile (p : Char → Bool) (s : List Char) :
    s.take (s.takeWhile p).length = s.takeWhile p := by
  conv_lhs => rw [← List.takeWhile_append_dropWhile p s]
  rw [List.take_left']
  rw [List.takeWhile_append_dropWhile]

theorem dropWhile_token_char_head (s : List Char) (c : Char) (rest : List Char)
    (h : s.dropWhile token_char = c :: rest) : c = ' ' := by
  induction s with
  | nil => simp at h
  | cons d ds ih =>
    by_cases hd : d = ' '
    · subst hd
      simp [List.dropWhile, token_char] at h
      exact h.1.symm
    · have : token_char d = true := by simp [token_char, hd]
      rw [List.dropWhile_cons_of_pos this] at h
      exact ih h

theorem GetToken_fst (s : List Char) :
    (GetToken s).1 = { Text := s, Length := (s.takeWhile token_char).length } := by
  unfold GetToken
  simp only [GetTokenAdvance_eq, length_sub_dropWhile]
  split
  · rfl
  · split <;> rfl

theorem TokenToString_GetToken (s : List Char) :
    TokenToString (GetToken s).1 = s.takeWhile token_char := by
  rw [GetToken_fst]
  exact take_length_takeWhile _ s

theorem GetToken_snd (s : List Char) :
    (GetToken s).2 = (s.dropWhile token_char).tail := by
  unfold GetToken
  simp only [GetTokenAdvance_eq]
  split
  · next h => rw [h]; rfl
  · next c rest h =>
    have hc : c = ' ' := dropWhile_token_char_head s c rest h
    rw [if_pos hc, h]; rfl

theorem token_char_of_not_mem (w : List Char) (h : ' ' ∉ w) : ∀ c ∈ w, token_char c = true := by
  intro c hc
  have : c ≠ ' ' := fun e => h (e ▸ hc)
  simp [token_char, this]

theorem takeWhile_token_char_append (w rest : List Char) (h : ' ' ∉ w) :
    (w ++ ' ' :: rest).takeWhile token_char = w := by
  induction w with
  | nil => simp [List.takeWhile, token_char]
  | cons c cs ih =>
    have hc : token_char c = true := token_char_of_not_mem _ h c (List.mem_cons_self _ _)
    have hcs : ' ' ∉ cs := fun e => h (List.mem_cons_of_mem _ e)
    simp [List.takeWhile, hc, ih hcs]

theorem dropWhile_token_char_append (w rest : List Char) (h : ' ' ∉ w) :
    (w ++ ' ' :: rest).dropWhile token_char = ' ' :: rest := by
  induction w with
  | nil => simp [List.dropWhile, token_char]
  | cons c cs ih =>
    have hc : token_char c = true := token_char_of_not_mem _ h c (List.mem_cons_self _ _)
    have hcs : ' ' ∉ cs := fun e => h (List.mem_cons_of_mem _ e)
    simp [List.dropWhile, hc, ih hcs]

theorem takeWhile_token_char_self (w : List Char) (h : ' ' ∉ w) :
    w.takeWhile token_char = w := by
  rw [List.takeWhile_eq_self_iff]
  exact token_char_of_not_mem w h

theorem dropWhile_token_char_self (w : List Char) (h : ' ' ∉ w) :
    w.dropWhile token_char = [] := by
  rw [List.dropWhile_eq_nil_iff]
  exact token_char_of_not_mem w h

theorem not_mem_takeWhile_token_char (s : List Char) : ' ' ∉ s.takeWhile token_char := by
  intro h
  have := List.mem_takeWhile_imp h
  simp [token_char] at this

theorem message_fields_append (w rest cur : List Char) (h : ' ' ∉ w) :
    message_fields (w ++ rest) cur = message_fields rest (cur ++ w) := by
  induction w generalizing cur with
  | nil => simp
  | cons c cs ih =>
    have hc : c ≠ ' ' := fun e => h (e ▸ List.mem_cons_self _ _)
    have hcs : ' ' ∉ cs := fun e => h (List.mem_cons_of_mem _ e)
    simp [message_fields, hc, ih _ hcs]

theorem message_fields_cons (c : Char) (cs : List Char) :
    message_fields (c :: cs) [] =
      (c :: cs).takeWhile token_char :: message_fields ((c :: cs).dropWhile token_char).tail [] := by
  have hsplit := List.takeWhile_append_dropWhile token_char (c :: cs)
  have hns := not_mem_takeWhile_token_char (c :: cs)
  generalize htw : (c :: cs).takeWhile token_char = tw at hsplit hns
  generalize hdw : (c :: cs).dropWhile token_char = dw at hsplit
  rw [← hsplit, message_fields_append tw dw [] hns]
  cases dw with
  | nil =>
    have : tw ≠ [] := by
      intro e
      rw [e] at hsplit
      simp at hsplit
    simp [message_fields, this]
  | cons d r =>
    have hd : d = ' ' := dropWhile_token_char_head (c :: cs) d r hdw
    simp [message_fields, hd]

theorem tail_dropWhile_length_lt (c : Char) (cs : List Char) :
    (((c :: cs).dropWhile token_char).tail).length < (c :: cs).length := by
  have hsplit := congrArg List.length (List.takeWhile_append_dropWhile token_char (c :: cs))
  rw [List.length_append] at hsplit
  have htl := List.length_tail ((c :: cs).dropWhile token_char)
  by_cases hc : token_char c = true
  · have : 1 ≤ ((c :: cs).takeWhile token_char).length := by
      simp [List.takeWhile, hc]
    omega
  · have : (c :: cs).dropWhile token_char = c :: cs := by
      simp [List.dropWhile, hc]
    rw [this]
    simp

theorem BuildArgumentsLoop_cons (fuel : Nat) (c : Char) (cs : List Char) (A : arguments) :
    BuildArgumentsLoop (fuel + 1) (c :: cs) A =
      BuildArgumentsLoop fuel ((c :: cs).dropWhile token_char).tail
        { Count := A.Count + 1, Args := A.Args ++ [some ((c :: cs).takeWhile token_char)] } := by
  simp only [BuildArgumentsLoop, GetToken_snd, TokenToString_GetToken]

theorem BuildArgumentsLoop_eq (fuel : Nat) : ∀ (m : List Char) (A : arguments),
    m.length ≤ fuel →
    BuildArgumentsLoop fuel m A =
      some { Count := A.Count + (message_fields m []).length,
             Args := A.Args ++ (message_fields m []).map some } := by
  induction fuel with
  | zero =>
    intro m A h
    have : m = [] := List.length_eq_zero.mp (Nat.le_zero.mp h)
    subst this
    simp [BuildArgumentsLoop, message_fields]
  | succ n ih =>
    intro m A h
    cases m with
    | nil => simp [BuildArgumentsLoop, message_fields]
    | cons c cs =>
      have hlt := tail_dropWhile_length_lt c cs
      rw [BuildArgumentsLoop_cons, ih _ _ (by omega), message_fields_cons]
      simp only [List.length_cons, List.map_cons, List.append_assoc, List.singleton_append,
        Option.some.injEq, arguments.mk.injEq, and_true]
      omega

theorem BuildArguments_eq (m : List Char) :
    BuildArguments m =
      some { Count := (message_fields m []).length + 1,
             Args := none :: (message_fields m []).map some } := by
  unfold BuildArguments
  rw [BuildArgumentsLoop_eq _ _ _ (Nat.le_refl _)]
  simp [Nat.add_comm]

theorem prefix_takeWhile_token_char (s p : List Char) (hp : p <+: s) (hns : ' ' ∉ p) :
    p <+: s.takeWhile token_char := by
  obtain ⟨t, rfl⟩ := hp
  rw [List.takeWhile_append_of_pos (token_char_of_not_mem p hns)]
  exact List.prefix_append _ _

theorem message_fields_intercalate (w : List Char) (ws : List (List Char))
    (hw : ∀ v ∈ w :: ws, v ≠ [] ∧ ' ' ∉ v) :
    message_fields (List.intercalate [' '] (w :: ws)) [] = w :: ws := by
  induction ws generalizing w with
  | nil =>
    have h := hw w (List.mem_cons_self _ _)
    have : List.intercalate [' '] [w] = w ++ [] := by simp [List.intercalate]
    rw [this, message_fields_append w [] [] h.2]
    simp [message_fields, h.1]
  | cons v vs ih =>
    have h := hw w (List.mem_cons_self _ _)
    have : List.intercalate [' '] (w :: v :: vs) = w ++ ' ' :: List.intercalate [' '] (v :: vs) := by
      simp [List.intercalate]
    rw [this, message_fields_append w _ [] h.2]
    simp only [message_fields, if_true, List.nil_append]
    rw [ih v (fun x hx => hw x (List.mem_cons_of_mem _ hx))]

/-- C8. `GetToken` at the input `s`: the token starts at the cursor, its
characters are the longest prefix of `s` without a space, its length is the
number of those characters, and the new cursor is past the token and past the
one space that follows it, if any; at the empty input the token is empty and
the cursor stays. -/
theorem GetToken_postcondition (s : List Char) :
    (GetToken s).1.Text = s ∧
    (GetToken s).1.Length = (TokenToString (GetToken s).1).length ∧
    TokenToString (GetToken s).1 <+: s ∧
    ' ' ∉ TokenToString (GetToken s).1 ∧
    (∀ p : List Char, p <+: s → ' ' ∉ p → p <+: TokenToString (GetToken s).1) ∧
    (s = TokenToString (GetToken s).1 ++ ' ' :: (GetToken s).2 ∨
      (s = TokenToString (GetToken s).1 ∧ (GetToken s).2 = [])) ∧
    GetToken [] = ({ Text := [], Length := 0 }, []) := by
  rw [TokenToString_GetToken, GetToken_snd]
  refine ⟨by rw [GetToken_fst], by rw [GetToken_fst], List.takeWhile_prefix _,
    not_mem_takeWhile_token_char s, fun p hp hns => prefix_takeWhile_token_char s p hp hns,
    ?_, rfl⟩
  have hsplit := List.takeWhile_append_dropWhile token_char s
  cases hdw : s.dropWhile token_char with
  | nil =>
    right
    rw [hdw, List.append_nil] at hsplit
    exact ⟨hsplit.symm, rfl⟩
  | cons d r =>
    left
    have hd : d = ' ' := dropWhile_token_char_head s d r hdw
    rw [hdw, hd] at hsplit
    exact hsplit.symm

/-- The stores `BuildArguments` makes on a message of non-empty words without
spaces, joined by single spaces: the `i`-th word goes to slot `i`, slot 0 is
not written, and `Count` ends at the number of words plus one. Whether the
slots lie inside the allocation is the matter of `BuildArguments_capacity`. -/
theorem BuildArguments_round_trip (ws : List (List Char)) (hne : ws ≠ [])
    (hw : ∀ w ∈ ws, w ≠ [] ∧ ' ' ∉ w) :
    BuildArguments (List.intercalate [' '] ws) =
      some { Count := ws.length + 1, Args := none :: ws.map some } := by
  cases ws with
  | nil => exact absurd rfl hne
  | cons w ws =>
    rw [BuildArguments_eq, message_fields_intercalate w ws hw]

theorem BuildArguments_round_trip_witness :
    BuildArguments ['a', ' ', 'b', ' ', 'c'] =
      some { Count := 4, Args := [none, some ['a'], some ['b'], some ['c']] } :=
  BuildArguments_round_trip [['a'], ['b'], ['c']] (by decide) (by decide)

/-! ## One round of `getopt_long` -/

theorem getopt_long_start (Count : Nat) (Args : List (Option (List Char))) (Short : List Char)
    (n : Nat) (oa : Option (List Char)) (a : List Char) (rest : List (Option (List Char)))
    (hC : Count = Args.length) (hdrop : Args.drop n = some a :: rest)
    (hnon : NONOPTION_P a = false) :
    getopt_long Count Args Short { optind := n, optarg := oa, nextchar := none } =
      if a = ['-', '-'] then some (none, { optind := Count, optarg := none, nextchar := none })
      else getopt_short Count Args Short
        { optind := n, optarg := none, nextchar := some a.tail } := by
  have hlt : n < Args.length := by
    by_contra hge
    rw [List.drop_of_length_le (by omega)] at hdrop
    exact absurd hdrop (by simp)
  have hget : Args[n]? = some (some a) := by
    have := List.head?_drop Args n
    rw [hdrop] at this
    simpa using this.symm
  have h1 : ¬ Count < 1 := by omega
  have h2 : ¬ Count ≤ n := by omega
  unfold getopt_long
  simp only [h1, if_false, true_or, if_true]
  rw [hC, List.take_length, hdrop]
  simp only [getopt_skip, hnon, hget, Bool.false_eq_true, if_false]
  rw [← hC]
  simp only [h2, if_false]

/-- An element `-X` followed by an element `a`, for an option `X` that takes an
argument: `getopt_long` returns `X` with `optarg = a` and steps over both. -/
theorem getopt_long_pair (Short t : List Char) (X : Char) (a : List Char)
    (pre post : List (Option (List Char))) (oa : Option (List Char))
    (hS : strchr Short X = some (X :: ':' :: t)) (ht : t.head? ≠ some ':')
    (h1 : X ≠ ':') (h2 : X ≠ ';') (h3 : X ≠ '-') :
    getopt_long (pre ++ some ['-', X] :: some a :: post).length
        (pre ++ some ['-', X] :: some a :: post) Short
        { optind := pre.length, optarg := oa, nextchar := none } =
      some (some X, { optind := pre.length + 2, optarg := some a, nextchar := none }) := by
  have hnon : NONOPTION_P ['-', X] = false := by simp [NONOPTION_P]
  have hne : (['-', X] : List Char) ≠ ['-', '-'] := by simp [h3]
  rw [getopt_long_start _ _ Short pre.length oa ['-', X] (some a :: post) rfl
    (List.drop_left _ _) hnon, if_neg hne]
  have hget : (pre ++ some ['-', X] :: some a :: post)[pre.length + 1]? = some (some a) := by
    rw [List.getElem?_append_right (by omega)]
    simp
  have hlen : ¬ (pre.length + 1 = (pre ++ some ['-', X] :: some a :: post).length) := by
    simp
  simp only [getopt_short, List.tail_cons, List.isEmpty_nil, if_true, hS, h1, h2, or_self,
    if_false, List.head?_cons, ht, hlen, hget, not_true_eq_false]

/-- At the end of the argument list `getopt_long` returns -1. -/
theorem getopt_long_end (Short : List Char) (Args : List (Option (List Char)))
    (oa : Option (List Char)) (h : 1 ≤ Args.length) :
    getopt_long Args.length Args Short { optind := Args.length, optarg := oa, nextchar := none } =
      some (none, { optind := Args.length, optarg := none, nextchar := none }) := by
  have : ¬ Args.length < 1 := by omega
  simp [getopt_long, this, getopt_skip]

/-! ## The window grammar on a run of valid pairs -/

theorem window_flag_of_accepted (X : Char) (a : List Char)
    (h : window_argument_accepted X a = true) :
    X = 'f' ∨ X = 's' ∨ X = 'i' ∨ X = 'w' ∨ X = 't' ∨ X = 'r' := by
  unfold window_argument_accepted at h
  by_cases h1 : X = 'f' ∨ X = 's' ∨ X = 'i' ∨ X = 'w'
  · tauto
  · by_cases h2 : X = 't'
    · tauto
    · by_cases h3 : X = 'r'
      · tauto
      · simp [h1, h2, h3] at h

theorem window_short_flag (X : Char)
    (h : X = 'f' ∨ X = 's' ∨ X = 'i' ∨ X = 'w' ∨ X = 't' ∨ X = 'r') :
    ∃ t, strchr WindowShort X = some (X :: ':' :: t) ∧ t.head? ≠ some ':' ∧
      X ≠ ':' ∧ X ≠ ';' ∧ X ≠ '-' ∧ X ≠ '?' := by
  rcases h with h | h | h | h | h | h <;> subst h <;>
    exact ⟨_, by simp [strchr, WindowShort]; rfl, by decide, by decide, by decide, by decide,
      by decide⟩

/-- One round of the loop of `ParseWindowCommand` on an accepted pair: the
command is appended and the loop goes on. -/
theorem ParseWindowLoop_accept (Count : Nat) (Args : List (Option (List Char))) (fuel : Nat)
    (g g1 : getopt_globals) (Chain : List command) (X : Char) (a : List Char)
    (hg : getopt_long Count Args WindowShort g = some (some X, g1))
    (ha : g1.optarg = some a) (hacc : window_argument_accepted X a = true) :
    ParseWindowLoop Count Args (fuel + 1) g Chain =
      ParseWindowLoop Count Args fuel g1 (Chain ++ [{ Flag := X, Arg := a }]) := by
  rw [ParseWindowLoop]
  simp only [hg, ha]
  unfold window_argument_accepted at hacc
  by_cases h1 : X = 'f' ∨ X = 's' ∨ X = 'i' ∨ X = 'w'
  · simp only [h1, if_true] at hacc ⊢
    simp only [StringEquals, Bool.or_eq_true, decide_eq_true_eq] at hacc ⊢
    rw [if_pos (by tauto)]
  · have hr : ∀ c : Char, X = c → ¬ (c = 'f' ∨ c = 's' ∨ c = 'i' ∨ c = 'w') := by
      intro c hc; rw [← hc]; exact h1
    simp only [h1, if_false] at hacc ⊢
    by_cases h2 : X = 't'
    · subst h2
      simp only [if_true] at hacc
      have h3 : ¬ ('t' = 'r') := by decide
      simp only [h3, if_false, if_true, StringEquals]
      rw [if_pos hacc]
    · by_cases h3 : X = 'r'
      · subst h3
        simp only [if_true, h2, if_false, decide_eq_true_eq] at hacc ⊢
        rw [if_pos (by rw [hacc]; decide)]
      · simp [h2, h3] at hacc

/-- The loop of `ParseWindowCommand` on an argument list that continues with
the words of accepted pairs and then ends: it succeeds and appends one command
per pair, in order. -/
theorem ParseWindowLoop_pairs (ps : List (Char × List Char)) :
    ∀ (pre : List (Option (List Char))) (Chain : List command) (fuel : Nat)
      (oa : Option (List Char)),
      1 ≤ pre.length → ps.length + 1 ≤ fuel →
      (∀ p ∈ ps, window_argument_accepted p.1 p.2 = true) →
      ParseWindowLoop (pre ++ (pair_words ps).map some).length (pre ++ (pair_words ps).map some)
          fuel { optind := pre.length, optarg := oa, nextchar := none } Chain =
        some (true, Chain ++ ps.map (fun p => { Flag := p.1, Arg := p.2 }),
          { optind := (pre ++ (pair_words ps).map some).length, optarg := none,
            nextchar := none }) := by
  induction ps with
  | nil =>
    intro pre Chain fuel oa hpre hfuel _
    obtain ⟨f, rfl⟩ : ∃ f, fuel = f + 1 := ⟨fuel - 1, by simp at hfuel; omega⟩
    simp only [pair_words, List.map_nil, List.append_nil]
    rw [ParseWindowLoop, getopt_long_end WindowShort pre oa hpre]
  | cons p ps ih =>
    intro pre Chain fuel oa hpre hfuel hacc
    obtain ⟨f, rfl⟩ : ∃ f, fuel = f + 1 := ⟨fuel - 1, by simp at hfuel; omega⟩
    have hp := hacc p (List.mem_cons_self _ _)
    obtain ⟨t, hS, ht, h1, h2, h3, _⟩ := window_short_flag p.1 (window_flag_of_accepted _ _ hp)
    have hshape : pre ++ (pair_words (p :: ps)).map some =
        pre ++ some ['-', p.1] :: some p.2 :: (pair_words ps).map some := by
      simp [pair_words]
    have hshape2 : pre ++ some ['-', p.1] :: some p.2 :: (pair_words ps).map some =
        (pre ++ [some ['-', p.1], some p.2]) ++ (pair_words ps).map some := by
      simp
    rw [hshape]
    rw [ParseWindowLoop_accept _ _ f _ _ Chain p.1 p.2
      (getopt_long_pair WindowShort t p.1 p.2 pre _ oa hS ht h1 h2 h3) rfl hp]
    have hlen : pre.length + 2 = (pre ++ [some ['-', p.1], some p.2]).length := by simp
    rw [hshape2, hlen]
    rw [ih (pre ++ [some ['-', p.1], some p.2]) _ f (some p.2) (by simp)
      (by simp at hfuel ⊢; omega) (fun q hq => hacc q (List.mem_cons_of_mem _ hq))]
    simp

/-! ## Tokens read by `GetToken` and their comparison -/

theorem TokenEqualsFrom_eq (w : List Char) : ∀ (rest M : List Char),
    TokenEqualsFrom w.length (w ++ rest) M = decide (w = M) := by
  induction w with
  | nil =>
    intro rest M
    cases M <;> simp [TokenEqualsFrom]
  | cons c cs ih =>
    intro rest M
    cases M with
    | nil => simp [TokenEqualsFrom]
    | cons a M =>
      by_cases h : c = a
      · subst h
        simp [TokenEqualsFrom, ih]
      · simp [TokenEqualsFrom, h]

theorem TokenEquals_GetToken (s M : List Char) :
    TokenEquals (GetToken s).1 M = decide (s.takeWhile token_char = M) := by
  rw [GetToken_fst]
  unfold TokenEquals
  simp only
  have := TokenEqualsFrom_eq (s.takeWhile token_char) (s.dropWhile token_char) M
  rw [List.takeWhile_append_dropWhile] at this
  exact this

theorem GetToken_word (w rest : List Char) (h : ' ' ∉ w) :
    (GetToken (w ++ ' ' :: rest)).2 = rest ∧
    TokenToString (GetToken (w ++ ' ' :: rest)).1 = w ∧
    (GetToken (w ++ ' ' :: rest)).1.Length = w.length ∧
    ∀ M, TokenEquals (GetToken (w ++ ' ' :: rest)).1 M = decide (w = M) := by
  refine ⟨?_, ?_, ?_, ?_⟩
  · rw [GetToken_snd, dropWhile_token_char_append w rest h]; rfl
  · rw [TokenToString_GetToken, takeWhile_token_char_append w rest h]
  · rw [GetToken_fst, takeWhile_token_char_append w rest h]
  · intro M
    rw [TokenEquals_GetToken, takeWhile_token_char_append w rest h]

theorem GetToken_last (w : List Char) (h : ' ' ∉ w) :
    (GetToken w).2 = [] ∧ TokenToString (GetToken w).1 = w ∧ (GetToken w).1.Length = w.length ∧
    ∀ M, TokenEquals (GetToken w).1 M = decide (w = M) := by
  refine ⟨?_, ?_, ?_, ?_⟩
  · rw [GetToken_snd, dropWhile_token_char_self w h]; rfl
  · rw [TokenToString_GetToken, takeWhile_token_char_self w h]
  · rw [GetToken_fst, takeWhile_token_char_self w h]
  · intro M
    rw [TokenEquals_GetToken, takeWhile_token_char_self w h]

/-- The callback on a message that starts with `window` and a space. -/
theorem DaemonCallback_window {σ F : Type} (env : environment σ F)
    (m : List Char) (s : daemon σ F) :
    DaemonCallback env (['w', 'i', 'n', 'd', 'o', 'w'] ++ ' ' :: m) s =
      match ParseWindowCommand m s.getopt with
      | none => none
      | some (Success, Chain, g) =>
        if Success then
          match DispatchChain env WindowFuncFromFlag WindowCommandDispatch Chain
              { s with getopt := g } with
          | none => none
          | some s1 =>
            if env.float_ne (env.CVarFloatingPointValue env.names.CVAR_BSP_SPLIT_RATIO s.world)
                (env.CVarFloatingPointValue env.names.CVAR_BSP_SPLIT_RATIO s1.world) then
              some (invoke env (.UpdateCVar env.names.CVAR_BSP_SPLIT_RATIO
                (.float (env.CVarFloatingPointValue env.names.CVAR_BSP_SPLIT_RATIO s.world))) s1)
            else some s1
        else some { s with getopt := g } := by
  obtain ⟨h2, _, _, hM⟩ := GetToken_word ['w', 'i', 'n', 'd', 'o', 'w'] m (by decide)
  unfold DaemonCallback
  simp only [hM, h2]
  simp only [show ¬ (['w', 'i', 'n', 'd', 'o', 'w'] = ['c', 'o', 'n', 'f', 'i', 'g']) by decide,
    decide_False, decide_True, Bool.false_eq_true, if_false, if_true]

/-- The callback on a message that starts with `space` and a space. -/
theorem DaemonCallback_space {σ F : Type} (env : environment σ F)
    (m : List Char) (s : daemon σ F) :
    DaemonCallback env (['s', 'p', 'a', 'c', 'e'] ++ ' ' :: m) s =
      match ParseSpaceCommand m s.getopt with
      | none => none
      | some (Success, Chain, g) =>
        if Success then
          DispatchChain env SpaceFuncFromFlag SpaceCommandDispatch Chain { s with getopt := g }
        else some { s with getopt := g } := by
  obtain ⟨h2, _, _, hM⟩ := GetToken_word ['s', 'p', 'a', 'c', 'e'] m (by decide)
  unfold DaemonCallback
  simp only [hM, h2]
  simp only [show ¬ (['s', 'p', 'a', 'c', 'e'] = ['c', 'o', 'n', 'f', 'i', 'g']) by decide,
    show ¬ (['s', 'p', 'a', 'c', 'e'] = ['w', 'i', 'n', 'd', 'o', 'w']) by decide,
    decide_False, decide_True, Bool.false_eq_true, if_false, if_true]

/-- The callback on a message that starts with `config` and a space. -/
theorem DaemonCallback_config {σ F : Type} (env : environment σ F)
    (m : List Char) (s : daemon σ F) :
    DaemonCallback env (['c', 'o', 'n', 'f', 'i', 'g'] ++ ' ' :: m) s =
      some (ConfigCommand env m s) := by
  obtain ⟨h2, _, _, hM⟩ := GetToken_word ['c', 'o', 'n', 'f', 'i', 'g'] m (by decide)
  unfold DaemonCallback
  simp only [hM, h2, decide_True, if_true]

/-! ## Window messages made of valid pairs -/

theorem message_fields_intercalate_all (ws : List (List Char))
    (hw : ∀ v ∈ ws, v ≠ [] ∧ ' ' ∉ v) :
    message_fields (List.intercalate [' '] ws) [] = ws := by
  cases ws with
  | nil => simp [List.intercalate, message_fields]
  | cons w ws => exact message_fields_intercalate w ws hw

theorem message_fields_length_le (m : List Char) : ∀ cur : List Char,
    (message_fields m cur).length ≤ m.length + (if cur.isEmpty then 0 else 1) := by
  induction m with
  | nil =>
    intro cur
    by_cases h : cur.isEmpty <;> simp [message_fields, h]
  | cons c cs ih =>
    intro cur
    by_cases hc : c = ' '
    · have := ih []
      simp [message_fields, hc] at this ⊢
      omega
    · have := ih (cur ++ [c])
      simp [message_fields, hc] at this ⊢
      omega

theorem window_argument_accepted_ne_nil (X : Char) (a : List Char)
    (h : window_argument_accepted X a = true) : a ≠ [] := by
  rintro rfl
  unfold window_argument_accepted at h
  by_cases h1 : X = 'f' ∨ X = 's' ∨ X = 'i' ∨ X = 'w'
  · simp [h1] at h
  · by_cases h2 : X = 't'
    · simp [h1, h2] at h
    · by_cases h3 : X = 'r'
      · simp [h1, h2, h3, sscanf_f] at h
      · simp [h1, h2, h3] at h

theorem pair_words_length (ps : List (Char × List Char)) :
    (pair_words ps).length = 2 * ps.length := by
  induction ps with
  | nil => rfl
  | cons p ps ih => simp [pair_words, ih]; omega

theorem pair_words_tokens (ps : List (Char × List Char))
    (hps : ∀ p ∈ ps, window_argument_accepted p.1 p.2 = true ∧ ' ' ∉ p.2) :
    ∀ v ∈ pair_words ps, v ≠ [] ∧ ' ' ∉ v := by
  induction ps with
  | nil => intro v hv; simp [pair_words] at hv
  | cons p ps ih =>
    intro v hv
    have hp := hps p (List.mem_cons_self _ _)
    simp only [pair_words, List.mem_cons] at hv
    rcases hv with rfl | rfl | hv
    · have hX : p.1 ≠ ' ' := by
        rcases window_flag_of_accepted _ _ hp.1 with h | h | h | h | h | h <;> rw [h] <;> decide
      refine ⟨by simp, ?_⟩
      simp only [List.mem_cons, List.mem_singleton, List.not_mem_nil, or_false, not_or]
      exact ⟨by decide, fun e => hX e.symm⟩
    · exact ⟨window_argument_accepted_ne_nil _ _ hp.1, hp.2⟩
    · exact ih (fun q hq => hps q (List.mem_cons_of_mem _ hq)) v hv

/-- `ParseWindowCommand` on a message made of accepted pairs that fit the
argument array, with `optind` at 1 and a null scan pointer: success, one
command per pair, in order. -/
theorem ParseWindowCommand_pairs (ps : List (Char × List Char)) (g : getopt_globals)
    (hind : g.optind = 1) (hnext : g.nextchar = none)
    (hfit : 2 * ps.length + 1 ≤ ArgsCapacity)
    (hps : ∀ p ∈ ps, window_argument_accepted p.1 p.2 = true ∧ ' ' ∉ p.2) :
    ParseWindowCommand (List.intercalate [' '] (pair_words ps)) g =
      some (true, ps.map (fun p => { Flag := p.1, Arg := p.2 }), getopt_reset) := by
  obtain ⟨optind, oa, nextchar⟩ := g
  simp only at hind hnext
  subst hind hnext
  have hf := message_fields_intercalate_all (pair_words ps) (pair_words_tokens ps hps)
  have hlen := message_fields_length_le (List.intercalate [' '] (pair_words ps)) []
  rw [hf, pair_words_length] at hlen
  simp only [List.isEmpty_nil, if_true, Nat.add_zero] at hlen
  unfold ParseWindowCommand
  rw [BuildArguments_eq, hf]
  simp only
  rw [if_neg (by rw [pair_words_length]; omega)]
  simp only [Option.isSome_none, Bool.false_eq_true, if_false]
  have hloop := ParseWindowLoop_pairs ps [none] []
    ((List.intercalate [' '] (pair_words ps)).length + 1) oa (by simp) (by omega)
    (fun p hp => (hps p hp).1)
  simp only [List.length_singleton, List.singleton_append, List.nil_append, List.length_cons,
    List.length_map, List.length_nil, Nat.zero_add, Nat.add_zero] at hloop ⊢
  rw [hloop]
  rfl

/-! ## Dispatch -/

theorem run_calls_calls {σ F : Type} (env : environment σ F) (cs : List (call F)) :
    ∀ s : daemon σ F, (run_calls env cs s).calls = s.calls ++ cs ∧
      (run_calls env cs s).getopt = s.getopt := by
  induction cs with
  | nil => intro s; simp [run_calls]
  | cons c cs ih =>
    intro s
    have := ih (invoke env c s)
    simp only [run_calls, List.foldl_cons] at this ⊢
    rw [this.1, this.2]
    simp [invoke]

theorem WindowCommandDispatch_lookup (X : Char) :
    WindowCommandDispatch[WindowFuncFromFlag X]? =
      some (WindowCommandDispatch.getD (WindowFuncFromFlag X) .FocusWindow) := by
  unfold WindowFuncFromFlag
  split_ifs <;> rfl

theorem SpaceCommandDispatch_lookup (X : Char) :
    SpaceCommandDispatch[SpaceFuncFromFlag X]? =
      some (SpaceCommandDispatch.getD (SpaceFuncFromFlag X) .RotateWindowTree) := by
  unfold SpaceFuncFromFlag
  split_ifs <;> rfl

/-- The dispatch loop of the window branch never leaves its table: it makes
one call per node, in chain order. -/
theorem DispatchChain_window {σ F : Type} (env : environment σ F) (Chain : List command) :
    ∀ s : daemon σ F,
      DispatchChain env WindowFuncFromFlag WindowCommandDispatch Chain s =
        some (run_calls env (Chain.map window_call) s) := by
  induction Chain with
  | nil => intro s; rfl
  | cons c Chain ih =>
    intro s
    rw [DispatchChain, WindowCommandDispatch_lookup]
    simp only
    rw [ih]
    rfl

/-- The dispatch loop of the space branch makes one call per node, in chain
order. -/
theorem DispatchChain_space {σ F : Type} (env : environment σ F) (Chain : List command) :
    ∀ s : daemon σ F,
      DispatchChain env SpaceFuncFromFlag SpaceCommandDispatch Chain s =
        some (run_calls env (Chain.map space_call) s) := by
  induction Chain with
  | nil => intro s; rfl
  | cons c Chain ih =>
    intro s
    rw [DispatchChain, SpaceCommandDispatch_lookup]
    simp only
    rw [ih]
    rfl

theorem window_call_accepted {F : Type} (X : Char) (a : List Char)
    (h : window_argument_accepted X a = true) :
    (window_call { Flag := X, Arg := a } : call F) = .Command (window_handler X) a := by
  rcases window_flag_of_accepted X a h with h | h | h | h | h | h <;> subst h <;> rfl

theorem run_calls_world_window {σ F : Type} (env : environment σ F) (cs : List (call F)) :
    ∀ (s : daemon σ F) (g : getopt_globals),
      (run_calls env cs { s with getopt := g }).world = (run_calls env cs s).world := by
  induction cs with
  | nil => intro s g; rfl
  | cons c cs ih =>
    intro s g
    simp only [run_calls, List.foldl_cons] at ih ⊢
    exact ih (invoke env c s) g

/-- A window message made of accepted `-<flag> <arg>` pairs that fit the
argument array, received with `optind` at 1 and a null scan pointer: the
callback returns, and the calls it adds are the handlers of the flags applied
to their arguments, one per pair and in the order of the message, and after
them the one update that restores the split ratio when the comparison `!=`
finds it changed, and nothing otherwise. -/
theorem DaemonCallback_window_pairs {σ F : Type} (env : environment σ F)
    (s : daemon σ F) (ps : List (Char × List Char))
    (hind : s.getopt.optind = 1) (hnext : s.getopt.nextchar = none)
    (hfit : 2 * ps.length + 1 ≤ ArgsCapacity)
    (hps : ∀ p ∈ ps, window_argument_accepted p.1 p.2 = true ∧ ' ' ∉ p.2) :
    ∃ s1 : daemon σ F,
      DaemonCallback env
          (['w', 'i', 'n', 'd', 'o', 'w'] ++ ' ' :: List.intercalate [' '] (pair_words ps)) s =
        some s1 ∧
      s1.calls = s.calls ++ ps.map (fun p => call.Command (window_handler p.1) p.2) ++
        (if env.float_ne (env.CVarFloatingPointValue env.names.CVAR_BSP_SPLIT_RATIO s.world)
            (env.CVarFloatingPointValue env.names.CVAR_BSP_SPLIT_RATIO
              (run_calls env (ps.map (fun p => call.Command (window_handler p.1) p.2)) s).world)
         then [.UpdateCVar env.names.CVAR_BSP_SPLIT_RATIO
            (.float (env.CVarFloatingPointValue env.names.CVAR_BSP_SPLIT_RATIO s.world))]
         else []) := by
  have hmap : (ps.map (fun p => ({ Flag := p.1, Arg := p.2 } : command))).map
        (window_call : command → call F) =
      ps.map (fun p => (call.Command (window_handler p.1) p.2 : call F)) := by
    rw [List.map_map]
    apply List.map_congr_left
    intro p hp
    exact window_call_accepted p.1 p.2 (hps p hp).1
  rw [DaemonCallback_window, ParseWindowCommand_pairs ps s.getopt hind hnext hfit hps]
  simp only [if_true, DispatchChain_window, hmap, run_calls_world_window]
  cases h : env.float_ne (env.CVarFloatingPointValue env.names.CVAR_BSP_SPLIT_RATIO s.world)
      (env.CVarFloatingPointValue env.names.CVAR_BSP_SPLIT_RATIO
        (run_calls env (ps.map (fun p => call.Command (window_handler p.1) p.2)) s).world)
  · refine ⟨_, rfl, ?_⟩
    simp [(run_calls_calls env _ _).1]
  · refine ⟨_, rfl, ?_⟩
    simp [invoke, (run_calls_calls env _ _).1]

theorem DaemonCallback_window_pairs_witness :
    ∃ s1 : daemon sample_store Int,
      DaemonCallback sample_environment
          (['w', 'i', 'n', 'd', 'o', 'w'] ++
            ' ' :: List.intercalate [' '] (pair_words [('f', ['e', 'a', 's', 't'])]))
          (sample_daemon []) = some s1 ∧
      s1.calls = (sample_daemon []).calls ++
          [('f', ['e', 'a', 's', 't'])].map (fun p => call.Command (window_handler p.1) p.2) ++
        (if sample_environment.float_ne
            (sample_environment.CVarFloatingPointValue
              sample_environment.names.CVAR_BSP_SPLIT_RATIO (sample_daemon []).world)
            (sample_environment.CVarFloatingPointValue
              sample_environment.names.CVAR_BSP_SPLIT_RATIO
              (run_calls sample_environment
                ([('f', ['e', 'a', 's', 't'])].map
                  (fun p => call.Command (window_handler p.1) p.2)) (sample_daemon [])).world)
         then [.UpdateCVar sample_environment.names.CVAR_BSP_SPLIT_RATIO
            (.float (sample_environment.CVarFloatingPointValue
              sample_environment.names.CVAR_BSP_SPLIT_RATIO (sample_daemon []).world))]
         else []) :=
  DaemonCallback_window_pairs sample_environment (sample_daemon [])
    [('f', ['e', 'a', 's', 't'])] rfl rfl (by decide) (by decide)

/-- The callback on any message whose first token is `window`. -/
theorem DaemonCallback_window_token {σ F : Type} (env : environment σ F)
    (Message : List Char) (s : daemon σ F)
    (hkind : TokenToString (GetToken Message).1 = ['w', 'i', 'n', 'd', 'o', 'w']) :
    DaemonCallback env Message s =
      match ParseWindowCommand (GetToken Message).2 s.getopt with
      | none => none
      | some (Success, Chain, g) =>
        if Success then
          match DispatchChain env WindowFuncFromFlag WindowCommandDispatch Chain
              { s with getopt := g } with
          | none => none
          | some s1 =>
            if env.float_ne (env.CVarFloatingPointValue env.names.CVAR_BSP_SPLIT_RATIO s.world)
                (env.CVarFloatingPointValue env.names.CVAR_BSP_SPLIT_RATIO s1.world) then
              some (invoke env (.UpdateCVar env.names.CVAR_BSP_SPLIT_RATIO
                (.float (env.CVarFloatingPointValue env.names.CVAR_BSP_SPLIT_RATIO s.world))) s1)
            else some s1
        else some { s with getopt := g } := by
  rw [TokenToString_GetToken] at hkind
  unfold DaemonCallback
  simp only [TokenEquals_GetToken, hkind]
  simp only [show ¬ (['w', 'i', 'n', 'd', 'o', 'w'] = ['c', 'o', 'n', 'f', 'i', 'g']) by decide,
    decide_False, decide_True, Bool.false_eq_true, if_false, if_true]

/-- C3, amended. A window message that parses successfully, whatever the
handlers do to the store, provided the store returns the float last written
under the split-ratio name and the split ratio captured before the first
handler is not a NaN (the comparison `!=` does not find it different from
itself): the callback returns, the split ratio then does not differ from the
captured value, and after the handler calls the callback makes the restoring
update exactly when `!=` finds the ratio after the chain different from the
captured value, and no other call. -/
theorem DaemonCallback_ratio_restored {σ F : Type} (env : environment σ F)
    (Message : List Char) (s : daemon σ F) (Chain : List command) (g : getopt_globals)
    (hkind : TokenToString (GetToken Message).1 = ['w', 'i', 'n', 'd', 'o', 'w'])
    (hparse : ParseWindowCommand (GetToken Message).2 s.getopt = some (true, Chain, g))
    (hstore : ∀ (w : σ) (v : F),
      env.CVarFloatingPointValue env.names.CVAR_BSP_SPLIT_RATIO
        (env.perform (.UpdateCVar env.names.CVAR_BSP_SPLIT_RATIO (.float v)) w) = v)
    (hnan : env.float_ne (env.CVarFloatingPointValue env.names.CVAR_BSP_SPLIT_RATIO s.world)
      (env.CVarFloatingPointValue env.names.CVAR_BSP_SPLIT_RATIO s.world) = false) :
    ∃ s1 : daemon σ F,
      DaemonCallback env Message s = some s1 ∧
      env.float_ne (env.CVarFloatingPointValue env.names.CVAR_BSP_SPLIT_RATIO s.world)
        (env.CVarFloatingPointValue env.names.CVAR_BSP_SPLIT_RATIO s1.world) = false ∧
      s1.calls = s.calls ++ Chain.map window_call ++
        (if env.float_ne (env.CVarFloatingPointValue env.names.CVAR_BSP_SPLIT_RATIO s.world)
            (env.CVarFloatingPointValue env.names.CVAR_BSP_SPLIT_RATIO
              (run_calls env (Chain.map window_call) s).world)
         then [.UpdateCVar env.names.CVAR_BSP_SPLIT_RATIO
            (.float (env.CVarFloatingPointValue env.names.CVAR_BSP_SPLIT_RATIO s.world))]
         else []) := by
  rw [DaemonCallback_window_token env Message s hkind, hparse]
  simp only [if_true, DispatchChain_window, run_calls_world_window]
  cases h : env.float_ne (env.CVarFloatingPointValue env.names.CVAR_BSP_SPLIT_RATIO s.world)
      (env.CVarFloatingPointValue env.names.CVAR_BSP_SPLIT_RATIO
        (run_calls env (Chain.map window_call) s).world)
  · refine ⟨_, rfl, ?_, ?_⟩
    · rw [run_calls_world_window]; exact h
    · simp [(run_calls_calls env _ _).1]
  · refine ⟨_, rfl, ?_, ?_⟩
    · simp only [invoke]
      rw [hstore]
      exact hnan
    · simp [invoke, (run_calls_calls env _ _).1]

theorem DaemonCallback_ratio_restored_witness :
    ∃ s1 : daemon sample_store Int,
      DaemonCallback sample_environment "window -r 5".toList (sample_daemon []) = some s1 ∧
      sample_environment.float_ne
        (sample_environment.CVarFloatingPointValue sample_environment.names.CVAR_BSP_SPLIT_RATIO
          (sample_daemon []).world)
        (sample_environment.CVarFloatingPointValue sample_environment.names.CVAR_BSP_SPLIT_RATIO
          s1.world) = false ∧
      s1.calls = (sample_daemon []).calls ++
        [({ Flag := 'r', Arg := ['5'] } : command)].map window_call ++
        (if sample_environment.float_ne
            (sample_environment.CVarFloatingPointValue
              sample_environment.names.CVAR_BSP_SPLIT_RATIO (sample_daemon []).world)
            (sample_environment.CVarFloatingPointValue
              sample_environment.names.CVAR_BSP_SPLIT_RATIO
              (run_calls sample_environment
                ([({ Flag := 'r', Arg := ['5'] } : command)].map window_call)
                (sample_daemon [])).world)
         then [.UpdateCVar sample_environment.names.CVAR_BSP_SPLIT_RATIO
            (.float (sample_environment.CVarFloatingPointValue
              sample_environment.names.CVAR_BSP_SPLIT_RATIO (sample_daemon []).world))]
         else []) :=
  DaemonCallback_ratio_restored sample_environment "window -r 5".toList (sample_daemon [])
    [{ Flag := 'r', Arg := ['5'] }] getopt_reset (by decide) (by decide)
    (fun w v => by simp [sample_environment, sample_read]) (by decide)

/-! ## Rejected elements -/

/-- An option element whose first character is not in the option string: 
`getopt_long` returns `?` and stays inside the element unless it is used up. -/
theorem getopt_long_unknown (Short : List Char) (c : Char) (cs : List Char)
    (pre post : List (Option (List Char))) (oa : Option (List Char))
    (hS : strchr Short c = none ∨ c = ':' ∨ c = ';') (hdd : ¬ (c = '-' ∧ cs = [])) :
    getopt_long (pre ++ some ('-' :: c :: cs) :: post).length
        (pre ++ some ('-' :: c :: cs) :: post) Short
        { optind := pre.length, optarg := oa, nextchar := none } =
      some (some '?', { optind := if cs.isEmpty then pre.length + 1 else pre.length,
                        optarg := none, nextchar := cs }) := by
  have hnon : NONOPTION_P ('-' :: c :: cs) = false := by simp [NONOPTION_P]
  have hne : ('-' :: c :: cs : List Char) ≠ ['-', '-'] := by
    intro e
    simp only [List.cons.injEq, true_and] at e
    exact hdd e
  rw [getopt_long_start _ _ Short pre.length oa ('-' :: c :: cs) post rfl
    (List.drop_left _ _) hnon, if_neg hne]
  simp only [getopt_short, List.tail_cons]
  cases hs : strchr Short c with
  | none => rfl
  | some temp =>
    have hc : c = ':' ∨ c = ';' := by
      rcases hS with h | h
      · rw [h] at hs; exact absurd hs (by simp)
      · exact h
    simp only [hc, if_true]

/-- An option that takes an argument as the last element, with nothing after
it: `getopt_long` returns `?`. -/
theorem getopt_long_missing (Short t : List Char) (X : Char)
    (pre : List (Option (List Char))) (oa : Option (List Char))
    (hS : strchr Short X = some (X :: ':' :: t)) (ht : t.head? ≠ some ':')
    (h0 : Short.head? ≠ some ':') (h1 : X ≠ ':') (h2 : X ≠ ';') (h3 : X ≠ '-') :
    getopt_long (pre ++ [some ['-', X]]).length (pre ++ [some ['-', X]]) Short
        { optind := pre.length, optarg := oa, nextchar := none } =
      some (some '?', { optind := pre.length + 1, optarg := none, nextchar := none }) := by
  have hnon : NONOPTION_P ['-', X] = false := by simp [NONOPTION_P]
  have hne : (['-', X] : List Char) ≠ ['-', '-'] := by simp [h3]
  rw [getopt_long_start _ _ Short pre.length oa ['-', X] [] rfl
    (List.drop_left _ _) hnon, if_neg hne]
  simp only [getopt_short, List.tail_cons, List.isEmpty_nil, if_true, hS, h1, h2, or_self,
    if_false, List.head?_cons, ht, not_true_eq_false, List.length_append, List.length_singleton,
    h0]

/-- One round of the loop of `ParseWindowCommand` on a pair whose argument
fails the check of its flag: the chain is freed and the call fails. -/
theorem ParseWindowLoop_reject (Count : Nat) (Args : List (Option (List Char))) (fuel : Nat)
    (g g1 : getopt_globals) (Chain : List command) (X : Char) (a : List Char)
    (hg : getopt_long Count Args WindowShort g = some (some X, g1))
    (ha : g1.optarg = some a)
    (hrej : ((X = 'f' ∨ X = 's' ∨ X = 'i' ∨ X = 'w' ∨ X = 't') ∧
        window_argument_accepted X a = false) ∨ (X = 'r' ∧ sscanf_f a = 0)) :
    ParseWindowLoop Count Args (fuel + 1) g Chain = some (false, [], g1) := by
  rw [ParseWindowLoop]
  simp only [hg, ha]
  rcases hrej with ⟨hX, hacc⟩ | ⟨hX, hacc⟩
  · unfold window_argument_accepted at hacc
    by_cases h1 : X = 'f' ∨ X = 's' ∨ X = 'i' ∨ X = 'w'
    · simp only [h1, if_true] at hacc ⊢
      simp only [StringEquals, Bool.or_eq_true, decide_eq_true_eq, decide_eq_false_iff_not]
        at hacc ⊢
      rw [if_neg (by tauto)]
    · have h2 : X = 't' := by tauto
      subst h2
      simp only [h1, if_false, if_true, decide_eq_false_iff_not] at hacc ⊢
      have h3 : ¬ ('t' = 'r') := by decide
      simp only [h3, if_false, StringEquals, decide_eq_true_eq]
      rw [if_neg hacc]
  · subst hX
    have h1 : ¬ ('r' = 'f' ∨ 'r' = 's' ∨ 'r' = 'i' ∨ 'r' = 'w') := by decide
    simp only [h1, if_false, if_true, hacc, ne_eq, not_true_eq_false]

/-- One round of the loop of `ParseWindowCommand` when `getopt_long` returns
`?`: the chain is freed and the call fails. -/
theorem ParseWindowLoop_question (Count : Nat) (Args : List (Option (List Char))) (fuel : Nat)
    (g g1 : getopt_globals) (Chain : List command)
    (hg : getopt_long Count Args WindowShort g = some (some '?', g1)) :
    ParseWindowLoop Count Args (fuel + 1) g Chain = some (false, [], g1) := by
  rw [ParseWindowLoop]
  simp only [hg]
  have h1 : ¬ ('?' = 'f' ∨ '?' = 's' ∨ '?' = 'i' ∨ '?' = 'w') := by decide
  have h2 : ¬ ('?' = 'r') := by decide
  have h3 : ¬ ('?' = 't') := by decide
  simp only [h1, h2, h3, if_false, if_true]

/-! ## Messages of one pair -/

/-- One round of the loop of `ParseWindowCommand` on `-r a` when `sscanf` does
not return 0: the command is appended and the loop goes on. -/
theorem ParseWindowLoop_accept_ratio (Count : Nat) (Args : List (Option (List Char)))
    (fuel : Nat) (g g1 : getopt_globals) (Chain : List command) (a : List Char)
    (hg : getopt_long Count Args WindowShort g = some (some 'r', g1))
    (ha : g1.optarg = some a) (hacc : sscanf_f a ≠ 0) :
    ParseWindowLoop Count Args (fuel + 1) g Chain =
      ParseWindowLoop Count Args fuel g1 (Chain ++ [{ Flag := 'r', Arg := a }]) := by
  rw [ParseWindowLoop]
  simp only [hg, ha]
  have h1 : ¬ ('r' = 'f' ∨ 'r' = 's' ∨ 'r' = 'i' ∨ 'r' = 'w') := by decide
  simp only [h1, if_false, if_true]
  rw [if_pos hacc]

theorem BuildArguments_length_le (m : List Char) (A : arguments)
    (h : BuildArguments m = some A) :
    A.Count = A.Args.length ∧ A.Count ≤ m.length + 1 ∧
      A.Args = none :: (message_fields m []).map some := by
  rw [BuildArguments_eq] at h
  have hlen := message_fields_length_le m []
  simp only [List.isEmpty_nil, if_true, Nat.add_zero] at hlen
  cases h
  simp only [List.length_cons, List.length_map, true_and, and_true]
  omega

/-- `ParseWindowCommand` on a message that `BuildArguments` cuts into `-X` and
`a`, for each of the six flags, with `optind` at 1 and a null scan pointer: the
result is decided by the check of the flag on `a`. -/
theorem ParseWindowCommand_single (X : Char) (a m : List Char) (g : getopt_globals)
    (hX : X = 'f' ∨ X = 's' ∨ X = 'i' ∨ X = 'w' ∨ X = 't' ∨ X = 'r')
    (hind : g.optind = 1) (hnext : g.nextchar = none)
    (hargs : BuildArguments m = some { Count := 3, Args := [none, some ['-', X], some a] }) :
    ParseWindowCommand m g =
      if (X ≠ 'r' ∧ window_argument_accepted X a = true) ∨ (X = 'r' ∧ sscanf_f a ≠ 0) then
        some (true, [{ Flag := X, Arg := a }], getopt_reset)
      else some (false, [], { optind := 1, optarg := some a, nextchar := none }) := by
  obtain ⟨optind, oa, nextchar⟩ := g
  simp only at hind hnext
  subst hind hnext
  have hlen := (BuildArguments_length_le m _ hargs).2.1
  simp only at hlen
  obtain ⟨f, hf⟩ : ∃ f, m.length + 1 = f + 2 := ⟨m.length - 1, by omega⟩
  obtain ⟨t, hS, ht, h1, h2, h3, _⟩ := window_short_flag X hX
  have hpair := getopt_long_pair WindowShort t X a [none] [] oa hS ht h1 h2 h3
  simp only [List.singleton_append, List.length_cons, List.length_nil, List.length_singleton,
    Nat.zero_add, Nat.reduceAdd] at hpair
  have hend := getopt_long_end WindowShort [none, some ['-', X], some a] (some a) (by simp)
  simp only [List.length_cons, List.length_nil, Nat.zero_add, Nat.reduceAdd] at hend
  unfold ParseWindowCommand
  rw [hargs]
  simp only [show ¬ (ArgsCapacity < 3) by decide, if_false, Option.isSome_none,
    Bool.false_eq_true, hf]
  by_cases hr : X = 'r'
  · subst hr
    by_cases hs : sscanf_f a ≠ 0
    · rw [if_pos (Or.inr ⟨rfl, hs⟩), ParseWindowLoop_accept_ratio _ _ _ _ _ _ a hpair rfl hs,
        ParseWindowLoop, hend]
      rfl
    · rw [if_neg (by simp only [not_or, not_and]; exact ⟨fun h => absurd rfl h, fun _ => hs⟩),
        ParseWindowLoop_reject _ _ _ _ _ _ 'r' a hpair rfl (Or.inr ⟨rfl, by simpa using hs⟩)]
  · have hX5 : X = 'f' ∨ X = 's' ∨ X = 'i' ∨ X = 'w' ∨ X = 't' := by tauto
    by_cases hacc : window_argument_accepted X a = true
    · rw [if_pos (Or.inl ⟨hr, hacc⟩), ParseWindowLoop_accept _ _ _ _ _ _ X a hpair rfl hacc,
        ParseWindowLoop, hend]
      rfl
    · rw [if_neg (by simp only [not_or, not_and]; exact ⟨fun _ => hacc, fun h => absurd h hr⟩),
        ParseWindowLoop_reject _ _ _ _ _ _ X a hpair rfl
          (Or.inl ⟨hX5, by simpa using hacc⟩)]

/-- A message that `BuildArguments` cuts into `-X` and `a`, parsed with `optind`
at 1 and a null scan pointer. For `X` one of `f`, `s`, `i`, `w` the call
succeeds with the chain holding the one command `X`, `a` when `a` is `west`,
`east`, `north` or `south`, and fails with an empty chain for every other `a`;
for `X = t` it succeeds, with the one command `t`, `a`, when `a` is `float` and
fails for every other `a`. -/
theorem ParseWindowCommand_selector (X : Char) (a m : List Char) (g : getopt_globals)
    (hind : g.optind = 1) (hnext : g.nextchar = none)
    (hargs : BuildArguments m = some { Count := 3, Args := [none, some ['-', X], some a] }) :
    ((X = 'f' ∨ X = 's' ∨ X = 'i' ∨ X = 'w') →
      ParseWindowCommand m g =
        if a = ['w', 'e', 's', 't'] ∨ a = ['e', 'a', 's', 't'] ∨ a = ['n', 'o', 'r', 't', 'h']
            ∨ a = ['s', 'o', 'u', 't', 'h'] then
          some (true, [{ Flag := X, Arg := a }], getopt_reset)
        else some (false, [], { optind := 1, optarg := some a, nextchar := none })) ∧
    (X = 't' →
      ParseWindowCommand m g =
        if a = ['f', 'l', 'o', 'a', 't'] then
          some (true, [{ Flag := X, Arg := a }], getopt_reset)
        else some (false, [], { optind := 1, optarg := some a, nextchar := none })) := by
  constructor
  · intro hX
    have hr : X ≠ 'r' := by rcases hX with h | h | h | h <;> rw [h] <;> decide
    rw [ParseWindowCommand_single X a m g (by tauto) hind hnext hargs]
    simp only [window_argument_accepted, hX, if_true, hr, ne_eq, not_false_eq_true, true_and,
      false_and, or_false, decide_eq_true_eq]
  · intro hX
    subst hX
    rw [ParseWindowCommand_single 't' a m g (by decide) hind hnext hargs]
    have h1 : ¬ ('t' = 'f' ∨ 't' = 's' ∨ 't' = 'i' ∨ 't' = 'w') := by decide
    simp only [window_argument_accepted, h1, if_false, if_true, ne_eq, not_false_eq_true,
      true_and, false_and, or_false, decide_eq_true_eq, show ¬ ('t' = 'r') by decide]

theorem ParseWindowCommand_selector_witness :
    (('f' = 'f' ∨ 'f' = 's' ∨ 'f' = 'i' ∨ 'f' = 'w') →
      ParseWindowCommand "-f east".toList getopt_reset =
        if "east".toList = ['w', 'e', 's', 't'] ∨ "east".toList = ['e', 'a', 's', 't']
            ∨ "east".toList = ['n', 'o', 'r', 't', 'h']
            ∨ "east".toList = ['s', 'o', 'u', 't', 'h'] then
          some (true, [{ Flag := 'f', Arg := "east".toList }], getopt_reset)
        else some (false, [], { optind := 1, optarg := some "east".toList, nextchar := none })) ∧
    ('f' = 't' →
      ParseWindowCommand "-f east".toList getopt_reset =
        if "east".toList = ['f', 'l', 'o', 'a', 't'] then
          some (true, [{ Flag := 'f', Arg := "east".toList }], getopt_reset)
        else some (false, [], { optind := 1, optarg := some "east".toList, nextchar := none })) :=
  ParseWindowCommand_selector 'f' "east".toList "-f east".toList getopt_reset rfl rfl
    (by decide)

/-! ## The space grammar -/

theorem ParseSpaceLoop_question (Count : Nat) (Args : List (Option (List Char))) (fuel : Nat)
    (g g1 : getopt_globals) (Chain : List command)
    (hg : getopt_long Count Args SpaceShort g = some (some '?', g1)) :
    ParseSpaceLoop Count Args (fuel + 1) g Chain = some (false, [], g1) := by
  rw [ParseSpaceLoop]
  simp only [hg]
  have h2 : ¬ ('?' = 'r') := by decide
  simp only [h2, if_false, if_true]

theorem ParseSpaceLoop_rotate (Count : Nat) (Args : List (Option (List Char))) (fuel : Nat)
    (g g1 : getopt_globals) (Chain : List command) (a : List Char)
    (hg : getopt_long Count Args SpaceShort g = some (some 'r', g1))
    (ha : g1.optarg = some a) :
    ParseSpaceLoop Count Args (fuel + 1) g Chain =
      if a = ['9', '0'] ∨ a = ['1', '8', '0'] ∨ a = ['2', '7', '0'] then
        ParseSpaceLoop Count Args fuel g1 (Chain ++ [{ Flag := 'r', Arg := a }])
      else some (false, [], g1) := by
  rw [ParseSpaceLoop]
  simp only [hg, ha, if_true, StringEquals, Bool.or_eq_true, decide_eq_true_eq, or_assoc]

/-- `ParseSpaceCommand` on a message that `BuildArguments` cuts into `-r` and
`a`, with `optind` at 1 and a null scan pointer. -/
theorem ParseSpaceCommand_single (a m : List Char) (g : getopt_globals)
    (hind : g.optind = 1) (hnext : g.nextchar = none)
    (hargs : BuildArguments m =
      some { Count := 3, Args := [none, some ['-', 'r'], some a] }) :
    ParseSpaceCommand m g =
      if a = ['9', '0'] ∨ a = ['1', '8', '0'] ∨ a = ['2', '7', '0'] then
        some (true, [{ Flag := 'r', Arg := a }], getopt_reset)
      else some (false, [], { optind := 1, optarg := some a, nextchar := none }) := by
  obtain ⟨optind, oa, nextchar⟩ := g
  simp only at hind hnext
  subst hind hnext
  have hlen := (BuildArguments_length_le m _ hargs).2.1
  simp only at hlen
  obtain ⟨f, hf⟩ : ∃ f, m.length + 1 = f + 2 := ⟨m.length - 1, by omega⟩
  have hpair := getopt_long_pair SpaceShort [] 'r' a [none] [] oa (by simp [strchr, SpaceShort])
    (by simp) (by decide) (by decide) (by decide)
  simp only [List.singleton_append, List.length_cons, List.length_nil, List.length_singleton,
    Nat.zero_add, Nat.reduceAdd] at hpair
  have hend := getopt_long_end SpaceShort [none, some ['-', 'r'], some a] (some a) (by simp)
  simp only [List.length_cons, List.length_nil, Nat.zero_add, Nat.reduceAdd] at hend
  unfold ParseSpaceCommand
  rw [hargs]
  simp only [show ¬ (ArgsCapacity < 3) by decide, if_false, Option.isSome_none,
    Bool.false_eq_true, hf]
  rw [ParseSpaceLoop_rotate _ _ _ _ _ _ a hpair rfl]
  split_ifs with h
  · rw [ParseSpaceLoop, hend]
    rfl
  · rfl

/-- `ParseSpaceCommand` on a message that fits the argument array and whose
first element is an option element that starts with a flag other than `r`,
with `optind` at 1 and a null scan pointer: the call fails, and the scan
pointer is left inside that element. -/
theorem ParseSpaceCommand_other_flag (c : Char) (cs m : List Char)
    (post : List (Option (List Char))) (A : arguments) (g : getopt_globals)
    (hind : g.optind = 1) (hnext : g.nextchar = none)
    (hc : c ≠ 'r') (hdd : ¬ (c = '-' ∧ cs = []))
    (hargs : BuildArguments m = some A) (hfit : A.Count ≤ ArgsCapacity)
    (hA : A.Args = none :: some ('-' :: c :: cs) :: post) :
    ParseSpaceCommand m g =
      some (false, [], { optind := 1, optarg := none, nextchar := some cs }) := by
  obtain ⟨optind, oa, nextchar⟩ := g
  simp only at hind hnext
  subst hind hnext
  obtain ⟨Count, Args⟩ := A
  have hC := (BuildArguments_length_le m _ hargs).1
  simp only at hC hA hfit
  subst hA
  subst hC
  have hS : strchr SpaceShort c = none ∨ c = ':' ∨ c = ';' := by
    by_cases h : c = ':'
    · exact Or.inr (Or.inl h)
    · left
      have h1 : ¬ ('r' = c) := fun e => hc e.symm
      have h2 : ¬ (':' = c) := fun e => h e.symm
      simp [strchr, SpaceShort, h1, h2]
  have hq := getopt_long_unknown SpaceShort c cs [none] post oa hS hdd
  simp only [List.singleton_append, List.length_singleton] at hq
  unfold ParseSpaceCommand
  rw [hargs]
  simp only [if_neg (Nat.not_lt.mpr hfit), Option.isSome_none, Bool.false_eq_true, if_false]
  rw [ParseSpaceLoop_question _ _ _ _ _ _ hq]

/-- A space message that fits the argument array, received with `optind` at 1
and a null scan pointer. When `BuildArguments` cuts the text after `space` into `-r` and `a`, the parse
succeeds exactly when `a` is `90`, `180` or `270`, and the callback then makes
one call, `RotateWindowTree` with `a`; for every other `a` the parse fails and
the callback makes no call. When the first element is an option element that
starts with a flag other than `r`, the parse fails and the callback makes no
call. -/
theorem DaemonCallback_space_rotation {σ F : Type} (env : environment σ F)
    (s : daemon σ F) (m : List Char)
    (hind : s.getopt.optind = 1) (hnext : s.getopt.nextchar = none) :
    (∀ a : List Char,
      BuildArguments m = some { Count := 3, Args := [none, some ['-', 'r'], some a] } →
      ParseSpaceCommand m s.getopt =
        (if a = ['9', '0'] ∨ a = ['1', '8', '0'] ∨ a = ['2', '7', '0'] then
          some (true, [{ Flag := 'r', Arg := a }], getopt_reset)
        else some (false, [], { optind := 1, optarg := some a, nextchar := none })) ∧
      ∃ s1 : daemon σ F,
        DaemonCallback env (['s', 'p', 'a', 'c', 'e'] ++ ' ' :: m) s = some s1 ∧
        s1.calls = s.calls ++
          (if a = ['9', '0'] ∨ a = ['1', '8', '0'] ∨ a = ['2', '7', '0'] then
            [call.Command .RotateWindowTree a] else []) ∧
        s1.world =
          (if a = ['9', '0'] ∨ a = ['1', '8', '0'] ∨ a = ['2', '7', '0'] then
            env.perform (.Command .RotateWindowTree a) s.world else s.world)) ∧
    (∀ (c : Char) (cs : List Char) (post : List (Option (List Char))) (A : arguments),
      c ≠ 'r' → ¬ (c = '-' ∧ cs = []) →
      BuildArguments m = some A → A.Count ≤ ArgsCapacity →
      A.Args = none :: some ('-' :: c :: cs) :: post →
      (∃ g1, ParseSpaceCommand m s.getopt = some (false, [], g1)) ∧
      ∃ s1 : daemon σ F,
        DaemonCallback env (['s', 'p', 'a', 'c', 'e'] ++ ' ' :: m) s = some s1 ∧
        s1.calls = s.calls ∧ s1.world = s.world) := by
  constructor
  · intro a hargs
    have hp := ParseSpaceCommand_single a m s.getopt hind hnext hargs
    refine ⟨hp, ?_⟩
    rw [DaemonCallback_space, hp]
    by_cases h : a = ['9', '0'] ∨ a = ['1', '8', '0'] ∨ a = ['2', '7', '0']
    · simp only [if_pos h, if_true, DispatchChain_space]
      refine ⟨_, rfl, ?_, ?_⟩
      · rw [(run_calls_calls env _ _).1]
        rfl
      · rfl
    · simp only [if_neg h]
      exact ⟨_, rfl, by simp, rfl⟩
  · intro c cs post A hc hdd hargs hfit hA
    have hp :=
      ParseSpaceCommand_other_flag c cs m post A s.getopt hind hnext hc hdd hargs hfit hA
    refine ⟨⟨_, hp⟩, ?_⟩
    rw [DaemonCallback_space, hp]
    exact ⟨_, rfl, rfl, rfl⟩

theorem DaemonCallback_space_rotation_witness :
    (ParseSpaceCommand "-r 90".toList (sample_daemon []).getopt =
        (if "90".toList = ['9', '0'] ∨ "90".toList = ['1', '8', '0']
            ∨ "90".toList = ['2', '7', '0'] then
          some (true, [{ Flag := 'r', Arg := "90".toList }], getopt_reset)
        else some (false, [], { optind := 1, optarg := some "90".toList, nextchar := none })) ∧
      ∃ s1 : daemon sample_store Int,
        DaemonCallback sample_environment (['s', 'p', 'a', 'c', 'e'] ++ ' ' :: "-r 90".toList)
          (sample_daemon []) = some s1 ∧
        s1.calls = (sample_daemon []).calls ++
          (if "90".toList = ['9', '0'] ∨ "90".toList = ['1', '8', '0']
              ∨ "90".toList = ['2', '7', '0'] then
            [call.Command .RotateWindowTree "90".toList] else []) ∧
        s1.world =
          (if "90".toList = ['9', '0'] ∨ "90".toList = ['1', '8', '0']
              ∨ "90".toList = ['2', '7', '0'] then
            sample_environment.perform (.Command .RotateWindowTree "90".toList)
              (sample_daemon []).world
           else (sample_daemon []).world)) :=
  (DaemonCallback_space_rotation sample_environment (sample_daemon []) "-r 90".toList
    rfl rfl).1 "90".toList (by decide)

/-- C5. The message `window -r  0.5`, with two spaces after `-r`: the argument
of `-r` is the empty string, on which `sscanf` converts nothing and returns
`EOF`; `ParseWindowCommand` nevertheless succeeds with the command `r`, empty
argument, and the callback calls `TemporaryRatio` with the empty string. -/
theorem ParseWindowCommand_ratio_empty_argument :
    sscanf_f [] = -1 ∧
    BuildArguments "-r  0.5".toList =
      some { Count := 4, Args := [none, some ['-', 'r'], some [], some ['0', '.', '5']] } ∧
    ParseWindowCommand "-r  0.5".toList getopt_reset =
      some (true, [{ Flag := 'r', Arg := [] }], getopt_reset) ∧
    (DaemonCallback sample_environment "window -r  0.5".toList (sample_daemon [])).map
        (fun s => s.calls) = some [.Command .TemporaryRatio []] := by
  decide

/-! ## The `config` branch -/

theorem ConfigCommand_of_not_global {σ F : Type} (env : environment σ F) (Message : List Char)
    (s : daemon σ F) (hg : Message.takeWhile token_char ∉ global_names env.names) :
    ConfigCommand env Message s =
      match sscanf_d_s (Message.takeWhile token_char) with
      | some (_, Buffer) =>
        if Buffer ∈ offset_suffixes env.names then
          UpdateFloat env (Message.takeWhile token_char) (GetToken Message).2 s
        else if Buffer = env.names._CVAR_SPACE_MODE then
          UpdateSpaceMode env (Message.takeWhile token_char) (GetToken Message).2 s
        else s
      | none => s := by
  simp only [global_names, List.mem_cons, List.mem_singleton, List.not_mem_nil, or_false,
    not_or] at hg
  obtain ⟨h1, h2, h3, h4, h5, h6, h7, h8, h9, h10, h11, h12, h13⟩ := hg
  unfold ConfigCommand
  simp only [TokenEquals_GetToken, TokenToString_GetToken, h1, h2, h3, h4, h5, h6, h7, h8, h9,
    h10, h11, h12, h13, decide_False, Bool.false_eq_true, if_false, Bool.or_self]
  cases sscanf_d_s (Message.takeWhile token_char) with
  | none => rfl
  | some r =>
    obtain ⟨First, Buffer⟩ := r
    simp only [StringEquals, offset_suffixes, List.mem_cons, List.mem_singleton,
      List.not_mem_nil, or_false, Bool.or_eq_true, decide_eq_true_eq, or_assoc]

/-! ## Scanning a scoped key -/

theorem scan_digits_append (ds rest : List Char) (hds : ∀ c ∈ ds, c.isDigit = true)
    (hrest : ∀ c ∈ rest.head?, c.isDigit = false) :
    ∀ acc : Nat, (scan_digits (ds ++ rest) acc).2 = rest := by
  induction ds with
  | nil =>
    intro acc
    cases rest with
    | nil => rfl
    | cons r rs =>
      have : r.isDigit = false := hrest r (by simp)
      simp [scan_digits, this]
  | cons d ds ih =>
    intro acc
    have hd : d.isDigit = true := hds d (List.mem_cons_self _ _)
    simp only [List.cons_append, scan_digits, hd, if_true]
    exact ih (fun c hc => hds c (List.mem_cons_of_mem _ hc)) _

theorem isspace_false_of_sign_or_digit (c : Char)
    (h : c = '+' ∨ c = '-' ∨ c.isDigit = true) : isspace c = false := by
  rcases h with h | h | h
  · subst h; decide
  · subst h; decide
  · simp only [Char.isDigit, Bool.and_eq_true, decide_eq_true_eq] at h
    have h1 : c.val ≠ 32 := by intro e; rw [e] at h; exact absurd h.1 (by decide)
    have h2 : c.val ≠ 9 := by intro e; rw [e] at h; exact absurd h.1 (by decide)
    have h3 : c.val ≠ 10 := by intro e; rw [e] at h; exact absurd h.1 (by decide)
    have h4 : c.val ≠ 11 := by intro e; rw [e] at h; exact absurd h.1 (by decide)
    have h5 : c.val ≠ 12 := by intro e; rw [e] at h; exact absurd h.1 (by decide)
    have h6 : c.val ≠ 13 := by intro e; rw [e] at h; exact absurd h.1 (by decide)
    have hne : ∀ d : Char, c.val ≠ d.val → c ≠ d := fun d hd e => hd (e ▸ rfl)
    simp [isspace, hne ' ' h1, hne '\t' h2, hne '\n' h3, hne (Char.ofNat 11) h4,
      hne (Char.ofNat 12) h5, hne '\r' h6]

theorem dropWhile_isspace_cons (c : Char) (cs : List Char) (h : isspace c = false) :
    (c :: cs).dropWhile isspace = c :: cs := by
  simp [List.dropWhile, h]

theorem scan_int_integer_text (t rest : List Char) (ht : integer_text t = true)
    (hrest : ∀ c ∈ rest.head?, c.isDigit = false) :
    ∃ v : Int, scan_int (t ++ rest) = some (v, rest) := by
  cases t with
  | nil => simp [integer_text, scan_sign] at ht
  | cons c cs =>
    by_cases hc : c = '+' ∨ c = '-'
    · have hsp : isspace c = false := isspace_false_of_sign_or_digit c (by tauto)
      simp only [integer_text, scan_sign, hc, if_true] at ht
      cases cs with
      | nil => simp at ht
      | cons d ds =>
        simp only [List.all_eq_true] at ht
        have hd : d.isDigit = true := ht d (List.mem_cons_self _ _)
        have h2 := scan_digits_append (d :: ds) rest ht hrest 0
        rw [List.cons_append] at h2
        simp only [scan_int, List.cons_append, dropWhile_isspace_cons _ _ hsp, scan_sign, hc,
          if_true, hd, h2]
        exact ⟨_, rfl⟩
    · simp only [integer_text, scan_sign, hc, if_false, List.all_eq_true] at ht
      have hd : c.isDigit = true := ht c (List.mem_cons_self _ _)
      have hsp : isspace c = false := isspace_false_of_sign_or_digit c (by tauto)
      have h2 := scan_digits_append (c :: cs) rest ht hrest 0
      rw [List.cons_append] at h2
      simp only [scan_int, List.cons_append, dropWhile_isspace_cons _ _ hsp, scan_sign, hc,
        if_false, hd, if_true, h2]
      exact ⟨_, rfl⟩

theorem sscanf_d_s_scoped (t suffix : List Char) (ht : integer_text t = true)
    (hne : suffix ≠ []) (hws : ∀ c ∈ suffix, isspace c = false) :
    ∃ v : Int, sscanf_d_s (t ++ '_' :: suffix) = some (v, suffix) := by
  obtain ⟨v, hv⟩ := scan_int_integer_text t ('_' :: suffix) ht (by simp)
  refine ⟨v, ?_⟩
  have h1 : suffix.dropWhile isspace = suffix := by
    cases suffix with
    | nil => rfl
    | cons c cs => exact dropWhile_isspace_cons c cs (hws c (List.mem_cons_self _ _))
  have h2 : suffix.takeWhile (fun x => !isspace x) = suffix := by
    rw [List.takeWhile_eq_self_iff]
    intro c hc
    simp [hws c hc]
  simp only [sscanf_d_s, hv, if_true, h1, h2]
  cases suffix with
  | nil => exact absurd rfl hne
  | cons c cs => rfl

theorem integer_text_no_space (t : List Char) (ht : integer_text t = true) : ' ' ∉ t := by
  intro hmem
  cases t with
  | nil => simp at hmem
  | cons c cs =>
    by_cases hc : c = '+' ∨ c = '-'
    · simp only [integer_text, scan_sign, hc, if_true] at ht
      cases cs with
      | nil => simp at ht
      | cons d ds =>
        simp only [List.all_eq_true] at ht
        rcases List.mem_cons.mp hmem with h | h
        · rcases hc with hc | hc <;> rw [← h] at hc <;> exact absurd hc (by decide)
        · exact absurd (ht ' ' h) (by decide)
    · simp only [integer_text, scan_sign, hc, if_false, List.all_eq_true] at ht
      exact absurd (ht ' ' hmem) (by decide)

theorem UpdateFloat_value {σ F : Type} (env : environment σ F) (Variable v : List Char)
    (s : daemon σ F) (hv : sscanf_f v = 1) (hvs : ' ' ∉ v) :
    UpdateFloat env Variable v s =
      invoke env (.UpdateCVar Variable (.float (env.float_value v))) s := by
  have hne : v ≠ [] := by
    rintro rfl
    simp [sscanf_f] at hv
  obtain ⟨_, hstr, hlen, _⟩ := GetToken_last v hvs
  have hpos : 0 < v.length := List.length_pos.mpr hne
  unfold UpdateFloat TokenToFloat
  simp only [hlen, hstr, hv, gt_iff_lt, hpos, if_true]

/-- C10. The message `config <n>_<suffix> <v>`, for `<n>` the text of an
integer, `<suffix>` one of the offset suffixes (a non-empty name without white
space) and `<v>` a token from which `%f` converts a float, the key not being
one of the global names: the callback makes exactly one call, a float update
of the variable named by the whole key `<n>_<suffix>`, with the float converted
from `<v>`. -/
theorem DaemonCallback_scoped_offset {σ F : Type} (env : environment σ F)
    (s : daemon σ F) (t suffix v : List Char)
    (ht : integer_text t = true)
    (hsuf : suffix ∈ offset_suffixes env.names)
    (hne : suffix ≠ []) (hws : ∀ c ∈ suffix, isspace c = false)
    (hglobal : t ++ '_' :: suffix ∉ global_names env.names)
    (hv : sscanf_f v = 1) (hvs : ' ' ∉ v) :
    DaemonCallback env
        (['c', 'o', 'n', 'f', 'i', 'g'] ++ ' ' :: ((t ++ '_' :: suffix) ++ ' ' :: v)) s =
      some (invoke env (.UpdateCVar (t ++ '_' :: suffix) (.float (env.float_value v))) s) ∧
    (invoke env (.UpdateCVar (t ++ '_' :: suffix) (.float (env.float_value v))) s).calls =
      s.calls ++ [.UpdateCVar (t ++ '_' :: suffix) (.float (env.float_value v))] := by
  refine ⟨?_, rfl⟩
  have hkey : ' ' ∉ t ++ '_' :: suffix := by
    intro h
    rcases List.mem_append.mp h with h | h
    · exact integer_text_no_space t ht h
    · rcases List.mem_cons.mp h with h | h
      · exact absurd h (by decide)
      · exact absurd (hws ' ' h) (by decide)
  obtain ⟨hrest, _, _, _⟩ := GetToken_word (t ++ '_' :: suffix) v hkey
  have htw := takeWhile_token_char_append (t ++ '_' :: suffix) v hkey
  obtain ⟨n, hn⟩ := sscanf_d_s_scoped t suffix ht hne hws
  rw [DaemonCallback_config, ConfigCommand_of_not_global env _ s (by rw [htw]; exact hglobal)]
  simp only [htw, hn, hsuf, if_true, hrest]
  rw [UpdateFloat_value env _ v s hv hvs]

theorem DaemonCallback_scoped_offset_witness :
    DaemonCallback sample_environment
        (['c', 'o', 'n', 'f', 'i', 'g'] ++ ' ' :: ((['3'] ++ '_' :: ['t', 'o', 'p']) ++
          ' ' :: ['2', '0'])) (sample_daemon []) =
      some (invoke sample_environment (.UpdateCVar (['3'] ++ '_' :: ['t', 'o', 'p'])
        (.float (sample_environment.float_value ['2', '0']))) (sample_daemon [])) ∧
    (invoke sample_environment (.UpdateCVar (['3'] ++ '_' :: ['t', 'o', 'p'])
        (.float (sample_environment.float_value ['2', '0']))) (sample_daemon [])).calls =
      (sample_daemon []).calls ++ [.UpdateCVar (['3'] ++ '_' :: ['t', 'o', 'p'])
        (.float (sample_environment.float_value ['2', '0']))] :=
  DaemonCallback_scoped_offset sample_environment (sample_daemon []) ['3'] ['t', 'o', 'p']
    ['2', '0'] (by decide) (by decide) (by decide) (by decide) (by decide) (by decide)
    (by decide)

/-! ## Keys the `config` branch does not know -/

theorem scan_digits_split (u : List Char) : ∀ acc : Nat,
    ∃ ds : List Char, u = ds ++ (scan_digits u acc).2 ∧ ∀ c ∈ ds, c.isDigit = true := by
  induction u with
  | nil => intro acc; exact ⟨[], rfl, by simp⟩
  | cons c cs ih =>
    intro acc
    by_cases hc : c.isDigit = true
    · obtain ⟨ds, h1, h2⟩ := ih (acc * 10 + (c.toNat - '0'.toNat))
      refine ⟨c :: ds, ?_, ?_⟩
      · simp only [scan_digits, hc, if_true, List.cons_append]
        rw [← h1]
      · intro x hx
        rcases List.mem_cons.mp hx with h | h
        · rw [h]; exact hc
        · exact h2 x h
    · exact ⟨[], by simp [scan_digits, hc], by simp⟩

theorem scan_sign_split (t : List Char) :
    ∃ sg : List Char, t = sg ++ scan_sign t ∧ (sg = [] ∨ sg = ['+'] ∨ sg = ['-']) := by
  cases t with
  | nil => exact ⟨[], rfl, Or.inl rfl⟩
  | cons c cs =>
    by_cases hc : c = '+' ∨ c = '-'
    · refine ⟨[c], by simp [scan_sign, hc], ?_⟩
      rcases hc with h | h <;> simp [h]
    · exact ⟨[], by simp [scan_sign, hc], Or.inl rfl⟩

/-- A key without white space that `sscanf` matches against `%d_%s` has the
form `<integer>_<suffix>`, `Buffer` being the suffix. -/
theorem scoped_key_of_sscanf (key Buffer : List Char) (First : Int)
    (hws : ∀ c ∈ key, isspace c = false)
    (h : sscanf_d_s key = some (First, Buffer)) : scoped_key key Buffer := by
  have hdrop : key.dropWhile isspace = key := by
    cases key with
    | nil => rfl
    | cons c cs => exact dropWhile_isspace_cons c cs (hws c (List.mem_cons_self _ _))
  unfold sscanf_d_s scan_int at h
  simp only [hdrop] at h
  obtain ⟨sg, hsg, hsg3⟩ := scan_sign_split key
  cases hu : scan_sign key with
  | nil => simp [hu] at h
  | cons c cs =>
    rw [hu] at h hsg
    by_cases hc : c.isDigit = true
    · simp only [hc, if_true] at h
      obtain ⟨ds, hds, hdig⟩ := scan_digits_split (c :: cs) 0
      cases hr : (scan_digits (c :: cs) 0).2 with
      | nil => simp [hr] at h
      | cons r rs =>
        rw [hr] at h hds
        by_cases hr1 : r = '_'
        · subst hr1
          simp only [if_true] at h
          have hkey : key = (sg ++ ds) ++ '_' :: rs := by
            rw [hsg, hds]; simp
          have hrs : ∀ x ∈ rs, isspace x = false := by
            intro x hx
            apply hws x
            rw [hkey]
            simp [hx]
          have h1 : rs.dropWhile isspace = rs := by
            cases rs with
            | nil => rfl
            | cons y ys => exact dropWhile_isspace_cons y ys (hrs y (List.mem_cons_self _ _))
          have h2 : rs.takeWhile (fun x => !isspace x) = rs := by
            rw [List.takeWhile_eq_self_iff]
            intro x hx
            simp [hrs x hx]
          rw [h1, h2] at h
          have hB : Buffer = rs := by
            by_cases hrs0 : rs.isEmpty
            · simp [hrs0] at h
            · simp only [hrs0, Bool.false_eq_true, if_false, Option.some.injEq,
                Prod.mk.injEq] at h
              exact h.2.symm
          have hds0 : ds ≠ [] := by
            rintro rfl
            simp only [List.nil_append, List.cons.injEq] at hds
            rw [hds.1] at hc
            exact absurd hc (by decide)
          refine ⟨sg ++ ds, ?_, by rw [hB]; exact hkey⟩
          obtain ⟨d, ds', rfl⟩ := List.exists_cons_of_ne_nil hds0
          have hd : d.isDigit = true := hdig d (List.mem_cons_self _ _)
          have hd2 : ¬ (d = '+' ∨ d = '-') := by
            rintro (e | e) <;> rw [e] at hd <;> exact absurd hd (by decide)
          rcases hsg3 with e | e | e <;> subst e <;>
            simp [integer_text, scan_sign, hd2] <;>
            exact ⟨hd, fun x hx => hdig x (List.mem_cons_of_mem _ hx)⟩
        · simp [hr1] at h
    · simp [hc] at h

/-- A key that is none of the global names, holds no white space and is not
of the form `<integer>_<suffix>` for a known suffix: the `config` branch makes
no call and changes nothing, whatever follows the key. -/
theorem ConfigCommand_unknown_key {σ F : Type} (env : environment σ F) (Message : List Char)
    (s : daemon σ F)
    (hg : Message.takeWhile token_char ∉ global_names env.names)
    (hws : ∀ c ∈ Message.takeWhile token_char, isspace c = false)
    (hform : ∀ suffix ∈ env.names._CVAR_SPACE_MODE :: offset_suffixes env.names,
      ¬ scoped_key (Message.takeWhile token_char) suffix) :
    ConfigCommand env Message s = s := by
  rw [ConfigCommand_of_not_global env Message s hg]
  cases h : sscanf_d_s (Message.takeWhile token_char) with
  | none => rfl
  | some r =>
    obtain ⟨First, Buffer⟩ := r
    have hk := scoped_key_of_sscanf _ Buffer First hws h
    have h1 : Buffer ∉ offset_suffixes env.names :=
      fun e => hform Buffer (List.mem_cons_of_mem _ e) hk
    have h2 : Buffer ≠ env.names._CVAR_SPACE_MODE :=
      fun e => hform Buffer (by rw [e]; exact List.mem_cons_self _ _) hk
    simp only [h1, h2, if_false]

theorem sample_suffixes :
    sample_names._CVAR_SPACE_MODE :: offset_suffixes sample_names =
      [['m', 'o', 'd', 'e'], ['t', 'o', 'p'], ['b', 'o', 't', 't', 'o', 'm'],
       ['l', 'e', 'f', 't'], ['r', 'i', 'g', 'h', 't'], ['g', 'a', 'p']] := by
  decide

/-- C9. The message `config 3_top<TAB>x 5` under the sample names: the key
`3_top<TAB>x` is none of the global names and is not `<integer>_<suffix>` for
any known suffix, yet `%d_%s` matches it, `%s` stopping at the tab with
`Buffer = "top"`, and the callback makes a float update of the variable named
by the whole key. -/
theorem DaemonCallback_config_tab_key :
    ['3', '_', 't', 'o', 'p', '\t', 'x'] ∉ global_names sample_names ∧
    (∀ suffix ∈ sample_names._CVAR_SPACE_MODE :: offset_suffixes sample_names,
      ¬ scoped_key ['3', '_', 't', 'o', 'p', '\t', 'x'] suffix) ∧
    sscanf_d_s ['3', '_', 't', 'o', 'p', '\t', 'x'] = some (3, ['t', 'o', 'p']) ∧
    (DaemonCallback sample_environment
        (['c', 'o', 'n', 'f', 'i', 'g', ' ', '3', '_', 't', 'o', 'p', '\t', 'x', ' ', '5'])
        (sample_daemon [])).map (fun s => s.calls) =
      some [.UpdateCVar ['3', '_', 't', 'o', 'p', '\t', 'x'] (.float 5)] := by
  refine ⟨by decide, ?_, by decide, by decide⟩
  intro suffix hs
  rw [sample_suffixes] at hs
  rintro ⟨t, _, hk⟩
  have hlast := congrArg (fun l => l.reverse.head?) hk
  simp only [List.mem_cons, List.mem_singleton, List.not_mem_nil, or_false] at hs
  rcases hs with rfl | rfl | rfl | rfl | rfl | rfl <;> simp at hlast

/-- C1. The message `window -f east -r  0.5`, with two spaces after `-r`: the
pair `-f east` is followed by `-r` with the empty string as its argument, from
which no float can be read; `ParseWindowCommand` reports success and the
callback calls both `FocusWindow` and `TemporaryRatio`. -/
theorem DaemonCallback_window_empty_ratio_applied :
    window_argument_accepted 'r' [] = false ∧
    BuildArguments "-f east -r  0.5".toList =
      some { Count := 6,
             Args := [none, some ['-', 'f'], some ['e', 'a', 's', 't'], some ['-', 'r'],
                      some [], some ['0', '.', '5']] } ∧
    ParseWindowCommand "-f east -r  0.5".toList getopt_reset =
      some (true, [{ Flag := 'f', Arg := ['e', 'a', 's', 't'] }, { Flag := 'r', Arg := [] }],
        getopt_reset) ∧
    (DaemonCallback sample_environment "window -f east -r  0.5".toList (sample_daemon [])).map
        (fun s => s.calls) =
      some [.Command .FocusWindow ['e', 'a', 's', 't'], .Command .TemporaryRatio []] := by
  decide

/-! ## A rejected element after valid pairs -/

/-- The loop of `ParseWindowCommand` on an argument list that continues with
the words of accepted pairs and then with anything: after one round per pair
the commands of the pairs are on the chain and `getopt` stands at the start of
the element after the pairs. -/
theorem ParseWindowLoop_pairs_then (ps : List (Char × List Char)) :
    ∀ (pre post : List (Option (List Char))) (Chain : List command) (fuel : Nat)
      (oa : Option (List Char)),
      (∀ p ∈ ps, window_argument_accepted p.1 p.2 = true) →
      ∃ oa1 : Option (List Char),
        ParseWindowLoop (pre ++ ((pair_words ps).map some ++ post)).length
            (pre ++ ((pair_words ps).map some ++ post)) (ps.length + fuel)
            { optind := pre.length, optarg := oa, nextchar := none } Chain =
          ParseWindowLoop (pre ++ ((pair_words ps).map some ++ post)).length
            (pre ++ ((pair_words ps).map some ++ post)) fuel
            { optind := pre.length + (pair_words ps).length, optarg := oa1, nextchar := none }
            (Chain ++ ps.map (fun p => { Flag := p.1, Arg := p.2 })) := by
  induction ps with
  | nil =>
    intro pre post Chain fuel oa _
    exact ⟨oa, by simp [pair_words]⟩
  | cons p ps ih =>
    intro pre post Chain fuel oa hacc
    have hp := hacc p (List.mem_cons_self _ _)
    obtain ⟨t, hS, ht, h1, h2, h3, _⟩ := window_short_flag p.1 (window_flag_of_accepted _ _ hp)
    have hshape : pre ++ ((pair_words (p :: ps)).map some ++ post) =
        pre ++ some ['-', p.1] :: some p.2 :: ((pair_words ps).map some ++ post) := by
      simp [pair_words]
    have hshape2 : pre ++ some ['-', p.1] :: some p.2 :: ((pair_words ps).map some ++ post) =
        (pre ++ [some ['-', p.1], some p.2]) ++ ((pair_words ps).map some ++ post) := by
      simp
    obtain ⟨oa1, hih⟩ := ih (pre ++ [some ['-', p.1], some p.2]) post
      (Chain ++ [{ Flag := p.1, Arg := p.2 }]) fuel (some p.2)
      (fun q hq => hacc q (List.mem_cons_of_mem _ hq))
    refine ⟨oa1, ?_⟩
    have hfuel : (p :: ps).length + fuel = (ps.length + fuel) + 1 := by
      simp only [List.length_cons]; omega
    rw [hshape, hfuel]
    rw [ParseWindowLoop_accept _ _ (ps.length + fuel) _ _ Chain p.1 p.2
      (getopt_long_pair WindowShort t p.1 p.2 pre _ oa hS ht h1 h2 h3) rfl hp]
    have hlen : pre.length + 2 = (pre ++ [some ['-', p.1], some p.2]).length := by simp
    rw [hshape2, hlen, hih]
    simp only [List.length_append, List.length_cons, List.length_nil, pair_words,
      List.map_cons, List.append_assoc, List.singleton_append]
    have e : pre.length + (0 + 1 + 1) + (pair_words ps).length =
        pre.length + ((pair_words ps).length + 1 + 1) := by omega
    rw [e]

theorem window_short_unknown (c : Char)
    (h : ¬ (c = 'f' ∨ c = 's' ∨ c = 'i' ∨ c = 'w' ∨ c = 't' ∨ c = 'r')) :
    strchr WindowShort c = none ∨ c = ':' ∨ c = ';' := by
  by_cases hc : c = ':'
  · exact Or.inr (Or.inl hc)
  · left
    simp only [not_or] at h
    obtain ⟨h1, h2, h3, h4, h5, h6⟩ := h
    have e : ∀ d : Char, c ≠ d → ¬ (d = c) := fun d hd e => hd e.symm
    simp [strchr, WindowShort, e _ h1, e _ h2, e _ h3, e _ h4, e _ h5, e _ h6, e _ hc]

/-- The loop of `ParseWindowCommand` with `getopt` at the start of a rejected
element: the call fails with an empty chain. -/
theorem ParseWindowLoop_rejected (pre : List (Option (List Char))) (ws : List (List Char))
    (hw : window_rejected ws) (fuel : Nat) (oa : Option (List Char)) (Chain : List command) :
    ∃ g1 : getopt_globals,
      ParseWindowLoop (pre ++ ws.map some).length (pre ++ ws.map some) (fuel + 1)
        { optind := pre.length, optarg := oa, nextchar := none } Chain = some (false, [], g1) := by
  rcases hw with ⟨c, cs, post, rfl, hc, hdd⟩ | ⟨X, hX, rfl⟩ | ⟨X, a, post, rfl, hrej⟩
  · have hq := getopt_long_unknown WindowShort c cs pre (post.map some) oa
      (window_short_unknown c hc) hdd
    exact ⟨_, ParseWindowLoop_question _ _ fuel _ _ Chain hq⟩
  · obtain ⟨t, hS, ht, h1, h2, h3, _⟩ := window_short_flag X hX
    have hq := getopt_long_missing WindowShort t X pre oa hS ht (by decide) h1 h2 h3
    exact ⟨_, ParseWindowLoop_question _ _ fuel _ _ Chain hq⟩
  · have hX : X = 'f' ∨ X = 's' ∨ X = 'i' ∨ X = 'w' ∨ X = 't' ∨ X = 'r' := by tauto
    obtain ⟨t, hS, ht, h1, h2, h3, _⟩ := window_short_flag X hX
    have hq := getopt_long_pair WindowShort t X a pre (post.map some) oa hS ht h1 h2 h3
    exact ⟨_, ParseWindowLoop_reject _ _ fuel _ _ Chain X a hq rfl hrej⟩

/-- A window message that fits the argument array and whose words are those of
accepted pairs followed by a rejected element and then anything, received with
`optind` at 1 and a null scan pointer: `ParseWindowCommand` fails with an empty
chain, and the callback makes no call and leaves the collaborators as they
were. -/
theorem DaemonCallback_window_rejected {σ F : Type} (env : environment σ F)
    (s : daemon σ F) (m : List Char) (ps : List (Char × List Char)) (ws : List (List Char))
    (hind : s.getopt.optind = 1) (hnext : s.getopt.nextchar = none)
    (hfit : (pair_words ps ++ ws).length + 1 ≤ ArgsCapacity)
    (hps : ∀ p ∈ ps, window_argument_accepted p.1 p.2 = true)
    (hw : window_rejected ws)
    (hm : message_fields m [] = pair_words ps ++ ws) :
    (∃ g1, ParseWindowCommand m s.getopt = some (false, [], g1)) ∧
    ∃ s1 : daemon σ F,
      DaemonCallback env (['w', 'i', 'n', 'd', 'o', 'w'] ++ ' ' :: m) s = some s1 ∧
      s1.calls = s.calls ∧ s1.world = s.world := by
  have hparse : ∃ g1, ParseWindowCommand m s.getopt = some (false, [], g1) := by
    generalize s.getopt = g at hind hnext
    obtain ⟨optind, oa, nextchar⟩ := g
    simp only at hind hnext
    subst hind hnext
    have hws : 1 ≤ ws.length := by
      rcases hw with ⟨_, _, _, rfl, _⟩ | ⟨_, _, rfl⟩ | ⟨_, _, _, rfl, _⟩ <;> simp
    have hlen := message_fields_length_le m []
    rw [hm] at hlen
    simp only [List.isEmpty_nil, if_true, Nat.add_zero, List.length_append,
      pair_words_length] at hlen
    obtain ⟨f, hf⟩ : ∃ f, m.length + 1 = ps.length + (f + 1) :=
      ⟨m.length - ps.length, by omega⟩
    obtain ⟨oa1, h1⟩ := ParseWindowLoop_pairs_then ps [none] (ws.map some) [] (f + 1) oa hps
    have hshape : [none] ++ ((pair_words ps).map some ++ ws.map some) =
        ([none] ++ (pair_words ps).map some) ++ ws.map some := by simp
    have hn : ([none] : List (Option (List Char))).length + (pair_words ps).length =
        ([none] ++ (pair_words ps).map some).length := by simp; omega
    obtain ⟨g1, h2⟩ := ParseWindowLoop_rejected ([none] ++ (pair_words ps).map some) ws hw f oa1
      ([] ++ ps.map (fun p => { Flag := p.1, Arg := p.2 }))
    rw [hn, hshape, h2] at h1
    refine ⟨{ g1 with optind := 1 }, ?_⟩
    unfold ParseWindowCommand
    rw [BuildArguments_eq, hm]
    simp only [if_neg (Nat.not_lt.mpr hfit), Option.isSome_none, Bool.false_eq_true, if_false,
      hf]
    have hargs : none :: (pair_words ps ++ ws).map some =
        ([none] ++ (pair_words ps).map some) ++ ws.map some := by simp
    have hcount : (pair_words ps ++ ws).length + 1 =
        (([none] ++ (pair_words ps).map some) ++ ws.map some).length := by
      simp
    have hone : ([none] : List (Option (List Char))).length = 1 := rfl
    rw [hone] at h1
    rw [hargs, hcount, h1]
  obtain ⟨g1, hg1⟩ := hparse
  refine ⟨⟨g1, hg1⟩, ?_⟩
  rw [DaemonCallback_window, hg1]
  exact ⟨_, rfl, rfl, rfl⟩

/-! ## `TokenEquals` on arbitrary tokens -/

theorem TokenEqualsFrom_iff (n : Nat) : ∀ (Text M : List Char),
    TokenEqualsFrom n Text M = true ↔ n = M.length ∧ Text.take n = M := by
  induction n with
  | zero =>
    intro Text M
    cases M <;> simp [TokenEqualsFrom]
  | succ n ih =>
    intro Text M
    cases M with
    | nil => simp [TokenEqualsFrom]
    | cons a M =>
      cases Text with
      | nil => simp [TokenEqualsFrom]
      | cons t Text =>
        by_cases h : t = a
        · subst h
          simp [TokenEqualsFrom, ih]
        · simp [TokenEqualsFrom, h]

/-- C18. `TokenEquals` is equality of the token's characters with the match
string: it returns true exactly when the token's length is the length of the
match string and the characters of the token are those of the match string. A
token whose characters are a proper prefix of the match string, or of which the
match string is a proper prefix, does not match, and a token of length zero
matches the empty string only. -/
theorem TokenEquals_iff (Token : token) (Match : List Char) :
    (TokenEquals Token Match = true ↔
      Token.Length = Match.length ∧ TokenToString Token = Match) ∧
    (∀ rest : List Char, rest ≠ [] →
      Match = TokenToString Token ++ rest → TokenEquals Token Match = false) ∧
    (∀ rest : List Char, rest ≠ [] →
      TokenToString Token = Match ++ rest → TokenEquals Token Match = false) ∧
    (Token.Length = 0 → (TokenEquals Token Match = true ↔ Match = [])) := by
  have hiff : TokenEquals Token Match = true ↔
      Token.Length = Match.length ∧ TokenToString Token = Match :=
    TokenEqualsFrom_iff Token.Length Token.Text Match
  refine ⟨hiff, ?_, ?_, ?_⟩
  · intro rest hrest hM
    rw [Bool.eq_false_iff]
    intro h
    have h2 := (hiff.mp h).2
    rw [hM] at h2
    have := congrArg List.length h2
    simp only [List.length_append] at this
    have : rest.length = 0 := by omega
    exact hrest (List.length_eq_zero.mp this)
  · intro rest hrest hT
    rw [Bool.eq_false_iff]
    intro h
    have h2 := (hiff.mp h).2
    rw [hT] at h2
    have := congrArg List.length h2
    simp only [List.length_append] at this
    have : rest.length = 0 := by omega
    exact hrest (List.length_eq_zero.mp this)
  · intro h0
    rw [hiff, h0]
    constructor
    · intro h
      exact List.length_eq_zero.mp h.1.symm
    · intro h
      subst h
      simp [TokenToString, h0]

/-! ## Termination of the token loop -/

theorem drop_length_takeWhile (p : Char → Bool) (l : List Char) :
    l.drop (l.takeWhile p).length = l.dropWhile p := by
  induction l with
  | nil => rfl
  | cons x xs ih =>
    by_cases h : p x = true
    · simp [List.takeWhile, List.dropWhile, h, ih]
    · simp [List.takeWhile, List.dropWhile, h]

theorem GetToken_consumes (c : Char) (cs : List Char) :
    (GetToken (c :: cs)).2.length < (c :: cs).length ∧
    (c :: cs).length - (GetToken (c :: cs)).2.length =
      (GetToken (c :: cs)).1.Length +
        (if ((c :: cs).drop (GetToken (c :: cs)).1.Length).head? = some ' ' then 1 else 0) := by
  rw [GetToken_snd, GetToken_fst]
  have hlt := tail_dropWhile_length_lt c cs
  refine ⟨hlt, ?_⟩
  simp only
  have hsplit := List.takeWhile_append_dropWhile token_char (c :: cs)
  have hlen := congrArg List.length hsplit
  rw [List.length_append] at hlen
  rw [drop_length_takeWhile]
  cases hdw : (c :: cs).dropWhile token_char with
  | nil =>
    rw [hdw] at hlen
    simp only [List.tail_nil, List.length_nil, List.head?_nil, reduceCtorEq, if_false] at hlen ⊢
    omega
  | cons d r =>
    have hd : d = ' ' := dropWhile_token_char_head (c :: cs) d r hdw
    rw [hdw] at hlen
    simp only [List.tail_cons, List.head?_cons, hd, if_true, List.length_cons] at hlen ⊢
    omega

/-- C19. The token loop of `BuildArguments` ends for every message. A call of
`GetToken` on a non-empty input leaves a strictly shorter input: it consumes
the characters of the token and the one space after it, if any, which is at
least one character. Hence the loop, run with a budget of one round per
character of the message (or any larger budget), returns, and the number of
tokens it has stored, `Count - 1`, is at most the length of the message. -/
theorem BuildArguments_terminates (Message : List Char) :
    (∀ (c : Char) (cs : List Char),
      (GetToken (c :: cs)).2.length < (c :: cs).length ∧
      (c :: cs).length - (GetToken (c :: cs)).2.length =
        (GetToken (c :: cs)).1.Length +
          (if ((c :: cs).drop (GetToken (c :: cs)).1.Length).head? = some ' ' then 1 else 0)) ∧
    (∃ A : arguments, BuildArguments Message = some A ∧ A.Count - 1 ≤ Message.length ∧
      A.Args.length = A.Count ∧
      ∀ fuel : Nat, Message.length ≤ fuel →
        BuildArgumentsLoop fuel Message { Count := 1, Args := [none] } = some A) := by
  refine ⟨GetToken_consumes, _, BuildArguments_eq Message, ?_, ?_, ?_⟩
  · have := message_fields_length_le Message []
    simp only [List.isEmpty_nil, if_true, Nat.add_zero] at this
    simpa using this
  · simp
  · intro fuel hfuel
    rw [BuildArgumentsLoop_eq fuel Message _ hfuel]
    simp [Nat.add_comm]

/-! ## Messages of another kind, and missing values -/

/-- C14. A message whose first token is none of `config`, `window`, `space`:
the callback returns having made no call and changed nothing. -/
theorem DaemonCallback_unmatched {σ F : Type} (env : environment σ F)
    (Message : List Char) (s : daemon σ F)
    (h1 : TokenToString (GetToken Message).1 ≠ ['c', 'o', 'n', 'f', 'i', 'g'])
    (h2 : TokenToString (GetToken Message).1 ≠ ['w', 'i', 'n', 'd', 'o', 'w'])
    (h3 : TokenToString (GetToken Message).1 ≠ ['s', 'p', 'a', 'c', 'e']) :
    DaemonCallback env Message s = some s := by
  rw [TokenToString_GetToken] at h1 h2 h3
  unfold DaemonCallback
  simp only [TokenEquals_GetToken, h1, h2, h3, decide_False, Bool.false_eq_true, if_false]

theorem DaemonCallback_unmatched_witness :
    DaemonCallback sample_environment "windows -f east".toList (sample_daemon []) =
      some (sample_daemon []) :=
  DaemonCallback_unmatched sample_environment "windows -f east".toList (sample_daemon [])
    (by decide) (by decide) (by decide)

/-- The `config` branch when the token after the key has length zero: every
block that reads a value takes its `MISSING` branch, so nothing is called. -/
theorem ConfigCommand_missing_value {σ F : Type} (env : environment σ F) (Message : List Char)
    (s : daemon σ F) (h : (GetToken (GetToken Message).2).1.Length = 0) :
    ConfigCommand env Message s = s := by
  have hm : UpdateSpaceMode env (TokenToString (GetToken Message).1) (GetToken Message).2 s = s := by
    simp [UpdateSpaceMode, h]
  have hf : UpdateFloat env (TokenToString (GetToken Message).1) (GetToken Message).2 s = s := by
    simp [UpdateFloat, h]
  have hi : UpdateInt env (TokenToString (GetToken Message).1) (GetToken Message).2 s = s := by
    simp [UpdateInt, h]
  have hs : UpdateSplitMode env (TokenToString (GetToken Message).1) (GetToken Message).2 s = s := by
    simp [UpdateSplitMode, h]
  unfold ConfigCommand
  simp only [hm, hf, hi, hs]
  split_ifs <;> first | rfl | (split <;> first | rfl | (split_ifs <;> rfl))

/-- C12. A `config` message in which the token after the key has length zero,
because the message ends with the key, or with the key and one space, or
because a second space follows the key: the callback makes no call and changes
nothing. This holds for every key, recognised or not. -/
theorem DaemonCallback_missing_value {σ F : Type} (env : environment σ F)
    (s : daemon σ F) (key : List Char) (hk : ' ' ∉ key) :
    DaemonCallback env (['c', 'o', 'n', 'f', 'i', 'g'] ++ ' ' :: key) s = some s ∧
    DaemonCallback env (['c', 'o', 'n', 'f', 'i', 'g'] ++ ' ' :: (key ++ [' '])) s = some s ∧
    ∀ rest : List Char,
      DaemonCallback env (['c', 'o', 'n', 'f', 'i', 'g'] ++ ' ' :: (key ++ ' ' :: ' ' :: rest)) s =
        some s := by
  refine ⟨?_, ?_, ?_⟩
  · rw [DaemonCallback_config, ConfigCommand_missing_value]
    rw [(GetToken_last key hk).1]
    rfl
  · rw [DaemonCallback_config, ConfigCommand_missing_value]
    rw [(GetToken_word key [] hk).1]
    rfl
  · intro rest
    rw [DaemonCallback_config, ConfigCommand_missing_value]
    rw [(GetToken_word key (' ' :: rest) hk).1]
    exact (GetToken_word [] rest (by simp)).2.2.1

theorem DaemonCallback_missing_value_witness :
    DaemonCallback sample_environment
        (['c', 'o', 'n', 'f', 'i', 'g'] ++ ' ' :: "mouse_follows_focus".toList)
        (sample_daemon []) = some (sample_daemon []) ∧
    DaemonCallback sample_environment
        (['c', 'o', 'n', 'f', 'i', 'g'] ++ ' ' :: ("mouse_follows_focus".toList ++ [' ']))
        (sample_daemon []) = some (sample_daemon []) ∧
    ∀ rest : List Char,
      DaemonCallback sample_environment
          (['c', 'o', 'n', 'f', 'i', 'g'] ++
            ' ' :: ("mouse_follows_focus".toList ++ ' ' :: ' ' :: rest))
          (sample_daemon []) = some (sample_daemon []) :=
  DaemonCallback_missing_value sample_environment (sample_daemon [])
    "mouse_follows_focus".toList (by decide)

/-! ## Flags on a parsed chain -/

theorem ParseWindowLoop_flags (Count : Nat) (Args : List (Option (List Char))) (fuel : Nat) :
    ∀ (g g1 : getopt_globals) (Chain Chain1 : List command),
      ParseWindowLoop Count Args fuel g Chain = some (true, Chain1, g1) →
      (∀ c ∈ Chain, c.Flag = 'f' ∨ c.Flag = 's' ∨ c.Flag = 'i' ∨ c.Flag = 'w' ∨ c.Flag = 't'
        ∨ c.Flag = 'r') →
      ∀ c ∈ Chain1, c.Flag = 'f' ∨ c.Flag = 's' ∨ c.Flag = 'i' ∨ c.Flag = 'w' ∨ c.Flag = 't'
        ∨ c.Flag = 'r' := by
  induction fuel with
  | zero => intro g g1 Chain Chain1 h; simp [ParseWindowLoop] at h
  | succ n ih =>
    intro g g1 Chain Chain1 h hC
    rw [ParseWindowLoop] at h
    have hext : ∀ (X : Char) (a : List Char),
        (X = 'f' ∨ X = 's' ∨ X = 'i' ∨ X = 'w' ∨ X = 't' ∨ X = 'r') →
        ∀ c ∈ Chain ++ [({ Flag := X, Arg := a } : command)],
          c.Flag = 'f' ∨ c.Flag = 's' ∨ c.Flag = 'i' ∨ c.Flag = 'w' ∨ c.Flag = 't'
            ∨ c.Flag = 'r' := by
      intro X a hX c hc
      rcases List.mem_append.mp hc with hc | hc
      · exact hC c hc
      · rw [List.mem_singleton.mp hc]; exact hX
    split at h
    · simp at h
    · simp only [Option.some.injEq, Prod.mk.injEq, true_and] at h
      rw [← h.1]; exact hC
    · next Opt g2 _ =>
      split_ifs at h with h1 h2 h3 h4
      all_goals first
        | (split at h
           · simp at h
           · split_ifs at h
             · first
               | exact ih _ _ _ _ h (hext _ _ (by tauto))
             · simp at h)
        | simp at h
        | exact ih _ _ _ _ h hC

theorem ParseSpaceLoop_flags (Count : Nat) (Args : List (Option (List Char))) (fuel : Nat) :
    ∀ (g g1 : getopt_globals) (Chain Chain1 : List command),
      ParseSpaceLoop Count Args fuel g Chain = some (true, Chain1, g1) →
      (∀ c ∈ Chain, c.Flag = 'r') → ∀ c ∈ Chain1, c.Flag = 'r' := by
  induction fuel with
  | zero => intro g g1 Chain Chain1 h; simp [ParseSpaceLoop] at h
  | succ n ih =>
    intro g g1 Chain Chain1 h hC
    rw [ParseSpaceLoop] at h
    split at h
    · simp at h
    · simp only [Option.some.injEq, Prod.mk.injEq, true_and] at h
      rw [← h.1]; exact hC
    · next Opt g2 _ =>
      split_ifs at h with h1 h2
      · split at h
        · simp at h
        · split_ifs at h
          · refine ih _ _ _ _ h ?_
            intro c hc
            rcases List.mem_append.mp hc with hc | hc
            · exact hC c hc
            · rw [List.mem_singleton.mp hc]; exact h1
          · simp at h
      · simp at h
      · exact ih _ _ _ _ h hC

/-- C20. Every command on a chain that `ParseWindowCommand` returns with
success carries one of the flags `f`, `s`, `i`, `w`, `t`, `r`, whatever the
message and the state of `getopt`; `WindowFuncFromFlag` sends these six flags
to the six different indices 0, 1, 2, 4, 3, 5, all below the length of
`WindowCommandDispatch`. Every command on a chain that `ParseSpaceCommand`
returns with success carries the flag `r`, which `SpaceFuncFromFlag` sends to
0, below the length of `SpaceCommandDispatch`. So neither mapping function is
ever called with a flag outside its cases. -/
theorem dispatch_index_in_table (Message : List Char) (g g1 : getopt_globals)
    (Chain : List command) :
    (ParseWindowCommand Message g = some (true, Chain, g1) →
      ∀ c ∈ Chain,
        (c.Flag = 'f' ∨ c.Flag = 's' ∨ c.Flag = 'i' ∨ c.Flag = 'w' ∨ c.Flag = 't'
          ∨ c.Flag = 'r') ∧
        WindowFuncFromFlag c.Flag < WindowCommandDispatch.length) ∧
    ([WindowFuncFromFlag 'f', WindowFuncFromFlag 's', WindowFuncFromFlag 'i',
        WindowFuncFromFlag 'w', WindowFuncFromFlag 't', WindowFuncFromFlag 'r'] =
      [0, 1, 2, 4, 3, 5] ∧ WindowCommandDispatch.length = 6) ∧
    (ParseSpaceCommand Message g = some (true, Chain, g1) →
      ∀ c ∈ Chain, c.Flag = 'r' ∧ SpaceFuncFromFlag c.Flag = 0 ∧
        SpaceFuncFromFlag c.Flag < SpaceCommandDispatch.length) := by
  refine ⟨?_, ⟨by decide, rfl⟩, ?_⟩
  · intro h c hc
    unfold ParseWindowCommand at h
    split at h
    · simp at h
    · next A _ =>
      split at h
      · simp at h
      · split at h
        · simp at h
        · split at h
          · simp at h
          · next Success Chain1 g2 hloop =>
            simp only [Option.some.injEq, Prod.mk.injEq] at h
            obtain ⟨hS, hCh, _⟩ := h
            subst hS hCh
            have hflag := ParseWindowLoop_flags _ _ _ _ _ _ _ hloop (by simp) c hc
            refine ⟨hflag, ?_⟩
            rcases hflag with e | e | e | e | e | e <;> rw [e] <;> decide
  · intro h c hc
    unfold ParseSpaceCommand at h
    split at h
    · simp at h
    · next A _ =>
      split at h
      · simp at h
      · split at h
        · simp at h
        · split at h
          · simp at h
          · next Success Chain1 g2 hloop =>
            simp only [Option.some.injEq, Prod.mk.injEq] at h
            obtain ⟨hS, hCh, _⟩ := h
            subst hS hCh
            have hflag := ParseSpaceLoop_flags _ _ _ _ _ _ _ hloop (by simp) c hc
            rw [hflag]
            exact ⟨rfl, by decide, by decide⟩

/-! ## The capacity of the argument array -/

/-- C16. `BuildArguments` on any message: slot 0 is left as it was, the `i`-th
token is stored in slot `i`, and `Count` ends one above the last slot written.
No store is guarded: when the message yields at most 15 tokens every slot
written lies below `ArgsCapacity`, the 16 slots allocated, and when it yields
more than 15 tokens a token is stored at a slot index of 16 or more. -/
theorem BuildArguments_capacity (Message : List Char) :
    ∃ A : arguments, BuildArguments Message = some A ∧
      A.Args = none :: (message_fields Message []).map some ∧
      A.Count = (message_fields Message []).length + 1 ∧
      (∀ i : Nat, 1 ≤ i → i < A.Count →
        A.Args[i]? = ((message_fields Message [])[i - 1]?).map some) ∧
      ((message_fields Message []).length ≤ 15 →
        ∀ i : Nat, i < A.Count → i < ArgsCapacity) ∧
      (15 < (message_fields Message []).length →
        ∃ (i : Nat) (tok : List Char), ArgsCapacity ≤ i ∧ i < A.Count ∧
          A.Args[i]? = some (some tok)) := by
  refine ⟨_, BuildArguments_eq Message, rfl, rfl, ?_, ?_, ?_⟩
  · intro i h1 _
    obtain ⟨j, rfl⟩ : ∃ j, i = j + 1 := ⟨i - 1, by omega⟩
    simp
  · intro h i hi
    simp only [ArgsCapacity] at hi ⊢
    omega
  · intro h
    have h16 : 15 < (message_fields Message []).length := h
    refine ⟨16, (message_fields Message [])[15], ?_, ?_, ?_⟩
    · simp [ArgsCapacity]
    · simp only; omega
    · simp [List.getElem?_eq_getElem h16]

/-- A message of sixteen one-letter words: the sixteenth is stored in slot 16. -/
theorem BuildArguments_sixteen_words :
    (BuildArguments "a b c d e f g h i j k l m n o p".toList).map
        (fun A => (A.Count, A.Args[16]?)) = some (17, some (some ['p'])) := by
  decide

/-! ## The arguments are the fields of the message -/

theorem splitOn_space_ne_nil (m : List Char) : List.splitOn ' ' m ≠ [] := by
  cases m with
  | nil => simp [List.splitOn, List.splitOnP_nil]
  | cons c cs =>
    simp only [List.splitOn, List.splitOnP_cons]
    split_ifs
    · simp
    · cases h : List.splitOnP (fun x => x == ' ') cs with
      | nil => exact absurd h (List.splitOnP_ne_nil _ _)
      | cons x xs => simp [List.modifyHead]

theorem drop_empty_last_cons (x : List Char) (S : List (List Char)) (hS : S ≠ []) :
    drop_empty_last (x :: S) = x :: drop_empty_last S := by
  obtain ⟨y, ys, rfl⟩ := List.exists_cons_of_ne_nil hS
  unfold drop_empty_last
  rw [List.getLast?_cons_cons, List.dropLast_cons₂]
  split_ifs <;> rfl

theorem message_fields_eq_split (m : List Char) : ∀ cur : List Char,
    message_fields m cur =
      drop_empty_last (List.modifyHead (fun h => cur ++ h) (List.splitOn ' ' m)) := by
  induction m with
  | nil =>
    intro cur
    cases cur <;> simp [message_fields, List.splitOn, List.splitOnP_nil, List.modifyHead,
      drop_empty_last]
  | cons c cs ih =>
    intro cur
    have hne := splitOn_space_ne_nil cs
    by_cases hc : c = ' '
    · subst hc
      have h1 : List.splitOn ' ' (' ' :: cs) = [] :: List.splitOn ' ' cs := by
        simp [List.splitOn, List.splitOnP_cons]
      rw [h1]
      simp only [message_fields, if_true, List.modifyHead, List.append_nil]
      rw [drop_empty_last_cons cur _ hne, ih []]
      congr 2
      cases List.splitOn ' ' cs <;> simp [List.modifyHead]
    · have h1 : List.splitOn ' ' (c :: cs) = List.modifyHead (List.cons c) (List.splitOn ' ' cs) := by
        simp [List.splitOn, List.splitOnP_cons, hc]
      rw [h1]
      simp only [message_fields, hc, if_false]
      rw [ih (cur ++ [c])]
      congr 1
      cases List.splitOn ' ' cs <;> simp [List.modifyHead]

theorem message_fields_eq_split_fields (m : List Char) :
    message_fields m [] = split_fields m := by
  rw [message_fields_eq_split m [], split_fields]
  congr 1
  cases List.splitOn ' ' m <;> simp [List.modifyHead]

/-- The stores `BuildArguments` makes, in slots 1 onwards, are of the fields of
the message split at every single space, one empty final field dropped, and
`Count` ends at their number plus one. In particular consecutive spaces and a
leading space give empty arguments, one trailing space gives no extra
argument, and the empty message gives no argument, `Count = 1`. Whether the
slots lie inside the allocation is the matter of `BuildArguments_capacity`. -/
theorem BuildArguments_fields (Message : List Char) :
    BuildArguments Message =
      some { Count := (split_fields Message).length + 1,
             Args := none :: (split_fields Message).map some } ∧
    split_fields ['a', ' ', ' ', 'b'] = [['a'], [], ['b']] ∧
    split_fields [' ', 'a'] = [[], ['a']] ∧
    split_fields ['a', ' '] = [['a']] ∧
    split_fields ['a', ' ', ' '] = [['a'], []] ∧
    BuildArguments [] = some { Count := 1, Args := [none] } := by
  refine ⟨?_, by decide, by decide, by decide, by decide, by decide⟩
  rw [BuildArguments_eq, message_fields_eq_split_fields]

/-! ## Mode values -/

theorem UpdateSpaceMode_value {σ F : Type} (env : environment σ F) (Variable v : List Char)
    (s : daemon σ F) (hv : ' ' ∉ v) :
    UpdateSpaceMode env Variable v s =
      after_mode_update env Variable ((layout_mode_of v).map cvar_value.mode) s := by
  obtain ⟨_, _, hlen, hM⟩ := GetToken_last v hv
  unfold UpdateSpaceMode layout_mode_of after_mode_update
  simp only [hlen, hM, gt_iff_lt, decide_eq_true_eq]
  by_cases h0 : 0 < v.length
  · simp only [h0, if_true]
    split_ifs <;> rfl
  · have : v = [] := List.length_eq_zero.mp (by omega)
    subst this
    simp

theorem UpdateSplitMode_value {σ F : Type} (env : environment σ F) (Variable v : List Char)
    (s : daemon σ F) (hv : ' ' ∉ v) :
    UpdateSplitMode env Variable v s =
      after_mode_update env Variable ((split_mode_of v).map cvar_value.split) s := by
  obtain ⟨_, _, hlen, hM⟩ := GetToken_last v hv
  unfold UpdateSplitMode split_mode_of after_mode_update
  simp only [hlen, hM, gt_iff_lt, decide_eq_true_eq]
  by_cases h0 : 0 < v.length
  · simp only [h0, if_true]
    split_ifs <;> rfl
  · have : v = [] := List.length_eq_zero.mp (by omega)
    subst this
    simp

theorem ConfigCommand_space_mode {σ F : Type} (env : environment σ F) (rest : List Char)
    (s : daemon σ F) (hk : ' ' ∉ env.names.CVAR_SPACE_MODE) :
    ConfigCommand env (env.names.CVAR_SPACE_MODE ++ ' ' :: rest) s =
      UpdateSpaceMode env env.names.CVAR_SPACE_MODE rest s := by
  obtain ⟨h2, hstr, _, hM⟩ := GetToken_word env.names.CVAR_SPACE_MODE rest hk
  unfold ConfigCommand
  simp only [hM, h2, hstr, decide_True, if_true]

theorem ConfigCommand_split_mode {σ F : Type} (env : environment σ F) (rest : List Char)
    (s : daemon σ F) (hk : ' ' ∉ env.names.CVAR_BSP_SPLIT_MODE)
    (hother : env.names.CVAR_BSP_SPLIT_MODE ∉
      [env.names.CVAR_SPACE_MODE, env.names.CVAR_SPACE_OFFSET_TOP,
       env.names.CVAR_SPACE_OFFSET_BOTTOM, env.names.CVAR_SPACE_OFFSET_LEFT,
       env.names.CVAR_SPACE_OFFSET_RIGHT, env.names.CVAR_SPACE_OFFSET_GAP,
       env.names.CVAR_BSP_SPAWN_LEFT, env.names.CVAR_BSP_OPTIMAL_RATIO,
       env.names.CVAR_BSP_SPLIT_RATIO]) :
    ConfigCommand env (env.names.CVAR_BSP_SPLIT_MODE ++ ' ' :: rest) s =
      UpdateSplitMode env env.names.CVAR_BSP_SPLIT_MODE rest s := by
  obtain ⟨h2, hstr, _, hM⟩ := GetToken_word env.names.CVAR_BSP_SPLIT_MODE rest hk
  simp only [List.mem_cons, List.mem_singleton, List.not_mem_nil, or_false, not_or] at hother
  obtain ⟨h1, h3, h4, h5, h6, h7, h8, h9, h10⟩ := hother
  unfold ConfigCommand
  simp only [hM, h2, hstr, h1, h3, h4, h5, h6, h7, h8, h9, h10, decide_False, decide_True,
    Bool.false_eq_true, if_false, if_true, Bool.or_self]

theorem scoped_key_no_space (t suffix : List Char) (ht : integer_text t = true)
    (hws : ∀ c ∈ suffix, isspace c = false) : ' ' ∉ t ++ '_' :: suffix := by
  intro h
  rcases List.mem_append.mp h with h | h
  · exact integer_text_no_space t ht h
  · rcases List.mem_cons.mp h with h | h
    · exact absurd h (by decide)
    · exact absurd (hws ' ' h) (by decide)

/-- C13. A `config` message whose value is the token `v`. For the global
layout-mode key, and for a scoped key `<n>_<mode suffix>`, the values `bsp`,
`monocle`, `float` cause exactly one update of the key, with the mode
`Virtual_Space_Bsp`, `Virtual_Space_Monocle`, `Virtual_Space_Float`; for the
split-mode key the values `optimal`, `vertical`, `horizontal` cause exactly one
update, with `Split_Optimal`, `Split_Vertical`, `Split_Horizontal`; every other
value causes no call. The names of `constants.h` are assumed free of spaces and
the key to reach its own branch (it is not one of the names tested before). -/
theorem DaemonCallback_mode_value {σ F : Type} (env : environment σ F)
    (s : daemon σ F) (v : List Char) (hv : ' ' ∉ v) :
    (' ' ∉ env.names.CVAR_SPACE_MODE →
      DaemonCallback env
          (['c', 'o', 'n', 'f', 'i', 'g'] ++ ' ' :: (env.names.CVAR_SPACE_MODE ++ ' ' :: v)) s =
        some (after_mode_update env env.names.CVAR_SPACE_MODE
          ((layout_mode_of v).map cvar_value.mode) s)) ∧
    (∀ t : List Char, integer_text t = true →
      env.names._CVAR_SPACE_MODE ≠ [] →
      (∀ c ∈ env.names._CVAR_SPACE_MODE, isspace c = false) →
      env.names._CVAR_SPACE_MODE ∉ offset_suffixes env.names →
      t ++ '_' :: env.names._CVAR_SPACE_MODE ∉ global_names env.names →
      DaemonCallback env
          (['c', 'o', 'n', 'f', 'i', 'g'] ++
            ' ' :: ((t ++ '_' :: env.names._CVAR_SPACE_MODE) ++ ' ' :: v)) s =
        some (after_mode_update env (t ++ '_' :: env.names._CVAR_SPACE_MODE)
          ((layout_mode_of v).map cvar_value.mode) s)) ∧
    (' ' ∉ env.names.CVAR_BSP_SPLIT_MODE →
      env.names.CVAR_BSP_SPLIT_MODE ∉
        [env.names.CVAR_SPACE_MODE, env.names.CVAR_SPACE_OFFSET_TOP,
         env.names.CVAR_SPACE_OFFSET_BOTTOM, env.names.CVAR_SPACE_OFFSET_LEFT,
         env.names.CVAR_SPACE_OFFSET_RIGHT, env.names.CVAR_SPACE_OFFSET_GAP,
         env.names.CVAR_BSP_SPAWN_LEFT, env.names.CVAR_BSP_OPTIMAL_RATIO,
         env.names.CVAR_BSP_SPLIT_RATIO] →
      DaemonCallback env
          (['c', 'o', 'n', 'f', 'i', 'g'] ++
            ' ' :: (env.names.CVAR_BSP_SPLIT_MODE ++ ' ' :: v)) s =
        some (after_mode_update env env.names.CVAR_BSP_SPLIT_MODE
          ((split_mode_of v).map cvar_value.split) s)) := by
  refine ⟨?_, ?_, ?_⟩
  · intro hk
    rw [DaemonCallback_config, ConfigCommand_space_mode env v s hk,
      UpdateSpaceMode_value env _ v s hv]
  · intro t ht hne hws hoff hglobal
    have hkey := scoped_key_no_space t _ ht hws
    obtain ⟨hrest, _, _, _⟩ := GetToken_word (t ++ '_' :: env.names._CVAR_SPACE_MODE) v hkey
    have htw := takeWhile_token_char_append (t ++ '_' :: env.names._CVAR_SPACE_MODE) v hkey
    obtain ⟨n, hn⟩ := sscanf_d_s_scoped t _ ht hne hws
    rw [DaemonCallback_config, ConfigCommand_of_not_global env _ s (by rw [htw]; exact hglobal)]
    simp only [htw, hn, hoff, if_false, if_true, hrest]
    rw [UpdateSpaceMode_value env _ v s hv]
  · intro hk hother
    rw [DaemonCallback_config, ConfigCommand_split_mode env v s hk hother,
      UpdateSplitMode_value env _ v s hv]

theorem DaemonCallback_mode_value_witness :
    DaemonCallback sample_environment
        (['c', 'o', 'n', 'f', 'i', 'g'] ++
          ' ' :: (sample_environment.names.CVAR_SPACE_MODE ++ ' ' :: "monocle".toList))
        (sample_daemon []) =
      some (after_mode_update sample_environment sample_environment.names.CVAR_SPACE_MODE
        ((layout_mode_of "monocle".toList).map cvar_value.mode) (sample_daemon [])) ∧
    layout_mode_of "monocle".toList = some .Virtual_Space_Monocle :=
  ⟨(DaemonCallback_mode_value sample_environment (sample_daemon []) "monocle".toList
    (by decide)).1 (by decide), by decide⟩

/-! ## Integer values -/

theorem scan_digits_value (ds : List Char) (hds : ∀ c ∈ ds, c.isDigit = true) :
    ∀ acc : Nat, scan_digits ds acc = (acc * 10 ^ ds.length + decimal_value ds, []) := by
  induction ds with
  | nil => intro acc; simp [scan_digits, decimal_value]
  | cons d ds ih =>
    intro acc
    have hd : d.isDigit = true := hds d (List.mem_cons_self _ _)
    simp only [scan_digits, hd, if_true]
    rw [ih (fun c hc => hds c (List.mem_cons_of_mem _ hc))]
    simp only [decimal_value, List.map_cons, List.reverse_cons, Nat.ofDigits_append,
      List.length_reverse, List.length_map, Nat.ofDigits_singleton, List.length_cons,
      Prod.mk.injEq, and_true]
    ring

theorem scan_int_value (t : List Char) (ht : integer_text t = true) :
    scan_int t = some (integer_value t, []) := by
  cases t with
  | nil => simp [integer_text, scan_sign] at ht
  | cons c cs =>
    by_cases hc : c = '+' ∨ c = '-'
    · have hsp : isspace c = false := isspace_false_of_sign_or_digit c (by tauto)
      simp only [integer_text, scan_sign, hc, if_true] at ht
      cases cs with
      | nil => simp at ht
      | cons d ds =>
        simp only [List.all_eq_true] at ht
        have hd : d.isDigit = true := ht d (List.mem_cons_self _ _)
        have h2 := scan_digits_value (d :: ds) ht 0
        simp only [scan_int, dropWhile_isspace_cons _ _ hsp, scan_sign, hc, if_true, hd, h2,
          integer_value, List.head?_cons, Nat.zero_mul, Nat.zero_add]
    · simp only [integer_text, scan_sign, hc, if_false, List.all_eq_true] at ht
      have hd : c.isDigit = true := ht c (List.mem_cons_self _ _)
      have hsp : isspace c = false := isspace_false_of_sign_or_digit c (by tauto)
      have h2 := scan_digits_value (c :: cs) ht 0
      simp only [scan_int, dropWhile_isspace_cons _ _ hsp, scan_sign, hc, if_false, hd, if_true,
        h2, integer_value, List.head?_cons, Nat.zero_mul, Nat.zero_add]

theorem long_to_int_of_range (v : Int) (h1 : -2147483648 ≤ v) (h2 : v ≤ 2147483647) :
    long_to_int v = v := by
  unfold long_to_int
  have e1 : min v (2 ^ 63 - 1) = v := min_eq_left (by norm_num; omega)
  have e2 : max (-(2 ^ 63)) v = v := max_eq_right (by norm_num; omega)
  rw [e1, e2]
  norm_num
  omega

theorem UpdateInt_value {σ F : Type} (env : environment σ F) (Variable v : List Char)
    (s : daemon σ F) (hne : v ≠ []) (hvs : ' ' ∉ v) :
    UpdateInt env Variable v s =
      invoke env (.UpdateCVar Variable (.int (TokenToInt { Text := v, Length := v.length }))) s := by
  obtain ⟨_, _, hlen, _⟩ := GetToken_last v hvs
  have hfst : (GetToken v).1 = { Text := v, Length := v.length } := by
    rw [GetToken_fst, takeWhile_token_char_self v hvs]
  have hpos : 0 < v.length := List.length_pos.mpr hne
  unfold UpdateInt
  simp only [hfst, gt_iff_lt, hpos, if_true]

theorem ConfigCommand_integer_key {σ F : Type} (env : environment σ F) (key rest : List Char)
    (s : daemon σ F) (hkey : key ∈ integer_names env.names) (hk : ' ' ∉ key)
    (hother : key ∉ other_names env.names) :
    ConfigCommand env (key ++ ' ' :: rest) s = UpdateInt env key rest s := by
  obtain ⟨h2, hstr, _, hM⟩ := GetToken_word key rest hk
  simp only [other_names, List.mem_cons, List.mem_singleton, List.not_mem_nil, or_false,
    not_or] at hother
  obtain ⟨h1, h3, h4, h5, h6, h7, h8, h9, h10⟩ := hother
  simp only [integer_names, List.mem_cons, List.mem_singleton, List.not_mem_nil,
    or_false] at hkey
  unfold ConfigCommand
  simp only [hM, h2, hstr, h1, h3, h4, h5, h6, h7, h8, h9, h10, decide_False,
    Bool.false_eq_true, if_false, Bool.or_self]
  by_cases hs : key = env.names.CVAR_BSP_SPAWN_LEFT
  · simp only [hs, decide_True, if_true]
  · have : key = env.names.CVAR_WINDOW_FLOAT_TOPMOST ∨ key = env.names.CVAR_WINDOW_FLOAT_NEXT
        ∨ key = env.names.CVAR_MOUSE_FOLLOWS_FOCUS := by tauto
    simp only [hs, decide_False, Bool.false_eq_true, if_false]
    rw [if_pos (by simpa [or_assoc] using this)]

/-- C11, amended. The message `config <key> <v>` for `<key>` one of the four
integer keys and `<v>` the text of an integer within the range of `int`: the
callback makes exactly one call, an integer update of the key with the value
the text denotes. The names of `constants.h` are assumed free of spaces and the
key to differ from the names whose value is a mode or a float. -/
theorem DaemonCallback_integer_key {σ F : Type} (env : environment σ F)
    (s : daemon σ F) (key v : List Char)
    (hkey : key ∈ integer_names env.names) (hk : ' ' ∉ key)
    (hother : key ∉ other_names env.names)
    (hv : integer_text v = true)
    (hlo : -2147483648 ≤ integer_value v) (hhi : integer_value v ≤ 2147483647) :
    DaemonCallback env (['c', 'o', 'n', 'f', 'i', 'g'] ++ ' ' :: (key ++ ' ' :: v)) s =
      some (invoke env (.UpdateCVar key (.int (integer_value v))) s) ∧
    (invoke env (.UpdateCVar key (.int (integer_value v))) s).calls =
      s.calls ++ [.UpdateCVar key (.int (integer_value v))] := by
  refine ⟨?_, rfl⟩
  have hvs : ' ' ∉ v := integer_text_no_space v hv
  have hne : v ≠ [] := by
    rintro rfl
    simp [integer_text, scan_sign] at hv
  rw [DaemonCallback_config, ConfigCommand_integer_key env key v s hkey hk hother,
    UpdateInt_value env key v s hne hvs]
  have hval : TokenToInt { Text := v, Length := v.length } = integer_value v := by
    simp only [TokenToInt, TokenToString, List.take_length, scan_int_value v hv]
    exact long_to_int_of_range _ hlo hhi
  rw [hval]

theorem decimal_value_one : decimal_value ['1'] = 1 := by
  simp [decimal_value]

theorem DaemonCallback_integer_key_witness :
    DaemonCallback sample_environment
        (['c', 'o', 'n', 'f', 'i', 'g'] ++ ' ' :: ("mouse_follows_focus".toList ++ ' ' :: ['1']))
        (sample_daemon []) =
      some (invoke sample_environment
        (.UpdateCVar "mouse_follows_focus".toList (.int (integer_value ['1'])))
        (sample_daemon [])) ∧
    (invoke sample_environment
        (.UpdateCVar "mouse_follows_focus".toList (.int (integer_value ['1'])))
        (sample_daemon [])).calls =
      (sample_daemon []).calls ++
        [.UpdateCVar "mouse_follows_focus".toList (.int (integer_value ['1']))] :=
  DaemonCallback_integer_key sample_environment (sample_daemon []) "mouse_follows_focus".toList
    ['1'] (by decide) (by decide) (by decide) (by decide)
    (by simp [integer_value, scan_sign, decimal_value_one])
    (by simp [integer_value, scan_sign, decimal_value_one])

/-- C11 as stated fails at the value `2147483648`: the text is a decimal
integer, but the `int` read by `TokenToInt` is -2147483648, and that is the
value of the update. -/
theorem DaemonCallback_integer_key_overflow :
    integer_text "2147483648".toList = true ∧
    (DaemonCallback sample_environment "config mouse_follows_focus 2147483648".toList
        (sample_daemon [])).map (fun s => s.calls) =
      some [.UpdateCVar "mouse_follows_focus".toList (.int (-2147483648))] ∧
    (DaemonCallback sample_environment "config mouse_follows_focus 2147483648".toList
        (sample_daemon [])).map (fun s => s.calls) ≠
      some [.UpdateCVar "mouse_follows_focus".toList (.int 2147483648)] := by
  decide

/-! ## The state `getopt` keeps between two parses -/

theorem getopt_short_some (Count : Nat) (Args : List (Option (List Char))) (Short : List Char)
    (g g1 : getopt_globals) : getopt_short Count Args Short g ≠ some (none, g1) := by
  unfold getopt_short
  intro h
  repeat' (first | (simp at h; done) | split at h | dsimp only at h)

/-- In an option string where every option takes an argument, `getopt_short`
leaves the scan pointer null unless it returns `?`. -/
theorem getopt_short_nextchar (Count : Nat) (Args : List (Option (List Char)))
    (Short : List Char) (g g1 : getopt_globals) (Opt : Char)
    (hS : ∀ c temp, strchr Short c = some temp → c ≠ ':' → temp.tail.head? = some ':')
    (h : getopt_short Count Args Short g = some (some Opt, g1)) :
    g1.nextchar = none ∨ Opt = '?' := by
  unfold getopt_short at h
  split at h
  · simp at h
  · simp at h
  · next c next _ =>
    simp only at h
    split at h
    · simp only [Option.some.injEq, Prod.mk.injEq] at h
      exact Or.inr h.1.symm
    · next temp htemp =>
      by_cases h1 : c = ':' ∨ c = ';'
      · rw [if_pos h1] at h
        simp only [Option.some.injEq, Prod.mk.injEq] at h
        exact Or.inr h.1.symm
      · have h3 : temp.tail.head? = some ':' := hS c temp htemp (fun e => h1 (Or.inl e))
        rw [if_neg h1, if_pos h3] at h
        left
        split_ifs at h
        all_goals first
          | (simp only [Option.some.injEq, Prod.mk.injEq] at h
             rw [← h.2])
          | (split at h
             · simp only [Option.some.injEq, Prod.mk.injEq] at h
               rw [← h.2]
             · simp at h)

theorem window_short_argument (c : Char) (temp : List Char)
    (h : strchr WindowShort c = some temp) (hc : c ≠ ':') : temp.tail.head? = some ':' := by
  simp only [strchr, WindowShort] at h
  split_ifs at h <;>
    first
      | (simp only [Option.some.injEq] at h; rw [← h]; rfl)
      | exact absurd (by assumption : ':' = c).symm hc

theorem space_short_argument (c : Char) (temp : List Char)
    (h : strchr SpaceShort c = some temp) (hc : c ≠ ':') : temp.tail.head? = some ':' := by
  simp only [strchr, SpaceShort] at h
  split_ifs at h <;>
    first
      | (simp only [Option.some.injEq] at h; rw [← h]; rfl)
      | exact absurd (by assumption : ':' = c).symm hc

/-- In an option string where every option takes an argument, `getopt_long`
entered with a null scan pointer leaves it null unless it returns `?`; when it
returns -1, `optarg` is null as well. -/
theorem getopt_long_nextchar (Count : Nat) (Args : List (Option (List Char)))
    (Short : List Char) (g g1 : getopt_globals) (r : Option Char) (hC : 1 ≤ Count)
    (hS : ∀ c temp, strchr Short c = some temp → c ≠ ':' → temp.tail.head? = some ':')
    (hg : g.nextchar = none)
    (h : getopt_long Count Args Short g = some (r, g1)) :
    (r = none → g1.nextchar = none ∧ g1.optarg = none) ∧
    (∀ Opt, r = some Opt → g1.nextchar = none ∨ Opt = '?') := by
  unfold getopt_long at h
  have hC1 : ¬ Count < 1 := by omega
  simp only [hC1, if_false, hg, true_or, if_true] at h
  split at h
  · simp at h
  · split_ifs at h
    · simp only [Option.some.injEq, Prod.mk.injEq] at h
      obtain ⟨hr, hg1⟩ := h
      subst hr hg1
      exact ⟨fun _ => ⟨rfl, rfl⟩, fun Opt e => by simp at e⟩
    · split at h
      · split_ifs at h
        · simp only [Option.some.injEq, Prod.mk.injEq] at h
          obtain ⟨hr, hg1⟩ := h
          subst hr hg1
          exact ⟨fun _ => ⟨rfl, rfl⟩, fun Opt e => by simp at e⟩
        · refine ⟨fun e => ?_, fun Opt e => ?_⟩
          · subst e
            exact absurd h (getopt_short_some _ _ _ _ _)
          · subst e
            exact getopt_short_nextchar _ _ _ _ _ _ hS h
      · simp at h

/-- The result of `getopt_long` does not depend on the `optarg` left by the
call before. -/
theorem getopt_long_optarg (Count : Nat) (Args : List (Option (List Char))) (Short : List Char)
    (optind : Nat) (oa oa1 : Option (List Char)) (nextchar : Option (List Char))
    (hC : 1 ≤ Count) :
    getopt_long Count Args Short { optind := optind, optarg := oa, nextchar := nextchar } =
      getopt_long Count Args Short { optind := optind, optarg := oa1, nextchar := nextchar } := by
  have hC1 : ¬ Count < 1 := by omega
  simp only [getopt_long, hC1, if_false]

theorem ParseWindowLoop_optarg (Count : Nat) (Args : List (Option (List Char))) (fuel : Nat)
    (optind : Nat) (oa oa1 : Option (List Char)) (nextchar : Option (List Char))
    (Chain : List command) (hC : 1 ≤ Count) :
    ParseWindowLoop Count Args fuel { optind := optind, optarg := oa, nextchar := nextchar }
        Chain =
      ParseWindowLoop Count Args fuel { optind := optind, optarg := oa1, nextchar := nextchar }
        Chain := by
  cases fuel with
  | zero => rfl
  | succ n =>
    rw [ParseWindowLoop, ParseWindowLoop, getopt_long_optarg Count Args WindowShort optind oa oa1
      nextchar hC]

/-- A run of the loop of `ParseWindowCommand` that starts with a null scan
pointer and ends with success leaves the scan pointer and `optarg` null. -/
theorem ParseWindowLoop_done (Count : Nat) (Args : List (Option (List Char))) (hC : 1 ≤ Count)
    (fuel : Nat) :
    ∀ (g g1 : getopt_globals) (Chain Chain1 : List command),
      g.nextchar = none →
      ParseWindowLoop Count Args fuel g Chain = some (true, Chain1, g1) →
      g1.nextchar = none ∧ g1.optarg = none := by
  induction fuel with
  | zero => intro g g1 Chain Chain1 _ h; simp [ParseWindowLoop] at h
  | succ n ih =>
    intro g g1 Chain Chain1 hg h
    rw [ParseWindowLoop] at h
    split at h
    · simp at h
    · next g2 hget =>
      simp only [Option.some.injEq, Prod.mk.injEq, true_and] at h
      rw [← h.2]
      exact (getopt_long_nextchar Count Args WindowShort g g2 none hC window_short_argument
        hg hget).1 rfl
    · next Opt g2 hget =>
      have hn := (getopt_long_nextchar Count Args WindowShort g g2 (some Opt) hC
        window_short_argument hg hget).2 Opt rfl
      by_cases hq : Opt = '?'
      · subst hq
        simp [show ¬ ('?' = 'f' ∨ '?' = 's' ∨ '?' = 'i' ∨ '?' = 'w') by decide,
          show ¬ ('?' = 'r') by decide, show ¬ ('?' = 't') by decide] at h
      · have hg2 : g2.nextchar = none := by
          rcases hn with e | e
          · exact e
          · exact absurd e hq
        split_ifs at h
        all_goals first
          | (split at h
             · simp at h
             · split_ifs at h
               · exact ih _ _ _ _ hg2 h
               · simp at h)
          | simp at h
          | exact ih _ _ _ _ hg2 h

/-- Every exit of `ParseWindowCommand` leaves `optind` at 1. -/
theorem ParseWindowCommand_optind (Message : List Char) (g g1 : getopt_globals)
    (Success : Bool) (Chain : List command)
    (h : ParseWindowCommand Message g = some (Success, Chain, g1)) : g1.optind = 1 := by
  unfold ParseWindowCommand at h
  split at h
  · simp at h
  · split_ifs at h
    split at h
    · simp at h
    · simp only [Option.some.injEq, Prod.mk.injEq] at h
      rw [← h.2.2]

/-- The result of `ParseWindowCommand` does not depend on the `optarg` left by
an earlier parse. -/
theorem ParseWindowCommand_optarg (Message : List Char) (optind : Nat)
    (oa oa1 : Option (List Char)) (nextchar : Option (List Char)) :
    ParseWindowCommand Message { optind := optind, optarg := oa, nextchar := nextchar } =
      ParseWindowCommand Message { optind := optind, optarg := oa1, nextchar := nextchar } := by
  unfold ParseWindowCommand
  rw [BuildArguments_eq]
  simp only
  rw [ParseWindowLoop_optarg _ _ _ optind oa oa1 nextchar [] (by omega)]

/-- A window message that parses with success, `optind` being 1, leaves
`getopt` as in a fresh process, and parsing it again gives the same chain. -/
theorem ParseWindowCommand_twice (Message : List Char) (g g1 : getopt_globals)
    (Chain : List command) (hind : g.optind = 1)
    (h : ParseWindowCommand Message g = some (true, Chain, g1)) :
    g1 = getopt_reset ∧ ParseWindowCommand Message g1 = some (true, Chain, g1) := by
  obtain ⟨optind, oa, nextchar⟩ := g
  simp only at hind
  subst hind
  have h0 := h
  unfold ParseWindowCommand at h
  rw [BuildArguments_eq] at h
  simp only at h
  split_ifs at h with hfit hnext
  simp only [Bool.not_eq_true, Option.not_isSome, Option.isNone_iff_eq_none] at hnext
  subst hnext
  split at h
  · simp at h
  · next Success Chain1 g2 hloop =>
    simp only [Option.some.injEq, Prod.mk.injEq] at h
    obtain ⟨hS, hCh, hg⟩ := h
    subst hS hCh
    obtain ⟨hn, ho⟩ := ParseWindowLoop_done _ _ (by omega) _ _ _ _ _ rfl hloop
    have hg1 : g1 = getopt_reset := by
      rw [← hg, hn, ho]; rfl
    refine ⟨hg1, ?_⟩
    rw [← h0, hg1]
    exact ParseWindowCommand_optarg Message 1 none oa none

theorem ParseSpaceLoop_optarg (Count : Nat) (Args : List (Option (List Char))) (fuel : Nat)
    (optind : Nat) (oa oa1 : Option (List Char)) (nextchar : Option (List Char))
    (Chain : List command) (hC : 1 ≤ Count) :
    ParseSpaceLoop Count Args fuel { optind := optind, optarg := oa, nextchar := nextchar }
        Chain =
      ParseSpaceLoop Count Args fuel { optind := optind, optarg := oa1, nextchar := nextchar }
        Chain := by
  cases fuel with
  | zero => rfl
  | succ n =>
    rw [ParseSpaceLoop, ParseSpaceLoop, getopt_long_optarg Count Args SpaceShort optind oa oa1
      nextchar hC]

/-- A run of the loop of `ParseSpaceCommand` that starts with a null scan
pointer and ends with success leaves the scan pointer and `optarg` null. -/
theorem ParseSpaceLoop_done (Count : Nat) (Args : List (Option (List Char))) (hC : 1 ≤ Count)
    (fuel : Nat) :
    ∀ (g g1 : getopt_globals) (Chain Chain1 : List command),
      g.nextchar = none →
      ParseSpaceLoop Count Args fuel g Chain = some (true, Chain1, g1) →
      g1.nextchar = none ∧ g1.optarg = none := by
  induction fuel with
  | zero => intro g g1 Chain Chain1 _ h; simp [ParseSpaceLoop] at h
  | succ n ih =>
    intro g g1 Chain Chain1 hg h
    rw [ParseSpaceLoop] at h
    split at h
    · simp at h
    · next g2 hget =>
      simp only [Option.some.injEq, Prod.mk.injEq, true_and] at h
      rw [← h.2]
      exact (getopt_long_nextchar Count Args SpaceShort g g2 none hC space_short_argument
        hg hget).1 rfl
    · next Opt g2 hget =>
      have hn := (getopt_long_nextchar Count Args SpaceShort g g2 (some Opt) hC
        space_short_argument hg hget).2 Opt rfl
      by_cases hq : Opt = '?'
      · subst hq
        simp [show ¬ ('?' = 'r') by decide] at h
      · have hg2 : g2.nextchar = none := by
          rcases hn with e | e
          · exact e
          · exact absurd e hq
        split_ifs at h
        all_goals first
          | (split at h
             · simp at h
             · split_ifs at h
               · exact ih _ _ _ _ hg2 h
               · simp at h)
          | simp at h
          | exact ih _ _ _ _ hg2 h

/-- Every exit of `ParseSpaceCommand` leaves `optind` at 1. -/
theorem ParseSpaceCommand_optind (Message : List Char) (g g1 : getopt_globals)
    (Success : Bool) (Chain : List command)
    (h : ParseSpaceCommand Message g = some (Success, Chain, g1)) : g1.optind = 1 := by
  unfold ParseSpaceCommand at h
  split at h
  · simp at h
  · split_ifs at h
    split at h
    · simp at h
    · simp only [Option.some.injEq, Prod.mk.injEq] at h
      rw [← h.2.2]

/-- The result of `ParseSpaceCommand` does not depend on the `optarg` left by
an earlier parse. -/
theorem ParseSpaceCommand_optarg (Message : List Char) (optind : Nat)
    (oa oa1 : Option (List Char)) (nextchar : Option (List Char)) :
    ParseSpaceCommand Message { optind := optind, optarg := oa, nextchar := nextchar } =
      ParseSpaceCommand Message { optind := optind, optarg := oa1, nextchar := nextchar } := by
  unfold ParseSpaceCommand
  rw [BuildArguments_eq]
  simp only
  rw [ParseSpaceLoop_optarg _ _ _ optind oa oa1 nextchar [] (by omega)]

/-- A space message that parses with success, `optind` being 1, leaves `getopt`
as in a fresh process, and parsing it again gives the same chain. -/
theorem ParseSpaceCommand_twice (Message : List Char) (g g1 : getopt_globals)
    (Chain : List command) (hind : g.optind = 1)
    (h : ParseSpaceCommand Message g = some (true, Chain, g1)) :
    g1 = getopt_reset ∧ ParseSpaceCommand Message g1 = some (true, Chain, g1) := by
  obtain ⟨optind, oa, nextchar⟩ := g
  simp only at hind
  subst hind
  have h0 := h
  unfold ParseSpaceCommand at h
  rw [BuildArguments_eq] at h
  simp only at h
  split_ifs at h with hfit hnext
  simp only [Bool.not_eq_true, Option.not_isSome, Option.isNone_iff_eq_none] at hnext
  subst hnext
  split at h
  · simp at h
  · next Success Chain1 g2 hloop =>
    simp only [Option.some.injEq, Prod.mk.injEq] at h
    obtain ⟨hS, hCh, hg⟩ := h
    subst hS hCh
    obtain ⟨hn, ho⟩ := ParseSpaceLoop_done _ _ (by omega) _ _ _ _ _ rfl hloop
    have hg1 : g1 = getopt_reset := by
      rw [← hg, hn, ho]; rfl
    refine ⟨hg1, ?_⟩
    rw [← h0, hg1]
    exact ParseSpaceCommand_optarg Message 1 none oa none

/-- A parse entered with a scan pointer that is not null has no defined
result: the pointer is into strings that the parse before has freed. -/
theorem ParseWindowCommand_dangling (Message : List Char) (g : getopt_globals)
    (h : g.nextchar ≠ none) :
    ParseWindowCommand Message g = none ∧ ParseSpaceCommand Message g = none := by
  have hs : g.nextchar.isSome = true := by
    cases hn : g.nextchar with
    | none => exact absurd hn h
    | some _ => rfl
  unfold ParseWindowCommand ParseSpaceCommand
  rw [BuildArguments_eq]
  simp only [hs, if_true, ite_self, and_self]

/-! ## The split ratio over floats with a NaN -/

/-- C3. The messages `config bsp_split_ratio nan`, then `window -f east`, over
floats with a NaN. The first stores the NaN as the split ratio. The second
parses with success and calls `FocusWindow`, which leaves the store alone: the
split ratio after the chain is the very value captured before it. The test
`Ratio != CVarFloatingPointValue(...)` holds all the same, since a NaN differs
from itself, and the callback issues the restoring update; and after the
callback has returned, the split ratio still compares different from the
captured value. -/
theorem DaemonCallback_ratio_restored_nan :
    sscanf_f ['n', 'a', 'n'] = 1 ∧
    (DaemonCallback nan_environment "config bsp_split_ratio nan".toList nan_daemon).map
        (fun s => s.world) = some [("bsp_split_ratio".toList, .float none)] ∧
    ParseWindowCommand "-f east".toList getopt_reset =
      some (true, [{ Flag := 'f', Arg := "east".toList }], getopt_reset) ∧
    nan_read "bsp_split_ratio".toList
        (nan_environment.perform (.Command .FocusWindow "east".toList)
          [("bsp_split_ratio".toList, .float none)]) =
      nan_read "bsp_split_ratio".toList [("bsp_split_ratio".toList, .float none)] ∧
    ((DaemonCallback nan_environment "config bsp_split_ratio nan".toList nan_daemon).bind
        (DaemonCallback nan_environment "window -f east".toList)).map (fun s => s.calls) =
      some [.UpdateCVar "bsp_split_ratio".toList (.float none),
        .Command .FocusWindow "east".toList,
        .UpdateCVar "bsp_split_ratio".toList (.float none)] ∧
    ((DaemonCallback nan_environment "config bsp_split_ratio nan".toList nan_daemon).bind
        (DaemonCallback nan_environment "window -f east".toList)).map
        (fun s => nan_environment.float_ne
          (nan_read "bsp_split_ratio".toList [("bsp_split_ratio".toList, .float none)])
          (nan_environment.CVarFloatingPointValue "bsp_split_ratio".toList s.world)) =
      some true := by
  decide

/-! ## Messages that overrun the argument array -/

/-- C7. The 24 words `a` to `x` joined by single spaces: `BuildArguments`
counts 25 and stores the words in slots 1 to 24, although it has allocated
`ArgsCapacity` = 16 slots. The stores to slots 16 to 24, of the words `p` to
`x`, are past the end of the array. -/
theorem BuildArguments_round_trip_overflow :
    "a b c d e f g h i j k l m n o p q r s t u v w x".toList =
      List.intercalate [' ']
        [['a'], ['b'], ['c'], ['d'], ['e'], ['f'], ['g'], ['h'], ['i'], ['j'], ['k'], ['l'], ['m'], ['n'], ['o'], ['p'], ['q'], ['r'], ['s'], ['t'], ['u'], ['v'], ['w'], ['x']] ∧
    ArgsCapacity = 16 ∧
    (BuildArguments "a b c d e f g h i j k l m n o p q r s t u v w x".toList).map
        (fun A => (A.Count, A.Args.drop ArgsCapacity)) =
      some (25, [some ['p'], some ['q'], some ['r'], some ['s'], some ['t'], some ['u'],
        some ['v'], some ['w'], some ['x']]) := by
  decide

/-- C17. A message with a leading space and doubled spaces, of 20 fields:
`BuildArguments` counts 21 and stores the fields in slots 1 to 20, although it
has allocated `ArgsCapacity` = 16 slots. The stores to slots 16 to 20, of the
fields `h`, empty, `i`, empty, `j`, are past the end of the array. -/
theorem BuildArguments_fields_overflow :
    split_fields " a  b  c  d  e  f  g  h  i  j".toList =
      [[], ['a'], [], ['b'], [], ['c'], [], ['d'], [], ['e'], [], ['f'], [], ['g'], [], ['h'],
        [], ['i'], [], ['j']] ∧
    ArgsCapacity = 16 ∧
    (BuildArguments " a  b  c  d  e  f  g  h  i  j".toList).map
        (fun A => (A.Count, A.Args.drop ArgsCapacity)) =
      some (21, [some ['h'], some [], some ['i'], some [], some ['j']]) := by
  decide

/-- C2. The window message of the twelve accepted pairs `-f east`:
`BuildArguments` cuts the text after `window` into 24 tokens and counts 25, so
that nine of its stores are past the `ArgsCapacity` = 16 slots it has
allocated. `ParseWindowCommand`, which goes on to hand the array to
`getopt_long`, has no defined result, and neither has the callback. -/
theorem DaemonCallback_window_pairs_overflow :
    window_argument_accepted 'f' "east".toList = true ∧
    "-f east -f east -f east -f east -f east -f east -f east -f east -f east -f east -f east -f east".toList =
      List.intercalate [' '] (pair_words (List.replicate 12 ('f', "east".toList))) ∧
    ArgsCapacity = 16 ∧
    (BuildArguments "-f east -f east -f east -f east -f east -f east -f east -f east -f east -f east -f east -f east".toList).map
        (fun A => (A.Count, (A.Args.drop ArgsCapacity).length)) = some (25, 9) ∧
    ParseWindowCommand "-f east -f east -f east -f east -f east -f east -f east -f east -f east -f east -f east -f east".toList getopt_reset = none ∧
    (DaemonCallback sample_environment "window -f east -f east -f east -f east -f east -f east -f east -f east -f east -f east -f east -f east".toList (sample_daemon [])).map
        (fun s => s.calls) = none := by
  decide

/-! ## A parse after an unknown flag -/

/-- C4. The message `-qq x`, then `-f east`. The first parse fails at the
unknown flag `q` and returns with the scan pointer of `getopt` after that `q`,
inside the string `-qq`; `FreeArguments` has freed that string and `optind = 1`
does not reset the pointer. The parse of `-f east` starts by reading through
it: it has no defined result. In a fresh process the same message is accepted
with the command `f`, `east`. -/
theorem ParseWindowCommand_selector_dangling :
    ParseWindowCommand "-qq x".toList getopt_reset =
      some (false, [], { optind := 1, optarg := none, nextchar := some ['q'] }) ∧
    ParseWindowCommand "-f east".toList
        { optind := 1, optarg := none, nextchar := some ['q'] } = none ∧
    ParseWindowCommand "-f east".toList getopt_reset =
      some (true, [{ Flag := 'f', Arg := "east".toList }], getopt_reset) := by
  decide

/-- C6. The messages `space -xx y`, then `space -r 180`. The first parse fails
at the unknown flag `x`; the callback makes no call and returns with the scan
pointer of `getopt` after that `x`, inside the freed string `-xx`. The parse of
`-r 180` starts by reading through it: the callback has no defined result. In a
fresh process the same message makes the one call `RotateWindowTree` with
`180`. -/
theorem DaemonCallback_space_rotation_dangling :
    (DaemonCallback sample_environment "space -xx y".toList (sample_daemon [])).map
        (fun s => (s.calls, s.getopt)) =
      some ([], { optind := 1, optarg := none, nextchar := some ['x'] }) ∧
    ((DaemonCallback sample_environment "space -xx y".toList (sample_daemon [])).bind
        (DaemonCallback sample_environment "space -r 180".toList)).map (fun s => s.calls) =
      none ∧
    (DaemonCallback sample_environment "space -r 180".toList (sample_daemon [])).map
        (fun s => s.calls) = some [.Command .RotateWindowTree "180".toList] := by
  decide

/-- C15. The messages `window -qq x`, then `window -s west`. The first parse
fails at the unknown flag `q`; every exit sets `optind` to 1, and this one
leaves the scan pointer of `getopt` inside the string `-qq`, which
`FreeArguments` has freed. The parse of `-s west` that comes next starts by
reading through that pointer and has no defined result, while in a fresh
process the same message gives the chain `s`, `west` and the call `SwapWindow`
with `west`: what a parse does depends on the message parsed before it. The
same holds for a space message parsed after it. -/
theorem ParseWindowCommand_depends_on_history :
    (DaemonCallback sample_environment "window -qq x".toList (sample_daemon [])).map
        (fun s => (s.calls, s.getopt)) =
      some ([], { optind := 1, optarg := none, nextchar := some ['q'] }) ∧
    ((DaemonCallback sample_environment "window -qq x".toList (sample_daemon [])).bind
        (DaemonCallback sample_environment "window -s west".toList)).map (fun s => s.calls) =
      none ∧
    ParseWindowCommand "-s west".toList getopt_reset =
      some (true, [{ Flag := 's', Arg := "west".toList }], getopt_reset) ∧
    (DaemonCallback sample_environment "window -s west".toList (sample_daemon [])).map
        (fun s => s.calls) = some [.Command .SwapWindow "west".toList] ∧
    ((DaemonCallback sample_environment "window -qq x".toList (sample_daemon [])).bind
        (DaemonCallback sample_environment "space -r 90".toList)).map (fun s => s.calls) =
      none ∧
    (DaemonCallback sample_environment "space -r 90".toList (sample_daemon [])).map
        (fun s => s.calls) = some [.Command .RotateWindowTree "90".toList] := by
  decide

/-! ## When a parse has a result -/

theorem getopt_long_skip (Count : Nat) (Args : List (Option (List Char))) (Short : List Char)
    (n : Nat) (oa oa1 : Option (List Char)) (a : List Char) (rest : List (Option (List Char)))
    (hC : Count = Args.length) (hdrop : Args.drop n = some a :: rest)
    (hnon : NONOPTION_P a = true) :
    getopt_long Count Args Short { optind := n, optarg := oa, nextchar := none } =
      getopt_long Count Args Short { optind := n + 1, optarg := oa1, nextchar := none } := by
  have hdrop1 : Args.drop (n + 1) = rest := by
    have := congrArg List.tail hdrop
    simpa [List.tail_drop] using this
  have hlt : n < Args.length := by
    by_contra hge
    rw [List.drop_of_length_le (by omega)] at hdrop
    exact absurd hdrop (by simp)
  have h1 : ¬ Args.length < 1 := by omega
  unfold getopt_long
  simp only [true_or, if_true]
  rw [hC, List.take_length, hdrop, hdrop1]
  simp only [getopt_skip, hnon, if_true, h1, if_false]

/-- One call of `getopt_long` on an argument list whose slots from `optind` on
are all initialised, entered with a null scan pointer, for an option string in
which every option takes a required argument: the call returns; and when it
returns an option other than `?`, the option comes with its argument, the scan
pointer is null again and `optind` has moved on. -/
theorem getopt_long_defined (Short : List Char)
    (hS : ∀ c temp, strchr Short c = some temp → c ≠ ':' →
      temp.tail.head? = some ':' ∧ temp.tail.tail.head? ≠ some ':')
    (h0 : Short.head? ≠ some ':') (l : List (List Char)) :
    ∀ (pre : List (Option (List Char))) (oa : Option (List Char)), 1 ≤ pre.length →
      ∃ (r : Option Char) (g1 : getopt_globals),
        getopt_long (pre ++ l.map some).length (pre ++ l.map some) Short
          { optind := pre.length, optarg := oa, nextchar := none } = some (r, g1) ∧
        (r = none ∨ ∃ Opt, r = some Opt ∧ l ≠ [] ∧
          (Opt = '?' ∨ (g1.nextchar = none ∧ g1.optarg.isSome = true ∧
            pre.length < g1.optind ∧ g1.optind ≤ (pre ++ l.map some).length))) := by
  induction l with
  | nil =>
    intro pre oa hpre
    simp only [List.map_nil, List.append_nil]
    rw [getopt_long_end Short pre oa hpre]
    exact ⟨_, _, rfl, Or.inl rfl⟩
  | cons a l ih =>
    intro pre oa hpre
    have hdrop : (pre ++ (a :: l).map some).drop pre.length = some a :: l.map some := by
      simp
    by_cases hnon : NONOPTION_P a = true
    · obtain ⟨r, g1, hg, hr⟩ := ih (pre ++ [some a]) oa (by simp)
      have hshape : pre ++ (a :: l).map some = (pre ++ [some a]) ++ l.map some := by simp
      have hlen : (pre ++ [some a]).length = pre.length + 1 := by simp
      refine ⟨r, g1, ?_, ?_⟩
      · rw [getopt_long_skip _ _ Short pre.length oa oa a (l.map some) rfl hdrop hnon, hshape,
          ← hlen]
        exact hg
      · rcases hr with hr | ⟨Opt, hO, _, hq⟩
        · exact Or.inl hr
        · refine Or.inr ⟨Opt, hO, by simp, ?_⟩
          rcases hq with hq | ⟨h1, h2, h3, h4⟩
          · exact Or.inl hq
          · exact Or.inr ⟨h1, h2, by rw [hlen] at h3; omega, by rw [hshape]; exact h4⟩
    · have hnon : NONOPTION_P a = false := by simpa using hnon
      rw [getopt_long_start _ _ Short pre.length oa a (l.map some) rfl hdrop hnon]
      by_cases hdd : a = ['-', '-']
      · rw [if_pos hdd]
        exact ⟨none, _, rfl, Or.inl rfl⟩
      · rw [if_neg hdd]
        obtain ⟨c, cs, rfl⟩ : ∃ c cs, a = '-' :: c :: cs := by
          match a, hnon with
          | [], h => simp [NONOPTION_P] at h
          | [_], h => simp [NONOPTION_P] at h
          | d :: c :: cs, h =>
            simp only [NONOPTION_P, ne_eq, decide_not, Bool.not_eq_false',
              decide_eq_true_eq] at h
            exact ⟨c, cs, by rw [h]⟩
        simp only [getopt_short, List.tail_cons]
        cases hs : strchr Short c with
        | none => exact ⟨_, _, rfl, Or.inr ⟨'?', rfl, by simp, Or.inl rfl⟩⟩
        | some temp =>
          by_cases hc : c = ':' ∨ c = ';'
          · simp only [hc, if_true]
            exact ⟨_, _, rfl, Or.inr ⟨'?', rfl, by simp, Or.inl rfl⟩⟩
          · have hcc : c ≠ ':' := fun e => hc (Or.inl e)
            obtain ⟨ht1, ht2⟩ := hS c temp hs hcc
            simp only [hc, if_false, ht1, if_true, ht2]
            by_cases hcs : cs.isEmpty = true
            · simp only [hcs, if_true, not_true_eq_false, if_false]
              cases l with
              | nil =>
                simp only [List.map_cons, List.map_nil, List.length_append, List.length_cons,
                  List.length_nil, if_true, h0, if_false]
                exact ⟨_, _, rfl, Or.inr ⟨'?', rfl, by simp, Or.inl rfl⟩⟩
              | cons b l =>
                have hne : ¬ (pre.length + 1 =
                    (pre ++ List.map some (('-' :: c :: cs) :: b :: l)).length) := by
                  simp
                have hget : (pre ++ List.map some (('-' :: c :: cs) :: b :: l))[pre.length + 1]? =
                    some (some b) := by
                  rw [List.getElem?_append_right (by omega)]
                  simp
                simp only [hne, if_false, hget]
                exact ⟨_, _, rfl, Or.inr ⟨c, rfl, by simp, Or.inr ⟨rfl, rfl, by simp only; omega, by simp only [List.length_append, List.length_map, List.length_cons]; omega⟩⟩⟩
            · simp only [hcs, if_false, not_false_eq_true, if_true]
              exact ⟨_, _, rfl, Or.inr ⟨c, rfl, by simp, Or.inr ⟨rfl, rfl, by simp, by simp⟩⟩⟩

theorem window_short_required (c : Char) (temp : List Char)
    (h : strchr WindowShort c = some temp) (hc : c ≠ ':') :
    temp.tail.head? = some ':' ∧ temp.tail.tail.head? ≠ some ':' := by
  simp only [strchr, WindowShort] at h
  split_ifs at h <;>
    first
      | (simp only [Option.some.injEq] at h; rw [← h]; exact ⟨rfl, by decide⟩)
      | exact absurd (by assumption : ':' = c).symm hc

theorem space_short_required (c : Char) (temp : List Char)
    (h : strchr SpaceShort c = some temp) (hc : c ≠ ':') :
    temp.tail.head? = some ':' ∧ temp.tail.tail.head? ≠ some ':' := by
  simp only [strchr, SpaceShort] at h
  split_ifs at h <;>
    first
      | (simp only [Option.some.injEq] at h; rw [← h]; exact ⟨rfl, by decide⟩)
      | exact absurd (by assumption : ':' = c).symm hc

theorem take_append_drop_map (pre : List (Option (List Char))) (l : List (List Char)) (k : Nat)
    (h1 : pre.length ≤ k) (h2 : k ≤ (pre ++ l.map some).length) :
    (pre ++ l.map some).take k ++ (l.drop (k - pre.length)).map some = pre ++ l.map some ∧
      ((pre ++ l.map some).take k).length = k := by
  constructor
  · conv_rhs => rw [← List.take_append_drop k (pre ++ l.map some)]
    congr 1
    rw [List.drop_append_eq_append_drop, List.drop_of_length_le h1, List.nil_append,
      List.map_drop]
  · rw [List.length_take]
    omega

/-- The loop of `ParseWindowCommand` on an argument list whose slots from
`optind` on are all initialised, entered with a null scan pointer and a budget
of one round per remaining element and one more: it returns. -/
theorem ParseWindowLoop_defined (fuel : Nat) :
    ∀ (l : List (List Char)) (pre : List (Option (List Char))) (oa : Option (List Char))
      (Chain : List command), 1 ≤ pre.length → l.length + 1 ≤ fuel →
      ∃ r, ParseWindowLoop (pre ++ l.map some).length (pre ++ l.map some) fuel
        { optind := pre.length, optarg := oa, nextchar := none } Chain = some r := by
  induction fuel with
  | zero => intro l pre oa Chain _ h; omega
  | succ n ih =>
    intro l pre oa Chain hpre hfuel
    obtain ⟨r, g1, hg, hr⟩ := getopt_long_defined WindowShort window_short_required
      (by decide) l pre oa hpre
    rw [ParseWindowLoop, hg]
    rcases hr with rfl | ⟨Opt, rfl, hl, hq⟩
    · exact ⟨_, rfl⟩
    · simp only
      rcases hq with rfl | ⟨hn, ho, hlt, hle⟩
      · exact ⟨(false, [], g1), by simp⟩
      · obtain ⟨a, ha⟩ := Option.isSome_iff_exists.mp ho
        have hrec : ∀ Chain1 : List command, ∃ r,
            ParseWindowLoop (pre ++ l.map some).length (pre ++ l.map some) n g1 Chain1 =
              some r := by
          intro Chain1
          obtain ⟨e1, e2⟩ := take_append_drop_map pre l g1.optind (by omega) hle
          have hlen : (l.drop (g1.optind - pre.length)).length + 1 ≤ n := by
            rw [List.length_drop]
            have : l.length ≠ 0 := fun e => hl (List.length_eq_zero.mp e)
            omega
          have := ih (l.drop (g1.optind - pre.length)) ((pre ++ l.map some).take g1.optind)
            g1.optarg Chain1 (by rw [e2]; omega) hlen
          rw [e1, e2] at this
          obtain ⟨optind, optarg, nextchar⟩ := g1
          simp only at hn
          subst hn
          exact this
        rw [ha]
        simp only
        split_ifs <;> first | exact hrec _ | exact ⟨_, rfl⟩

/-- The loop of `ParseSpaceCommand` under the same conditions: it returns. -/
theorem ParseSpaceLoop_defined (fuel : Nat) :
    ∀ (l : List (List Char)) (pre : List (Option (List Char))) (oa : Option (List Char))
      (Chain : List command), 1 ≤ pre.length → l.length + 1 ≤ fuel →
      ∃ r, ParseSpaceLoop (pre ++ l.map some).length (pre ++ l.map some) fuel
        { optind := pre.length, optarg := oa, nextchar := none } Chain = some r := by
  induction fuel with
  | zero => intro l pre oa Chain _ h; omega
  | succ n ih =>
    intro l pre oa Chain hpre hfuel
    obtain ⟨r, g1, hg, hr⟩ := getopt_long_defined SpaceShort space_short_required
      (by decide) l pre oa hpre
    rw [ParseSpaceLoop, hg]
    rcases hr with rfl | ⟨Opt, rfl, hl, hq⟩
    · exact ⟨_, rfl⟩
    · simp only
      rcases hq with rfl | ⟨hn, ho, hlt, hle⟩
      · exact ⟨(false, [], g1), by simp⟩
      · obtain ⟨a, ha⟩ := Option.isSome_iff_exists.mp ho
        have hrec : ∀ Chain1 : List command, ∃ r,
            ParseSpaceLoop (pre ++ l.map some).length (pre ++ l.map some) n g1 Chain1 =
              some r := by
          intro Chain1
          obtain ⟨e1, e2⟩ := take_append_drop_map pre l g1.optind (by omega) hle
          have hlen : (l.drop (g1.optind - pre.length)).length + 1 ≤ n := by
            rw [List.length_drop]
            have : l.length ≠ 0 := fun e => hl (List.length_eq_zero.mp e)
            omega
          have := ih (l.drop (g1.optind - pre.length)) ((pre ++ l.map some).take g1.optind)
            g1.optarg Chain1 (by rw [e2]; omega) hlen
          rw [e1, e2] at this
          obtain ⟨optind, optarg, nextchar⟩ := g1
          simp only at hn
          subst hn
          exact this
        rw [ha]
        simp only
        split_ifs <;> first | exact hrec _ | exact ⟨_, rfl⟩

/-- With `optind` at 1, `ParseWindowCommand` has no result in exactly two
cases: the message has more fields than the argument array has slots for, or
the scan pointer of `getopt` is not null on entry. In every other case the
loop ends within its budget and every slot it reads has been written. -/
theorem ParseWindowCommand_none_iff (Message : List Char) (g : getopt_globals)
    (hind : g.optind = 1) :
    ParseWindowCommand Message g = none ↔
      (ArgsCapacity < (message_fields Message []).length + 1 ∨ g.nextchar ≠ none) := by
  obtain ⟨optind, oa, nextchar⟩ := g
  simp only at hind
  subst hind
  have hlen := message_fields_length_le Message []
  simp only [List.isEmpty_nil, if_true, Nat.add_zero] at hlen
  unfold ParseWindowCommand
  rw [BuildArguments_eq]
  simp only
  by_cases hfit : ArgsCapacity < (message_fields Message []).length + 1
  · simp [hfit]
  · cases nextchar with
    | some t => simp
    | none =>
      obtain ⟨r, hr⟩ := ParseWindowLoop_defined (Message.length + 1) (message_fields Message [])
        [none] oa [] (by simp) (by omega)
      simp only [List.singleton_append, List.length_cons, List.length_map,
        List.length_singleton, List.length_nil, Nat.zero_add] at hr
      obtain ⟨Success, Chain, g1⟩ := r
      simp only [hfit, if_false, Option.isSome_none, Bool.false_eq_true, hr, ne_eq,
        not_true_eq_false, or_self, iff_false]
      simp

/-- With `optind` at 1, `ParseSpaceCommand` has no result in exactly the same
two cases. -/
theorem ParseSpaceCommand_none_iff (Message : List Char) (g : getopt_globals)
    (hind : g.optind = 1) :
    ParseSpaceCommand Message g = none ↔
      (ArgsCapacity < (message_fields Message []).length + 1 ∨ g.nextchar ≠ none) := by
  obtain ⟨optind, oa, nextchar⟩ := g
  simp only at hind
  subst hind
  have hlen := message_fields_length_le Message []
  simp only [List.isEmpty_nil, if_true, Nat.add_zero] at hlen
  unfold ParseSpaceCommand
  rw [BuildArguments_eq]
  simp only
  by_cases hfit : ArgsCapacity < (message_fields Message []).length + 1
  · simp [hfit]
  · cases nextchar with
    | some t => simp
    | none =>
      obtain ⟨r, hr⟩ := ParseSpaceLoop_defined (Message.length + 1) (message_fields Message [])
        [none] oa [] (by simp) (by omega)
      simp only [List.singleton_append, List.length_cons, List.length_map,
        List.length_singleton, List.length_nil, Nat.zero_add] at hr
      obtain ⟨Success, Chain, g1⟩ := r
      simp only [hfit, if_false, Option.isSome_none, Bool.false_eq_true, hr, ne_eq,
        not_true_eq_false, or_self, iff_false]
      simp

end Chunkwm
